import Mathlib

/-!
# Rag_Resume: chunking and similarity core

A shallow embedding of `backend/utils/fileParser.js` (`chunkText`),
`backend/utils/embeddings.js` (`computeCosineSimilarity`, `findSimilarChunks`),
`backend/controllers/jobsController.js` (`matchJob` and its helper functions)
and `backend/controllers/searchController.js` (`askQuestion`, `searchResumes`,
`checkEligibility`).

JavaScript numbers are IEEE 754 binary64 values; they are modelled exactly by
`F64` below.  JavaScript strings are sequences of UTF-16 code units; they are
modelled as `List Nat`, one entry per code unit.  Array indices, string lengths
and the loop counter of `chunkText` are integers of moderate size on which
binary64 arithmetic is exact; they are modelled by `Int` and `Nat`.
-/

namespace RagResume

/-! ## IEEE 754 binary64 -/

/-- A JavaScript number.  `fin neg n` is the finite value
`(-1)^neg * n * 2^(-1074)`; every finite binary64 value, subnormal or normal,
is an integer multiple of `2^(-1074)`.  `fin true 0` is the negative zero. -/
inductive F64 where
  | nan : F64
  | inf (neg : Bool) : F64
  | fin (neg : Bool) (n : Nat) : F64
deriving DecidableEq

namespace F64

/-- Bit length by repeated halving; the first argument bounds the number of
halvings. -/
def bitLenAux : Nat → Nat → Nat
  | 0, _ => 0
  | fuel + 1, n => if n = 0 then 0 else bitLenAux fuel (n / 2) + 1

/-- Number of binary digits of `n` (`0` for `n = 0`). -/
def bitLen (n : Nat) : Nat := bitLenAux n n

/-- Digit-by-digit integer square root: decides the bits `k-1, ..., 0` of the
root of `n`, starting from the partial root `r`. -/
def sqrtBits : Nat → Nat → Nat → Nat
  | 0, _, r => r
  | k + 1, n, r =>
    if (r + 2 ^ k) * (r + 2 ^ k) ≤ n then sqrtBits k n (r + 2 ^ k) else sqrtBits k n r

/-- Integer square root, the largest `r` with `r * r ≤ n`. -/
def isqrt (n : Nat) : Nat := sqrtBits (bitLen n) n 0

/-- Number of low bits that are dropped when a magnitude whose integer part is
`q` units of `2^(-1074)` is stored with a 53 bit significand. -/
def dropBits (q : Nat) : Nat := bitLen q - 53

/-- Nearest integer to `num / den`, ties to the even integer. -/
def nearestEven (num den : Nat) : Nat :=
  let q := num / den
  if 2 * num < (2 * q + 1) * den then q
  else if (2 * q + 1) * den < 2 * num then q + 1
  else if q % 2 = 0 then q else q + 1

/-- Round the magnitude `num / den` (in units of `2^(-1074)`) to the nearest
binary64 value, ties to even, overflowing to infinity. -/
def round (neg : Bool) (num den : Nat) : F64 :=
  let s := dropBits (num / den)
  let m := nearestEven num (den * 2 ^ s) * 2 ^ s
  if m < 2 ^ 2098 then fin neg m else inf neg

/-- Round the magnitude `sqrt N` (in units of `2^(-1074)`) to the nearest
binary64 value, ties to even. -/
def roundSqrt (N : Nat) : F64 :=
  let r := isqrt N
  let s := dropBits r
  let q := r / 2 ^ s
  let mid := (2 * q + 1) * 2 ^ s
  let m :=
    if 4 * N < mid * mid then q
    else if mid * mid < 4 * N then q + 1
    else if q % 2 = 0 then q else q + 1
  if m * 2 ^ s < 2 ^ 2098 then fin false (m * 2 ^ s) else inf false

/-- The number `+0`. -/
def zero : F64 := fin false 0

/-- Unary minus. -/
def neg : F64 → F64
  | nan => nan
  | inf s => inf (!s)
  | fin s n => fin (!s) n

/-- Binary64 addition `x + y`. -/
def add : F64 → F64 → F64
  | nan, _ => nan
  | _, nan => nan
  | inf s, inf t => if s = t then inf s else nan
  | inf s, fin _ _ => inf s
  | fin _ _, inf t => inf t
  | fin s a, fin t b =>
    if s = t then round s (a + b) 1
    else if b < a then round s (a - b) 1
    else if a < b then round t (b - a) 1
    else fin false 0

/-- Binary64 subtraction `x - y`. -/
def sub (x y : F64) : F64 := add x (neg y)

/-- Binary64 multiplication `x * y`. -/
def mul : F64 → F64 → F64
  | nan, _ => nan
  | _, nan => nan
  | inf s, inf t => inf (xor s t)
  | inf s, fin t b => if b = 0 then nan else inf (xor s t)
  | fin s a, inf t => if a = 0 then nan else inf (xor s t)
  | fin s a, fin t b => round (xor s t) (a * b) (2 ^ 1074)

/-- Binary64 division `x / y`. -/
def div : F64 → F64 → F64
  | nan, _ => nan
  | _, nan => nan
  | inf _, inf _ => nan
  | inf s, fin t _ => inf (xor s t)
  | fin s _, inf t => fin (xor s t) 0
  | fin s a, fin t b =>
    if b = 0 then (if a = 0 then nan else inf (xor s t))
    else round (xor s t) (a * 2 ^ 1074) b

/-- The function `Math.sqrt`. -/
def sqrt : F64 → F64
  | nan => nan
  | inf s => if s then nan else inf false
  | fin s n => if n = 0 then fin s 0 else if s then nan else roundSqrt (n * 2 ^ 1074)

/-- The comparison `x < y` of JavaScript numbers (false when either is NaN). -/
def lt : F64 → F64 → Bool
  | nan, _ => false
  | _, nan => false
  | inf s, inf t => s && !t
  | inf s, fin _ _ => s
  | fin _ _, inf t => !t
  | fin s a, fin t b =>
    match s, t with
    | false, false => decide (a < b)
    | true, true => decide (b < a)
    | true, false => decide (0 < a ∨ 0 < b)
    | false, true => false

/-- The comparison `x > y` of JavaScript numbers. -/
def gt (x y : F64) : Bool := lt y x

/-- The number denoted by a non-negative integer. -/
def ofNat (n : Nat) : F64 := round false (n * 2 ^ 1074) 1

/-- The number denoted by an integer. -/
def ofInt : Int → F64
  | Int.ofNat n => ofNat n
  | Int.negSucc n => round true ((n + 1) * 2 ^ 1074) 1

/-- The literal `0.7`: the binary64 value `6305039478318694 * 2^(-53)`. -/
def lit07 : F64 := fin false (6305039478318694 * 2 ^ 1021)

/-- The literal `0.8`: the binary64 value `7205759403792794 * 2^(-53)`. -/
def lit08 : F64 := fin false (7205759403792794 * 2 ^ 1021)

/-- Whether the value is NaN. -/
def isNaN : F64 → Bool
  | nan => true
  | _ => false

/-- The comparison `x == y` of JavaScript numbers (false when either is NaN,
true for the two zeros). -/
def eq (x y : F64) : Bool := !isNaN x && !isNaN y && !lt x y && !lt y x

/-- The comparison `x >= y` of JavaScript numbers (false when either is NaN). -/
def ge (x y : F64) : Bool := !isNaN x && !isNaN y && !lt x y

end F64

/-! ## JavaScript strings -/

/-- A JavaScript string: its sequence of UTF-16 code units. -/
abbrev JSString := List Nat

/-- The method `String.prototype.slice(start, end)`: negative arguments count from the
end, both are clamped to the string. -/
def jsSlice (s : JSString) (start stop : Int) : JSString :=
  let len : Int := s.length
  let from_ := if start < 0 then max (len + start) 0 else min start len
  let to_ := if stop < 0 then max (len + stop) 0 else min stop len
  (s.drop from_.toNat).take (to_ - from_).toNat

/-- The method `String.prototype.lastIndexOf` for a one-unit search string: the index of
the last occurrence of `c`, or `-1`. -/
def lastIndexOf : JSString → Nat → Int
  | [], _ => -1
  | x :: xs, c =>
    let r := lastIndexOf xs c
    if 0 ≤ r then r + 1 else if x = c then 0 else -1

/-- The code units removed by `String.prototype.trim` (WhiteSpace and
LineTerminator of ECMAScript). -/
def isWhiteSpace (c : Nat) : Bool :=
  c = 0x09 || c = 0x0A || c = 0x0B || c = 0x0C || c = 0x0D || c = 0x20 || c = 0xA0
    || c = 0x1680 || (0x2000 ≤ c && c ≤ 0x200A) || c = 0x2028 || c = 0x2029
    || c = 0x202F || c = 0x205F || c = 0x3000 || c = 0xFEFF

/-- The method `String.prototype.trim`. -/
def trim (s : JSString) : JSString :=
  ((s.dropWhile isWhiteSpace).reverse.dropWhile isWhiteSpace).reverse

/-- Code units of a string literal whose characters all lie in the Basic
Multilingual Plane. -/
def js (s : String) : JSString := s.toList.map Char.toNat

/-! ## `chunkText` (backend/utils/fileParser.js) -/

/-- An element of the array returned by `chunkText`. -/
structure Chunk where
  text : JSString
  startIndex : Int
  endIndex : Int
deriving DecidableEq

/-- The variables of the `while` loop of `chunkText`. -/
structure ChunkState where
  start : Int
  chunks : List Chunk
deriving DecidableEq

/-- The value of `chunk` when it is pushed: the window `text.slice(start, end)`,
cut back to a sentence or word boundary when the window stops before the end
of the text. -/
def chunkWindow (text : JSString) (chunkSize : Nat) (start : Int) : JSString :=
  let stop : Int := min (start + chunkSize) text.length
  let chunk := jsSlice text start stop
  if stop < text.length then
    let lastSentence := lastIndexOf chunk 46
    let lastWord := lastIndexOf chunk 32
    if F64.gt (F64.ofInt lastSentence) (F64.mul (F64.ofNat chunkSize) F64.lit07) then
      jsSlice chunk 0 (lastSentence + 1)
    else if F64.gt (F64.ofInt lastWord) (F64.mul (F64.ofNat chunkSize) F64.lit08) then
      jsSlice chunk 0 lastWord
    else chunk
  else chunk

/-- Valid offsets of a chunk into a text of `len` code units:
`0 <= startIndex < endIndex <= len`. -/
def Chunk.InBounds (len : Nat) (c : Chunk) : Prop :=
  0 ≤ c.startIndex ∧ c.startIndex < c.endIndex ∧ c.endIndex ≤ len

/-- One execution of the body of the `while` loop of `chunkText`. -/
def chunkBody (text : JSString) (chunkSize overlap : Nat) (st : ChunkState) : ChunkState :=
  let chunk := chunkWindow text chunkSize st.start
  { start := st.start + ((chunk.length : Int) - (overlap : Int))
    chunks := st.chunks ++
      [{ text := trim chunk, startIndex := st.start, endIndex := st.start + chunk.length }] }

/-- The `while (start < text.length)` loop of `chunkText`, run for at most
`fuel` iterations: `some chunks` when the loop condition fails within that
many iterations and the function returns `chunks`, `none` when it is still
iterating (a run that is still iterating after every number of iterations
never returns; an engine ends it only by running out of memory for the
array of chunks). -/
def chunkLoop (text : JSString) (chunkSize overlap : Nat) : Nat → ChunkState → Option (List Chunk)
  | 0, st => if st.start < text.length then none else some st.chunks
  | fuel + 1, st =>
    if st.start < text.length then chunkLoop text chunkSize overlap fuel (chunkBody text chunkSize overlap st)
    else some st.chunks

/-- The default value of the parameter `chunkSize`. -/
def defaultChunkSize : Nat := 1000

/-- The default value of the parameter `overlap`. -/
def defaultOverlap : Nat := 200

/-- The call `chunkText(text, chunkSize, overlap)` run for at most `fuel` iterations of
its loop.  The source contains no `throw`; a run either returns an array of
chunks or keeps iterating. -/
def chunkText (fuel : Nat) (text : JSString) (chunkSize overlap : Nat) : Option (List Chunk) :=
  chunkLoop text chunkSize overlap fuel { start := 0, chunks := [] }

/-! ## `computeCosineSimilarity` and `findSimilarChunks` (backend/utils/embeddings.js) -/

/-- The `for` loop of `computeCosineSimilarity` on vectors of equal length,
threading `(dotProduct, normA, normB)`. -/
def cosineLoop : List F64 → List F64 → F64 × F64 × F64 → F64 × F64 × F64
  | a :: as, b :: bs, (dot, normA, normB) =>
    cosineLoop as bs (F64.add dot (F64.mul a b), F64.add normA (F64.mul a a),
      F64.add normB (F64.mul b b))
  | _, _, acc => acc

/-- The function `computeCosineSimilarity(vecA, vecB)`; the copies of it in
`jobsController.js` and `searchController.js` have the same text. -/
def computeCosineSimilarity (vecA vecB : List F64) : F64 :=
  if vecA.length ≠ vecB.length then F64.zero
  else
    let acc := cosineLoop vecA vecB (F64.zero, F64.zero, F64.zero)
    F64.div acc.1 (F64.mul (F64.sqrt acc.2.1) (F64.sqrt acc.2.2))

/-- The dot product of the specification: the sum of the products of the
components, accumulated from the left in binary64. -/
def dotProduct (a b : List F64) : F64 :=
  (a.zip b).foldl (fun acc p => F64.add acc (F64.mul p.1 p.2)) F64.zero

/-- The norm of the specification: the binary64 square root of the sum of the
squares of the components, accumulated from the left. -/
def norm (a : List F64) : F64 :=
  F64.sqrt (a.foldl (fun acc x => F64.add acc (F64.mul x x)) F64.zero)

/-- A stored chunk of a resume or job: a `Chunk` with its embedding vector. -/
structure StoredChunk where
  text : JSString
  startIndex : Int
  endIndex : Int
  embedding : List F64
deriving DecidableEq

/-- An element of the array built by `findSimilarChunks`. -/
structure SimilarChunk where
  index : Nat
  chunk : StoredChunk
  similarity : F64
deriving DecidableEq

/-- The array `chunks.map((chunk, index) => ...)` of `findSimilarChunks`, with
indices counted from `i`. -/
def similaritiesFrom (queryEmbedding : List F64) : Nat → List StoredChunk → List SimilarChunk
  | _, [] => []
  | i, c :: cs =>
    { index := i, chunk := c, similarity := computeCosineSimilarity queryEmbedding c.embedding }
      :: similaritiesFrom queryEmbedding (i + 1) cs

/-- Insertion step of the stable sort: `x`, which precedes every element of the
list in the original array, moves behind `y` only when `comparefn(x, y) > 0`
(a NaN result counts as `+0`). -/
def insertBy {α : Type} (comparefn : α → α → F64) (x : α) : List α → List α
  | [] => [x]
  | y :: ys =>
    if F64.gt (comparefn x y) F64.zero then y :: insertBy comparefn x ys else x :: y :: ys

/-- The method `Array.prototype.sort(comparefn)` for a comparison function that
is consistent on the elements.  The sort is stable (ECMAScript 2019), so
there is one sorted arrangement, here computed by insertion.  With the
comparison functions of this program, differences of two keys, the function
is consistent when no key is NaN, and also when every comparison returns NaN
(which counts as `+0`): then all elements rank equal and the array stays as
it is.  Where some comparisons return NaN and others do not, the order is
left to the engine, and the statements below do not use the model there. -/
def sortBy {α : Type} (comparefn : α → α → F64) : List α → List α
  | [] => []
  | x :: xs => insertBy comparefn x (sortBy comparefn xs)

/-- The comparison function `(a, b) => b.similarity - a.similarity`. -/
def bySimilarityDesc (a b : SimilarChunk) : F64 := F64.sub b.similarity a.similarity

/-- The order of the specification on the entries: `x` is placed before `y`
when its similarity is greater, or when the similarities are equal and `x`
stood earlier in the original array. -/
def ComesBefore (x y : SimilarChunk) : Prop :=
  F64.gt x.similarity y.similarity = true ∨
    (F64.eq x.similarity y.similarity = true ∧ x.index < y.index)

/-- The function `findSimilarChunks(queryEmbedding, chunks, topK)`. -/
def findSimilarChunks (queryEmbedding : List F64) (chunks : List StoredChunk) (topK : Nat) :
    List SimilarChunk :=
  (sortBy bySimilarityDesc (similaritiesFrom queryEmbedding 0 chunks)).take topK

/-- Three stored chunks with the embeddings `[0, 1]`, `[1, 0]` and `[2, 0]`,
used to exercise `findSimilarChunks`. -/
def sampleChunks : List StoredChunk :=
  [{ text := js "a", startIndex := 0, endIndex := 1, embedding := [F64.ofNat 0, F64.ofNat 1] },
    { text := js "b", startIndex := 1, endIndex := 2, embedding := [F64.ofNat 1, F64.ofNat 0] },
    { text := js "c", startIndex := 2, endIndex := 3, embedding := [F64.ofNat 2, F64.ofNat 0] }]

/-! ## Further numbers and string methods -/

namespace F64

/-- The literal `0.3`: the binary64 value `5404319552844595 * 2^(-54)`. -/
def lit03 : F64 := fin false (5404319552844595 * 2 ^ 1020)

/-- The literal `0.5`. -/
def lit05 : F64 := fin false (2 ^ 1073)

/-- The function `Math.round`: the integer nearest to the argument, a tie going
to the larger integer; arguments in `[-0.5, 0)` give the negative zero. -/
def mathRound : F64 → F64
  | nan => nan
  | inf s => inf s
  | fin false n => fin false ((2 * n + 2 ^ 1074) / (2 * 2 ^ 1074) * 2 ^ 1074)
  | fin true n => fin true ((2 * n + 2 ^ 1074 - 1) / (2 * 2 ^ 1074) * 2 ^ 1074)

/-- The value of `x || 0` for a number `x`: NaN and the two zeros are falsy. -/
def orZero : F64 → F64
  | nan => zero
  | inf s => inf s
  | fin s n => if n = 0 then zero else fin s n

/-- A number that is an integer between 0 and 100. -/
def IsPercent (x : F64) : Prop := ∃ k : Nat, k ≤ 100 ∧ x = ofNat k

end F64

/-- The built-in conversions of the JavaScript engine that the model takes as
given: `String.prototype.toLowerCase` and the conversion of a number to a
string in a template literal. -/
structure Builtins where
  toLowerCase : JSString → JSString
  numberToString : F64 → JSString

/-- Lower-casing of the letters `A` to `Z`; the other code units are kept. -/
def asciiToLowerCase (s : JSString) : JSString :=
  s.map (fun c => if 65 ≤ c ∧ c ≤ 90 then c + 32 else c)

/-- Decimal digits of a natural number, most significant first; the first
argument bounds the number of digits. -/
def decimalDigits : Nat → Nat → JSString
  | 0, _ => []
  | fuel + 1, n => if n < 10 then [48 + n] else decimalDigits fuel (n / 10) ++ [48 + n % 10]

/-- The decimal numeral of a number that is a non-negative integer below
`10^21`, where it is the string the engine produces; the empty string for
the other numbers. -/
def integerToString : F64 → JSString
  | F64.fin false n =>
    if n % 2 ^ 1074 = 0 ∧ n / 2 ^ 1074 < 10 ^ 21 then decimalDigits 21 (n / 2 ^ 1074) else []
  | _ => []

/-- Built-in conversions that agree with the engine on strings without
upper-case letters other than `A` to `Z` and on small non-negative integers. -/
def asciiBuiltins : Builtins :=
  { toLowerCase := asciiToLowerCase, numberToString := integerToString }

/-- The method `String.prototype.includes`: whether `t` occurs in `s` as a
contiguous substring. -/
def jsIncludes : JSString → JSString → Bool
  | [], t => t.isEmpty
  | x :: xs, t => t.isPrefixOf (x :: xs) || jsIncludes xs t

/-- The method `Array.prototype.join` with the separator `sep`. -/
def jsJoin (sep : JSString) : List JSString → JSString
  | [] => []
  | [s] => s
  | s :: t :: rest => s ++ sep ++ jsJoin sep (t :: rest)

/-- A code unit matched by the class `[,\s]`. -/
def isCommaOrSpace (c : Nat) : Bool := c = 44 || isWhiteSpace c

/-- The pieces of `split(/[,\s]+/)` that remain to be produced from the rest of
the string: `inRun` tells that the preceding unit was a separator, `cur` is
the piece read so far. -/
def splitAux : JSString → Bool → JSString → List JSString
  | [], _, cur => [cur]
  | c :: rest, inRun, cur =>
    if isCommaOrSpace c then
      (if inRun then splitAux rest true cur else cur :: splitAux rest true [])
    else splitAux rest false (cur ++ [c])

/-- The call `s.split(/[,\s]+/)`: the pieces of `s` between the maximal runs of
commas and white space, with an empty piece before a leading and after a
trailing run. -/
def splitCommaSpace (s : JSString) : List JSString := splitAux s false []

/-! ## `matchJob` (backend/controllers/jobsController.js) -/

/-- The metadata and chunks of a stored resume that the controllers read. -/
structure Resume where
  id : Nat
  chunks : List StoredChunk
  skills : List JSString
  experience : F64
  education : List JSString
  parsedText : JSString
deriving DecidableEq

/-- The fields of a stored job that `matchJob` reads. -/
structure Job where
  chunks : List StoredChunk
  skills : List JSString
  experience : JSString
  description : JSString
deriving DecidableEq

/-- The values of the field `relevance` of an evidence item. -/
inductive Relevance where
  | high
  | medium
  | low
deriving DecidableEq

/-- The values returned by `determineEvidenceType`. -/
inductive EvidenceType where
  | skill
  | experience
  | education
  | requirement
deriving DecidableEq

/-- An element of the array `evidence` of `matchJob`. -/
structure Evidence where
  text : JSString
  relevance : Relevance
  type : EvidenceType
  similarity : F64
deriving DecidableEq

/-- The function `determineEvidenceType(text)`. -/
def determineEvidenceType (B : Builtins) (text : JSString) : EvidenceType :=
  let lowerText := B.toLowerCase text
  if jsIncludes lowerText (js "skill") || jsIncludes lowerText (js "technology")
      || jsIncludes lowerText (js "programming") then EvidenceType.skill
  else if jsIncludes lowerText (js "experience") || jsIncludes lowerText (js "worked")
      || jsIncludes lowerText (js "years") then EvidenceType.experience
  else if jsIncludes lowerText (js "education") || jsIncludes lowerText (js "degree")
      || jsIncludes lowerText (js "university") then EvidenceType.education
  else EvidenceType.requirement

/-- The inner loop of `matchJob` over the resume chunks, threading
`(bestSimilarity, bestResumeChunk)`; `none` is `null`. -/
def bestMatchLoop (jobEmbedding : List F64) :
    List StoredChunk → F64 × Option StoredChunk → F64 × Option StoredChunk
  | [], acc => acc
  | resumeChunk :: rest, (bestSimilarity, bestResumeChunk) =>
    if F64.gt (computeCosineSimilarity jobEmbedding resumeChunk.embedding) bestSimilarity then
      bestMatchLoop jobEmbedding rest
        (computeCosineSimilarity jobEmbedding resumeChunk.embedding, some resumeChunk)
    else bestMatchLoop jobEmbedding rest (bestSimilarity, bestResumeChunk)

/-- The values of `(bestSimilarity, bestResumeChunk)` after the inner loop for
one job chunk. -/
def bestMatch (jobEmbedding : List F64) (resumeChunks : List StoredChunk) :
    F64 × Option StoredChunk :=
  bestMatchLoop jobEmbedding resumeChunks (F64.zero, none)

/-- The variables `totalSimilarity`, `matchCount` and `evidence` of `matchJob`. -/
structure MatchAcc where
  totalSimilarity : F64
  matchCount : Nat
  evidence : List Evidence
deriving DecidableEq

/-- The evidence item pushed for a job chunk whose best similarity passed the
threshold.  The best chunk is not `null` there, because the best similarity
has been assigned in the inner loop. -/
def evidenceItem (B : Builtins) (bestSimilarity : F64) (bestResumeChunk : Option StoredChunk) :
    Evidence :=
  let text := match bestResumeChunk with
    | some c => c.text
    | none => []
  { text := text
    relevance :=
      if F64.gt bestSimilarity F64.lit07 then Relevance.high
      else if F64.gt bestSimilarity F64.lit05 then Relevance.medium else Relevance.low
    type := determineEvidenceType B text
    similarity := F64.mathRound (F64.mul bestSimilarity (F64.ofNat 100)) }

/-- The outer loop of `matchJob` over the job chunks. -/
def matchLoop (B : Builtins) (resumeChunks : List StoredChunk) :
    List StoredChunk → MatchAcc → MatchAcc
  | [], acc => acc
  | jobChunk :: rest, acc =>
    let best := bestMatch jobChunk.embedding resumeChunks
    if F64.gt best.1 F64.lit03 then
      matchLoop B resumeChunks rest
        { totalSimilarity := F64.add acc.totalSimilarity best.1
          matchCount := acc.matchCount + 1
          evidence := acc.evidence ++ [evidenceItem B best.1 best.2] }
    else matchLoop B resumeChunks rest acc

/-- The accumulators of `matchJob` for one resume after the loop over the job
chunks. -/
def matchAcc (B : Builtins) (job : Job) (resume : Resume) : MatchAcc :=
  matchLoop B resume.chunks job.chunks { totalSimilarity := F64.zero, matchCount := 0, evidence := [] }

/-- The value of `avgSimilarity` in `matchJob`. -/
def avgSimilarity (B : Builtins) (job : Job) (resume : Resume) : F64 :=
  if 0 < (matchAcc B job resume).matchCount then
    F64.div (matchAcc B job resume).totalSimilarity (F64.ofNat (matchAcc B job resume).matchCount)
  else F64.zero

/-- The value of `score` in `matchJob` for one resume. -/
def matchScore (B : Builtins) (job : Job) (resume : Resume) : F64 :=
  F64.mathRound (F64.mul (avgSimilarity B job resume) (F64.ofNat 100))

/-- An element of the array `matches` of `matchJob`.  The remaining fields of
the element (`missingRequirements`, `strengths`, `weaknesses`,
`matchDetails`) are functions of the job and the resume. -/
structure MatchEntry where
  resume : Resume
  score : F64
  evidence : List Evidence
deriving DecidableEq

/-- The array `matches` of `matchJob` before it is sorted: one element for
every resume with `score > 0`, in the order of the resumes. -/
def collectMatches (B : Builtins) (job : Job) : List Resume → List MatchEntry
  | [] => []
  | resume :: rest =>
    if F64.gt (matchScore B job resume) F64.zero then
      { resume := resume, score := matchScore B job resume,
        evidence := (matchAcc B job resume).evidence.take 5 } :: collectMatches B job rest
    else collectMatches B job rest

/-- The comparison function `(a, b) => b.score - a.score`. -/
def byScoreDesc (a b : MatchEntry) : F64 := F64.sub b.score a.score

/-- The body of the response of `matchJob`; `topMatches` is its field
`matches`. -/
structure MatchResponse where
  topMatches : List MatchEntry
  totalCandidates : Nat
  matchedCandidates : Nat
deriving DecidableEq

/-- The response of `matchJob` for a job, the stored resumes and the request
parameter `top_n`, a non-negative integer.  Writing the matches to the
database is not part of the model. -/
def matchJob (B : Builtins) (job : Job) (resumes : List Resume) (topN : Nat) : MatchResponse :=
  { topMatches := (sortBy byScoreDesc (collectMatches B job resumes)).take topN
    totalCandidates := resumes.length
    matchedCandidates := (collectMatches B job resumes).length }

/-- The mean of the specification: the sum of the numbers, accumulated from
the left in binary64, divided by their count; `0` for no numbers. -/
def mean (l : List F64) : F64 :=
  if l = [] then F64.zero else F64.div (l.foldl F64.add F64.zero) (F64.ofNat l.length)

/-- The number `x` is a highest element of `l`: it occurs in `l` and no element
of `l` is greater. -/
def IsHighest (x : F64) (l : List F64) : Prop := x ∈ l ∧ ∀ s ∈ l, F64.lt x s = false

/-! ## `checkEligibility` (backend/controllers/searchController.js) -/

/-- The values of the field `status` of a criterion; `part` is the status
`'partial'`. -/
inductive Status where
  | pending
  | pass
  | part
  | fail
deriving DecidableEq

/-- The fields `status` and `score` of one entry of `criteria`. -/
structure Criterion where
  status : Status
  score : F64
deriving DecidableEq

/-- The initial value of every criterion: `{ status: 'pending', score: 0 }`. -/
def pendingCriterion : Criterion := { status := Status.pending, score := F64.zero }

/-- The object `criteria` of the result. -/
structure Criteria where
  skills : Criterion
  experience : Criterion
  education : Criterion
  certifications : Criterion
  additional : Criterion
deriving DecidableEq

/-- The request body of `checkEligibility`; a field that is absent has its
default, the empty array, `0` or the empty string. -/
structure EligibilityRequest where
  requiredSkills : List JSString
  minExperience : F64
  requiredEducation : JSString
  requiredCertifications : List JSString
  additionalRequirements : JSString
deriving DecidableEq

/-- The fields of the response of `checkEligibility` that depend on the
criteria. -/
structure EligibilityResults where
  overallScore : F64
  isEligible : Bool
  criteria : Criteria
  missingRequirements : List JSString
  recommendations : List JSString
deriving DecidableEq

/-- The status `score >= 70 ? 'pass' : score >= 40 ? 'partial' : 'fail'`. -/
def bandStatus (score : F64) : Status :=
  if F64.ge score (F64.ofNat 70) then Status.pass
  else if F64.ge score (F64.ofNat 40) then Status.part else Status.fail

/-- The value `Math.round((matched / total) * 100)`. -/
def percentOf (matched total : Nat) : F64 :=
  F64.mathRound (F64.mul (F64.div (F64.ofNat matched) (F64.ofNat total)) (F64.ofNat 100))

/-- The value of `found` for one required skill. -/
def skillFound (B : Builtins) (resumeSkills : List JSString) (skill : JSString) : Bool :=
  resumeSkills.any (fun resumeSkill =>
    jsIncludes (B.toLowerCase resumeSkill) (trim (B.toLowerCase skill)) ||
      jsIncludes (trim (B.toLowerCase skill)) (B.toLowerCase resumeSkill))

/-- The array `matchedSkills`. -/
def matchedSkills (B : Builtins) (req : EligibilityRequest) (resume : Resume) : List JSString :=
  req.requiredSkills.filter (fun skill => skillFound B resume.skills skill)

/-- The array `missingSkills`. -/
def missingSkills (B : Builtins) (req : EligibilityRequest) (resume : Resume) : List JSString :=
  req.requiredSkills.filter (fun skill => !skillFound B resume.skills skill)

/-- The block `Check Skills`: the criterion and the entries it pushes to
`missingRequirements`. -/
def checkSkills (B : Builtins) (req : EligibilityRequest) (resume : Resume) :
    Criterion × List JSString :=
  if 0 < req.requiredSkills.length then
    ({ status := bandStatus (percentOf (matchedSkills B req resume).length req.requiredSkills.length)
       score := percentOf (matchedSkills B req resume).length req.requiredSkills.length },
      if 0 < (missingSkills B req resume).length then
        [js "Missing skills: " ++ jsJoin (js ", ") (missingSkills B req resume)]
      else [])
  else (pendingCriterion, [])

/-- The value of `experienceScore`. -/
def experienceScore (minExperience candidateExperience : F64) : F64 :=
  if F64.ge candidateExperience minExperience then F64.ofNat 100
  else F64.mathRound (F64.mul (F64.div candidateExperience minExperience) (F64.ofNat 100))

/-- The block `Check Experience`. -/
def checkExperience (B : Builtins) (req : EligibilityRequest) (resume : Resume) :
    Criterion × List JSString :=
  if F64.gt req.minExperience F64.zero then
    ({ status :=
         if F64.ge (experienceScore req.minExperience (F64.orZero resume.experience))
           (F64.ofNat 100) then Status.pass else Status.fail
       score := experienceScore req.minExperience (F64.orZero resume.experience) },
      if F64.lt (F64.orZero resume.experience) req.minExperience then
        [js "Insufficient experience: " ++ B.numberToString (F64.orZero resume.experience) ++
          js " years (required: " ++ B.numberToString req.minExperience ++ js ")"]
      else [])
  else (pendingCriterion, [])

/-- The condition under which the callback of `candidateEducation.forEach`
sets `educationMatch = true` and `educationScore = 100` for the entry `edu`. -/
def educationHit (B : Builtins) (requiredEducation edu : JSString) : Bool :=
  let eduLower := B.toLowerCase edu
  if requiredEducation = js "high-school" ∧
      (jsIncludes eduLower (js "high school") || jsIncludes eduLower (js "secondary")) then true
  else if requiredEducation = js "associate" ∧
      (jsIncludes eduLower (js "associate") || jsIncludes eduLower (js "diploma")) then true
  else if requiredEducation = js "bachelor" ∧
      (jsIncludes eduLower (js "bachelor") || jsIncludes eduLower (js "degree")
        || jsIncludes eduLower (js "bsc") || jsIncludes eduLower (js "ba")) then true
  else if requiredEducation = js "master" ∧
      (jsIncludes eduLower (js "master") || jsIncludes eduLower (js "msc")
        || jsIncludes eduLower (js "ma") || jsIncludes eduLower (js "mba")) then true
  else if requiredEducation = js "phd" ∧
      (jsIncludes eduLower (js "phd") || jsIncludes eduLower (js "doctorate")
        || jsIncludes eduLower (js "doctor")) then true
  else false

/-- The loop `candidateEducation.forEach`, threading
`(educationMatch, educationScore)`. -/
def educationLoop (B : Builtins) (requiredEducation : JSString) :
    List JSString → Bool × F64 → Bool × F64
  | [], acc => acc
  | edu :: rest, acc =>
    if educationHit B requiredEducation edu then
      educationLoop B requiredEducation rest (true, F64.ofNat 100)
    else educationLoop B requiredEducation rest acc

/-- The block `Check Education`. -/
def checkEducation (B : Builtins) (req : EligibilityRequest) (resume : Resume) :
    Criterion × List JSString :=
  if req.requiredEducation ≠ [] then
    ({ status :=
         if (educationLoop B req.requiredEducation resume.education (false, F64.zero)).1 then
           Status.pass else Status.fail
       score := (educationLoop B req.requiredEducation resume.education (false, F64.zero)).2 },
      if (educationLoop B req.requiredEducation resume.education (false, F64.zero)).1 then []
      else [js "Education requirement not met: " ++ req.requiredEducation])
  else (pendingCriterion, [])

/-- The array `matchedCerts`. -/
def matchedCerts (B : Builtins) (req : EligibilityRequest) (resume : Resume) : List JSString :=
  req.requiredCertifications.filter (fun cert =>
    jsIncludes (B.toLowerCase resume.parsedText) (trim (B.toLowerCase cert)))

/-- The array `missingCerts`. -/
def missingCerts (B : Builtins) (req : EligibilityRequest) (resume : Resume) : List JSString :=
  req.requiredCertifications.filter (fun cert =>
    !jsIncludes (B.toLowerCase resume.parsedText) (trim (B.toLowerCase cert)))

/-- The block `Check Certifications`. -/
def checkCertifications (B : Builtins) (req : EligibilityRequest) (resume : Resume) :
    Criterion × List JSString :=
  if 0 < req.requiredCertifications.length then
    ({ status := bandStatus
         (percentOf (matchedCerts B req resume).length req.requiredCertifications.length)
       score := percentOf (matchedCerts B req resume).length req.requiredCertifications.length },
      if 0 < (missingCerts B req resume).length then
        [js "Missing certifications: " ++ jsJoin (js ", ") (missingCerts B req resume)]
      else [])
  else (pendingCriterion, [])

/-- The array `keywords`. -/
def additionalKeywords (B : Builtins) (req : EligibilityRequest) : List JSString :=
  (splitCommaSpace (B.toLowerCase req.additionalRequirements)).filter (fun word => 3 < word.length)

/-- The value of `matchedKeywords` after the loop over the keywords. -/
def matchedKeywords (B : Builtins) (req : EligibilityRequest) (resume : Resume) : Nat :=
  ((additionalKeywords B req).filter
    (fun keyword => jsIncludes (B.toLowerCase resume.parsedText) keyword)).length

/-- The block `Check Additional Requirements`. -/
def checkAdditional (B : Builtins) (req : EligibilityRequest) (resume : Resume) :
    Criterion × List JSString :=
  if req.additionalRequirements ≠ [] then
    ({ status := bandStatus
         (percentOf (matchedKeywords B req resume) (additionalKeywords B req).length)
       score := percentOf (matchedKeywords B req resume) (additionalKeywords B req).length },
      if F64.lt (percentOf (matchedKeywords B req resume) (additionalKeywords B req).length)
          (F64.ofNat 70) then
        [js "Additional requirements not fully met"]
      else [])
  else (pendingCriterion, [])

/-- The object `criteria` after the five blocks. -/
def eligibilityCriteria (B : Builtins) (req : EligibilityRequest) (resume : Resume) : Criteria :=
  { skills := (checkSkills B req resume).1
    experience := (checkExperience B req resume).1
    education := (checkEducation B req resume).1
    certifications := (checkCertifications B req resume).1
    additional := (checkAdditional B req resume).1 }

/-- The array `missingRequirements` after the five blocks. -/
def eligibilityMissing (B : Builtins) (req : EligibilityRequest) (resume : Resume) :
    List JSString :=
  (checkSkills B req resume).2 ++ (checkExperience B req resume).2 ++
    (checkEducation B req resume).2 ++ (checkCertifications B req resume).2 ++
    (checkAdditional B req resume).2

/-- The array `criteriaScores`: the scores of the criteria that are not
pending, in the order of `Object.values(criteria)`. -/
def criteriaScores (c : Criteria) : List F64 :=
  ([c.skills, c.experience, c.education, c.certifications, c.additional].filter
    (fun criterion => criterion.status ≠ Status.pending)).map (fun criterion => criterion.score)

/-- The value of `overallScore`. -/
def overallScore (c : Criteria) : F64 :=
  if 0 < (criteriaScores c).length then
    F64.mathRound (F64.div ((criteriaScores c).foldl F64.add F64.zero)
      (F64.ofNat (criteriaScores c).length))
  else F64.zero

/-- The array `recommendations`. -/
def recommendationsOf (isEligible : Bool) (c : Criteria) : List JSString :=
  if !isEligible then
    (if F64.lt c.skills.score (F64.ofNat 70) then
        [js "Consider gaining experience with required skills through courses or projects"]
      else []) ++
    (if F64.lt c.experience.score (F64.ofNat 100) then
        [js "Look for opportunities to gain relevant experience"]
      else []) ++
    (if F64.eq c.education.score F64.zero then
        [js "Consider pursuing the required education level"]
      else []) ++
    (if F64.lt c.certifications.score (F64.ofNat 70) then
        [js "Obtain the required certifications"]
      else [])
  else []

/-- The function `checkEligibility` for a resume that was found. -/
def checkEligibility (B : Builtins) (req : EligibilityRequest) (resume : Resume) :
    EligibilityResults :=
  let criteria := eligibilityCriteria B req resume
  let missingRequirements := eligibilityMissing B req resume
  let isEligible := F64.ge (overallScore criteria) (F64.ofNat 70) && missingRequirements.length == 0
  { overallScore := overallScore criteria
    isEligible := isEligible
    criteria := criteria
    missingRequirements := missingRequirements
    recommendations := recommendationsOf isEligible criteria }

/-- The keywords that the education check looks for at each level. -/
def educationKeywords (requiredEducation : JSString) : List JSString :=
  if requiredEducation = js "high-school" then [js "high school", js "secondary"]
  else if requiredEducation = js "associate" then [js "associate", js "diploma"]
  else if requiredEducation = js "bachelor" then
    [js "bachelor", js "degree", js "bsc", js "ba"]
  else if requiredEducation = js "master" then [js "master", js "msc", js "ma", js "mba"]
  else if requiredEducation = js "phd" then [js "phd", js "doctorate", js "doctor"]
  else []

/-- A resume with the single skill `Python`, five years of experience, one
education entry and a short text, used to exercise `checkEligibility`. -/
def sampleResume : Resume :=
  { id := 1
    chunks := sampleChunks
    skills := [js "Python"]
    experience := F64.ofNat 5
    education := [js "Bachelor of Science"]
    parsedText := js "Python developer, AWS certified, 5 years of experience" }

/-- A request without any criterion. -/
def emptyRequest : EligibilityRequest :=
  { requiredSkills := [], minExperience := F64.zero, requiredEducation := [],
    requiredCertifications := [], additionalRequirements := [] }

/-- The request with the required skills `Python` and `Go`. -/
def pythonGoRequest : EligibilityRequest :=
  { emptyRequest with requiredSkills := [js "Python", js "Go"] }

/-- The request with the single required skill ` py `, written with a leading
and a trailing space. -/
def spacedSkillRequest : EligibilityRequest :=
  { emptyRequest with requiredSkills := [js " py "] }

/-- The request with the additional requirements `abc`, a text without a word
of more than three characters. -/
def shortWordsRequest : EligibilityRequest :=
  { emptyRequest with additionalRequirements := js "abc" }

/-- The request with the additional requirements `kubernetes`. -/
def kubernetesRequest : EligibilityRequest :=
  { emptyRequest with additionalRequirements := js "kubernetes" }

/-- The request with a minimum experience of 8 years. -/
def eightYearsRequest : EligibilityRequest :=
  { emptyRequest with minExperience := F64.ofNat 8 }

/-- The request with the required education `bachelor`. -/
def bachelorRequest : EligibilityRequest :=
  { emptyRequest with requiredEducation := js "bachelor" }

/-- The value `Math.round(chunk.similarity * 100)` that `askQuestion` puts in
an evidence item. -/
def askEvidenceSimilarity (e : SimilarChunk) : F64 :=
  F64.mathRound (F64.mul e.similarity (F64.ofNat 100))

/-- The test of the specification for a required skill: it contains or is
contained in some resume skill, both lower-cased. -/
def containsEitherWay (B : Builtins) (resumeSkills : List JSString) (skill : JSString) : Bool :=
  resumeSkills.any (fun resumeSkill =>
    jsIncludes (B.toLowerCase resumeSkill) (B.toLowerCase skill) ||
      jsIncludes (B.toLowerCase skill) (B.toLowerCase resumeSkill))

/-- The request with one requirement of every kind: the skill `Python`, three
years of experience, the education `bachelor`, the certification `AWS` and
the additional requirements `kubernetes`. -/
def fullRequest : EligibilityRequest :=
  { requiredSkills := [js "Python"], minExperience := F64.ofNat 3,
    requiredEducation := js "bachelor", requiredCertifications := [js "AWS"],
    additionalRequirements := js "kubernetes" }

/-- A stored chunk whose embedding `[-1]` is opposite to the query `[1]`. -/
def oppositeChunk : StoredChunk :=
  { text := js "x", startIndex := 0, endIndex := 1, embedding := [F64.neg (F64.ofNat 1)] }

/-- The recommendation pushed for the skills criterion. -/
def skillsAdvice : JSString :=
  js "Consider gaining experience with required skills through courses or projects"

/-- The recommendation pushed for the experience criterion. -/
def experienceAdvice : JSString := js "Look for opportunities to gain relevant experience"

/-- The recommendation pushed for the education criterion. -/
def educationAdvice : JSString := js "Consider pursuing the required education level"

/-- The recommendation pushed for the certifications criterion. -/
def certificationsAdvice : JSString := js "Obtain the required certifications"

/-! ## Helper functions of `matchJob` (backend/controllers/jobsController.js) -/

namespace F64

/-- The function `Math.min` of two arguments: NaN when an argument is NaN; the
negative zero counts as smaller than the positive zero. -/
def mathMin (x y : F64) : F64 :=
  if isNaN x || isNaN y then nan
  else if lt x y then x
  else if lt y x then y
  else match x with
    | fin true _ => x
    | _ => y

/-- The conversion of a number to a boolean in a condition: NaN and the two
zeros are falsy. -/
def toBoolean : F64 → Bool
  | nan => false
  | inf _ => true
  | fin _ n => decide (n ≠ 0)

end F64

/-- A code unit matched by the class `\d`. -/
def isDigit (c : Nat) : Bool := 48 ≤ c && c ≤ 57

/-- Whether the string starts with `year`, in either case of each letter (the
flag `i` of the regular expression). -/
def startsWithYear : JSString → Bool
  | y :: e :: a :: r :: _ =>
    (y = 121 || y = 89) && (e = 101 || e = 69) && (a = 97 || a = 65) && (r = 114 || r = 82)
  | _ => false

/-- The integer denoted by a string of decimal digits. -/
def digitsValue (digits : JSString) : Nat := digits.foldl (fun acc c => 10 * acc + (c - 48)) 0

/-- The rest of the string behind a plus sign at its start, or the string
itself when it does not start with a plus sign: what `\+?` leaves. -/
def skipPlus : JSString → JSString
  | 43 :: t => t
  | s => s

/-- An attempt to match `/(\d+)\+?\s*years?/i` at the start of the string; the
result is the text of the group `(\d+)`.  The group takes the whole run of
digits, `\+?` the plus sign if there is one and `\s*` the whole run of white
space: with a shorter choice the next unit is a digit, a plus sign or a
white space, none of which starts `year`, so backtracking finds no other match. -/
def matchYearsAt (s : JSString) : Option JSString :=
  let digits := s.takeWhile isDigit
  let rest := s.dropWhile isDigit
  let afterPlus := skipPlus rest
  if digits ≠ [] ∧ startsWithYear (afterPlus.dropWhile isWhiteSpace) = true then some digits
  else none

/-- The group `match[1]` of `text.match(/(\d+)\+?\s*years?/i)`: the match that
starts at the leftmost position; `none` when the expression matches nowhere. -/
def firstYearsMatch : JSString → Option JSString
  | [] => none
  | c :: cs =>
    match matchYearsAt (c :: cs) with
    | some digits => some digits
    | none => firstYearsMatch cs

/-- The function `extractYears(text)`; `none` is `null`.  On a string of
decimal digits `parseInt` returns the number nearest to the integer they
denote. -/
def extractYears (text : JSString) : Option F64 :=
  (firstYearsMatch text).map (fun digits => F64.ofNat (digitsValue digits))

/-- The loop `for (const skill of jobSkills)` of `analyzeMissingRequirements`,
threading the array `missing`. -/
def missingLoop (resumeSkills : List JSString) : List JSString → List JSString → List JSString
  | [], missing => missing
  | skill :: rest, missing =>
    if !(resumeSkills.any (fun rs => jsIncludes rs skill || jsIncludes skill rs)) then
      missingLoop resumeSkills rest (missing ++ [skill])
    else missingLoop resumeSkills rest missing

/-- The entry that `analyzeMissingRequirements` pushes for a shortfall of
experience. -/
def experienceShortfall (B : Builtins) (jobExp resumeExp : F64) : JSString :=
  B.numberToString jobExp ++ js " years of experience (candidate has " ++
    B.numberToString resumeExp ++ js ")"

/-- The function `analyzeMissingRequirements(job, resume)`. -/
def analyzeMissingRequirements (B : Builtins) (job : Job) (resume : Resume) : List JSString :=
  let jobSkills := job.skills.map B.toLowerCase
  let resumeSkills := resume.skills.map B.toLowerCase
  let missing := missingLoop resumeSkills jobSkills []
  match extractYears job.experience with
  | some jobExp =>
    if F64.toBoolean jobExp && F64.lt resume.experience jobExp then
      missing ++ [experienceShortfall B jobExp resume.experience]
    else missing
  | none => missing

/-- The function `analyzeStrengths(resume)`. -/
def analyzeStrengths (resume : Resume) : List JSString :=
  (if 5 < resume.skills.length then [js "Diverse skill set"] else []) ++
    (if F64.gt resume.experience (F64.ofNat 5) then [js "Senior-level experience"] else []) ++
    (if 0 < resume.education.length then [js "Strong educational background"] else [])

/-- The field `strengths` of the element of `matches` that `matchJob` builds
for a job and a resume: the call `analyzeStrengths(resume)`. -/
def matchStrengths (_ : Job) (resume : Resume) : List JSString := analyzeStrengths resume

/-- The function `calculateSkillsMatch(jobSkills, resumeSkills)` on two arrays. -/
def calculateSkillsMatch (B : Builtins) (jobSkills resumeSkills : List JSString) : F64 :=
  if jobSkills.length = 0 then F64.zero
  else
    let jobLower := jobSkills.map B.toLowerCase
    let resumeLower := resumeSkills.map B.toLowerCase
    let matched := jobLower.filter (fun skill =>
      resumeLower.any (fun rs => jsIncludes rs skill || jsIncludes skill rs))
    F64.mathRound
      (F64.mul (F64.div (F64.ofNat matched.length) (F64.ofNat jobSkills.length)) (F64.ofNat 100))

/-- The function `calculateExperienceMatch(jobExperience, resumeExperience)` on
a string and a number. -/
def calculateExperienceMatch (jobExperience : JSString) (resumeExperience : F64) : F64 :=
  if jobExperience = [] ∨ F64.toBoolean resumeExperience = false then F64.zero
  else
    match extractYears jobExperience with
    | none => F64.zero
    | some jobYears =>
      if F64.toBoolean jobYears = false then F64.zero
      else
        F64.mathRound
          (F64.mathMin (F64.mul (F64.div resumeExperience jobYears) (F64.ofNat 100))
            (F64.ofNat 100))

/-! ## `askQuestion` and `searchResumes` (backend/controllers/searchController.js) -/

/-- An element of the array `evidence` of a result of `askQuestion`. -/
structure AskEvidence where
  text : JSString
  similarity : F64
  startIndex : Int
  endIndex : Int
deriving DecidableEq

/-- An element of the array `results` of `askQuestion`. -/
structure AskResult where
  resume : Resume
  score : F64
  evidence : List AskEvidence
deriving DecidableEq

/-- The array `results` of `askQuestion` before it is sorted, for the embedding
of the query and the request parameter `k`, a non-negative integer. -/
def askResults (queryEmbedding : List F64) (k : Nat) : List Resume → List AskResult
  | [] => []
  | resume :: rest =>
    let similarChunks := findSimilarChunks queryEmbedding resume.chunks k
    if 0 < similarChunks.length then
      { resume := resume
        score := F64.mathRound (F64.mul
          (F64.div (similarChunks.foldl (fun sum chunk => F64.add sum chunk.similarity) F64.zero)
            (F64.ofNat similarChunks.length)) (F64.ofNat 100))
        evidence := similarChunks.map (fun chunk =>
          { text := chunk.chunk.text
            similarity := F64.mathRound (F64.mul chunk.similarity (F64.ofNat 100))
            startIndex := chunk.chunk.startIndex
            endIndex := chunk.chunk.endIndex }) } :: askResults queryEmbedding k rest
    else askResults queryEmbedding k rest

/-- The comparison function `(a, b) => b.score - a.score` of `askQuestion`. -/
def byAskScoreDesc (a b : AskResult) : F64 := F64.sub b.score a.score

/-- The fields `results` and `totalFound` of the response of `askQuestion`. -/
structure AskResponse where
  results : List AskResult
  totalFound : Nat
deriving DecidableEq

/-- The response of `askQuestion` for the embedding of the query, the stored
resumes and the request parameter `k`. -/
def askQuestion (queryEmbedding : List F64) (resumes : List Resume) (k : Nat) : AskResponse :=
  { results := (sortBy byAskScoreDesc (askResults queryEmbedding k resumes)).take k
    totalFound := (askResults queryEmbedding k resumes).length }

/-- An element of the array `results` of `searchResumes`. -/
structure SearchResult where
  resume : Resume
  score : F64
  snippet : JSString
deriving DecidableEq

/-- The values of `(maxSimilarity, bestChunk)` after the loop of `searchResumes`
over the chunks of a resume; the loop has the text of the inner loop of
`matchJob`. -/
def searchBest (queryEmbedding : List F64) (chunks : List StoredChunk) :
    F64 × Option StoredChunk :=
  bestMatchLoop queryEmbedding chunks (F64.zero, none)

/-- The value of `score` in `searchResumes` for one resume. -/
def searchScore (queryEmbedding : List F64) (resume : Resume) : F64 :=
  F64.mathRound (F64.mul (searchBest queryEmbedding resume.chunks).1 (F64.ofNat 100))

/-- The array `results` of `searchResumes` before it is sorted; `minScore` is
the number that the comparison `score >= minScore` converts the request
parameter to. -/
def searchResults (queryEmbedding : List F64) (minScore : F64) : List Resume → List SearchResult
  | [] => []
  | resume :: rest =>
    if F64.ge (searchScore queryEmbedding resume) minScore then
      { resume := resume
        score := searchScore queryEmbedding resume
        snippet :=
          match (searchBest queryEmbedding resume.chunks).2 with
          | some bestChunk => bestChunk.text.take 200 ++ js "..."
          | none => [] } :: searchResults queryEmbedding minScore rest
    else searchResults queryEmbedding minScore rest

/-- The comparison function `(a, b) => b.score - a.score` of `searchResumes`. -/
def bySearchScoreDesc (a b : SearchResult) : F64 := F64.sub b.score a.score

/-- The field `results` of the response of `searchResumes` for the embedding of
the query, the fetched page of resumes and `minScore`. -/
def searchResumes (queryEmbedding : List F64) (resumes : List Resume) (minScore : F64) :
    List SearchResult :=
  sortBy bySearchScoreDesc (searchResults queryEmbedding minScore resumes)

/-! ## Notions of the specification and sample data for the helper functions -/

/-- The index `i` is the last occurrence of the code unit `c` in `s`. -/
def IsLastOccurrence (s : JSString) (c : Nat) (i : Nat) : Prop :=
  s[i]? = some c ∧ ∀ j : Nat, i < j → s[j]? ≠ some c

/-- The window of `chunkSize` code units of the text that starts at the scan
position. -/
def scanWindow (text : JSString) (chunkSize : Nat) (start : Nat) : JSString :=
  (text.drop start).take chunkSize

/-- The number of job skills that contain or are contained in some resume
skill, both lower-cased. -/
def matchedSkillCount (B : Builtins) (jobSkills resumeSkills : List JSString) : Nat :=
  (jobSkills.filter (containsEitherWay B resumeSkills)).length

/-- A job that asks for the skills `Python` and `SQL` and for `3+ years`. -/
def pythonSqlJob : Job :=
  { chunks := [], skills := [js "Python", js "SQL"], experience := js "3+ years",
    description := js "Backend developer" }

/-- A resume with the skills `Python` and `Java` and five years of experience. -/
def pythonJavaResume : Resume :=
  { id := 2, chunks := [], skills := [js "Python", js "Java"], experience := F64.ofNat 5,
    education := [], parsedText := js "Python and Java developer" }

/-- A resume with six skills, six years of experience and one education entry. -/
def seniorResume : Resume :=
  { id := 3, chunks := [],
    skills := [js "Python", js "Java", js "Go", js "SQL", js "AWS", js "Docker"],
    experience := F64.ofNat 6, education := [js "MSc"], parsedText := js "Senior developer" }

/-- A stored chunk with a given text and embedding. -/
def chunkOf (text : String) (embedding : List Nat) : StoredChunk :=
  { text := js text, startIndex := 0, endIndex := text.length,
    embedding := embedding.map F64.ofNat }

/-- A resume with a given identifier and chunks and no metadata. -/
def resumeOf (id : Nat) (chunks : List StoredChunk) : Resume :=
  { id := id, chunks := chunks, skills := [], experience := F64.zero, education := [],
    parsedText := [] }

/-- A job with the given chunks. -/
def jobOf (chunks : List StoredChunk) : Job :=
  { chunks := chunks, skills := [], experience := js "2 years", description := [] }

/-- The request that asks for 400 years of experience only. -/
def fourHundredYearsRequest : EligibilityRequest :=
  { emptyRequest with minExperience := F64.ofNat 400 }

/-- The request whose required education is the string `none`. -/
def noneEducationRequest : EligibilityRequest :=
  { emptyRequest with requiredEducation := js "none" }

/-- Two resumes for the query embedding `[1]`: the single chunk of the first
has the zero embedding `[0]`, that of the second the embedding `[1]`. -/
def zeroAndUnitResumes : List Resume :=
  [resumeOf 1 [chunkOf "a" [0]], resumeOf 2 [chunkOf "b" [1]]]

/-- A resume with two chunks, of the embeddings `[1, 0]` and `[0, 1]`. -/
def twoDirectionsResume : Resume := resumeOf 3 [chunkOf "a" [1, 0], chunkOf "b" [0, 1]]

/-- A resume whose single chunk has the embedding `[400, 303]`; its cosine
similarity to the query `[1, 0]` is about `0.797`. -/
def nearEightyResume : Resume := resumeOf 1 [chunkOf "a" [400, 303]]

/-- A resume whose single chunk is `oppositeChunk`. -/
def oppositeResume : Resume := resumeOf 2 [oppositeChunk]

/-- A text whose tenth code unit is a line feed, with no space and no full
stop. -/
def lineFeedText : JSString := js "abcdefghi\njkl"

/-- A text with a full stop at index 8 and a space at index 9. -/
def sentenceText : JSString := js "abcdefgh. jklmnop"

/-- A job with six chunks: five of the embedding `[3, 4]` and a last one of the
embedding `[1, 0]`. -/
def sixChunkJob : Job :=
  jobOf [chunkOf "j1" [3, 4], chunkOf "j2" [3, 4], chunkOf "j3" [3, 4], chunkOf "j4" [3, 4],
    chunkOf "j5" [3, 4], chunkOf "j6" [1, 0]]

/-- A resume whose single chunk has the embedding `[1, 0]`. -/
def unitResume : Resume := resumeOf 4 [chunkOf "r" [1, 0]]

/-- The resume `sampleResume` with 399 years of experience. -/
def almostResume : Resume := { sampleResume with experience := F64.ofNat 399 }

/-- The five education levels that `checkEligibility` knows. -/
def educationLevels : List JSString :=
  [js "high-school", js "associate", js "bachelor", js "master", js "phd"]

/-- The specification of a match of `/(\d+)\+?\s*years?/i` that starts at the
index `k` of the text, with `digits` for the group: from `k` on the text
reads `digits`, a non-empty run of decimal digits, then an optional plus
sign, a run of white space and a word that is `year` up to the case of its
letters. -/
def IsYearsPhraseAt (text : JSString) (k : Nat) (digits : JSString) : Prop :=
  digits ≠ [] ∧ (∀ c ∈ digits, isDigit c = true) ∧
    ∃ plus spaces word tail : JSString,
      text.drop k = digits ++ (plus ++ (spaces ++ (word ++ tail))) ∧
        (plus = [] ∨ plus = [43]) ∧ (∀ c ∈ spaces, isWhiteSpace c = true) ∧
        word.length = 4 ∧ asciiToLowerCase word = js "year"

/-- The group `digits` of the leftmost match of the expression in the text:
the "N years" phrase that the specification calls the first one. -/
def IsFirstYearsPhrase (text digits : JSString) : Prop :=
  ∃ k : Nat, IsYearsPhraseAt text k digits ∧
    ∀ j : Nat, j < k → ∀ d : JSString, ¬ IsYearsPhraseAt text j d

/-- Forty skills of one code unit each: `a` to `z`, `0` to `9`, `#`, `+`, `@`
and `&`; none of them contains another. -/
def fortySkills : List JSString :=
  (js "abcdefghijklmnopqrstuvwxyz0123456789#+@&").map (fun c => [c])

/-- The request that asks for the forty skills only. -/
def fortySkillsRequest : EligibilityRequest :=
  { emptyRequest with requiredSkills := fortySkills }

/-- A resume whose skills are the first 23 of the forty skills. -/
def twentyThreeSkillsResume : Resume := { sampleResume with skills := fortySkills.take 23 }

/-- The request that asks for 40 years of experience only. -/
def fortyYearsRequest : EligibilityRequest :=
  { emptyRequest with minExperience := F64.ofNat 40 }

/-- The resume `sampleResume` with 23 years of experience. -/
def twentyThreeYearsResume : Resume := { sampleResume with experience := F64.ofNat 23 }

/-- The job `pythonSqlJob` with the experience text `8+ years`. -/
def eightYearsJob : Job := { pythonSqlJob with experience := js "8+ years" }

/-! ## Facts about the number model -/

namespace F64

theorem bitLenAux_spec : ∀ (fuel n : Nat), n ≤ fuel →
    n < 2 ^ bitLenAux fuel n ∧ (n ≠ 0 → 2 ^ (bitLenAux fuel n - 1) ≤ n) := by
  intro fuel
  induction fuel with
  | zero =>
    intro n hn
    have h0 : n = 0 := by omega
    subst h0
    simp [bitLenAux]
  | succ f ih =>
    intro n hn
    unfold bitLenAux
    by_cases h0 : n = 0
    · subst h0; simp
    · rw [if_neg h0]
      have hle : n / 2 ≤ f := by omega
      obtain ⟨h1, h2⟩ := ih (n / 2) hle
      refine ⟨?_, fun _ => ?_⟩
      · rw [pow_succ]; omega
      · simp only [Nat.add_sub_cancel]
        by_cases h3 : n / 2 = 0
        · have hb : bitLenAux f (n / 2) = 0 := by
            rw [h3]; cases f <;> simp [bitLenAux]
          rw [hb]; simp; omega
        · have h4 := h2 h3
          have h5 : bitLenAux f (n / 2) ≠ 0 := by
            intro hb
            rw [hb] at h1
            simp at h1
            exact h3 h1
          have h6 : bitLenAux f (n / 2) = (bitLenAux f (n / 2) - 1) + 1 := by omega
          rw [h6, pow_succ]
          omega

/-- The value `bitLen n` is the number of binary digits of `n`. -/
theorem bitLen_spec (n : Nat) : n < 2 ^ bitLen n ∧ (n ≠ 0 → 2 ^ (bitLen n - 1) ≤ n) :=
  bitLenAux_spec n n (le_refl n)

theorem sqrtBits_spec : ∀ (k n r : Nat), r * r ≤ n → n < (r + 2 ^ k) * (r + 2 ^ k) →
    sqrtBits k n r * sqrtBits k n r ≤ n ∧ n < (sqrtBits k n r + 1) * (sqrtBits k n r + 1) := by
  intro k
  induction k with
  | zero =>
    intro n r h1 h2
    simpa [sqrtBits] using And.intro h1 h2
  | succ k ih =>
    intro n r h1 h2
    unfold sqrtBits
    by_cases hc : (r + 2 ^ k) * (r + 2 ^ k) ≤ n
    · rw [if_pos hc]
      apply ih _ _ hc
      have : r + 2 ^ k + 2 ^ k = r + 2 ^ (k + 1) := by rw [pow_succ]; omega
      rw [this]; exact h2
    · rw [if_neg hc]
      exact ih _ _ h1 (by omega)

/-- The function `isqrt` is the integer square root. -/
theorem isqrt_eq_sqrt (n : Nat) : isqrt n = Nat.sqrt n := by
  have hb := (bitLen_spec n).1
  have h2 : n < (0 + 2 ^ bitLen n) * (0 + 2 ^ bitLen n) := by
    have hpos : 1 ≤ 2 ^ bitLen n := Nat.one_le_two_pow
    calc n < 2 ^ bitLen n := hb
      _ = 2 ^ bitLen n * 1 := (Nat.mul_one _).symm
      _ ≤ 2 ^ bitLen n * 2 ^ bitLen n := Nat.mul_le_mul_left _ hpos
      _ = (0 + 2 ^ bitLen n) * (0 + 2 ^ bitLen n) := by simp
  obtain ⟨h3, h4⟩ := sqrtBits_spec (bitLen n) n 0 (by simp) h2
  exact Nat.eq_sqrt.2 ⟨h3, h4⟩

/-- Known values of JavaScript arithmetic reproduced by the model:
`0.1 + 0.2` is `0.30000000000000004`, `7 / 10` is the literal `0.7`,
`90 * 0.7` is less than `63`, `1000 * 0.7` is `700`, and
`Math.sqrt(3) * Math.sqrt(3)` is `2.9999999999999996`. -/
theorem known_values :
    add (div (ofNat 1) (ofNat 10)) (div (ofNat 2) (ofNat 10)) =
        fin false (0x13333333333334 * 2 ^ 1020) ∧
      div (ofNat 7) (ofNat 10) = lit07 ∧
      lt (mul (ofNat 90) lit07) (ofNat 63) = true ∧
      mul (ofNat 1000) lit07 = ofNat 700 ∧
      mul (sqrt (ofNat 3)) (sqrt (ofNat 3)) = fin false ((3 * 2 ^ 51 - 1) * 2 ^ 1023) :=
  ⟨by decide!, by decide!, by decide!, by decide!, by decide!⟩

theorem round_cases (s : Bool) (num den : Nat) :
    (∃ m, round s num den = fin s m) ∨ round s num den = inf s := by
  unfold round
  simp only
  split
  · exact Or.inl ⟨_, rfl⟩
  · exact Or.inr rfl

theorem ofNat_zero : ofNat 0 = fin false 0 := by decide!

theorem lt_eq_false_of_signs {x y : F64}
    (hx : x = nan ∨ x = inf false ∨ ∃ m, x = fin false m)
    (hy : y = fin false 0 ∨ y = inf true ∨ ∃ m, y = fin true m) : lt x y = false := by
  rcases hx with rfl | rfl | ⟨m, rfl⟩ <;> rcases hy with rfl | rfl | ⟨k, rfl⟩ <;> simp [lt]

theorem ofInt_nonpos (i : Int) (hi : i ≤ 0) :
    ofInt i = fin false 0 ∨ ofInt i = inf true ∨ ∃ m, ofInt i = fin true m := by
  cases i with
  | ofNat n =>
    have hn : n = 0 := by
      have : (n : Int) ≤ 0 := hi
      omega
    subst hn
    exact Or.inl ofNat_zero
  | negSucc n =>
    rcases round_cases true ((n + 1) * 2 ^ 1074) 1 with ⟨m, hm⟩ | hm
    · exact Or.inr (Or.inr ⟨m, hm⟩)
    · exact Or.inr (Or.inl hm)

theorem mul_ofNat_sign (cs c : Nat) :
    mul (ofNat cs) (fin false c) = nan ∨ mul (ofNat cs) (fin false c) = inf false ∨
      ∃ m, mul (ofNat cs) (fin false c) = fin false m := by
  rcases round_cases false (cs * 2 ^ 1074) 1 with ⟨m, hm⟩ | hm
  · rw [ofNat, hm]
    rcases round_cases false (m * c) (2 ^ 1074) with ⟨m2, hm2⟩ | hm2
    · exact Or.inr (Or.inr ⟨m2, hm2⟩)
    · exact Or.inr (Or.inl hm2)
  · rw [ofNat, hm]
    by_cases hc : c = 0
    · left; simp [mul, hc]
    · right; left; simp [mul, hc]

/-- A number exceeds the product of a non-negative integer and a non-negative
literal only if it is positive. -/
theorem pos_of_gt_mul_ofNat (i : Int) (cs c : Nat)
    (h : gt (ofInt i) (mul (ofNat cs) (fin false c)) = true) : 0 < i := by
  by_contra hi
  have := lt_eq_false_of_signs (mul_ofNat_sign cs c) (ofInt_nonpos i (by omega))
  rw [gt, this] at h
  exact Bool.false_ne_true h

end F64

/-! ## Facts about comparison and subtraction of numbers -/

namespace F64

theorem le_nearestEven (num den : Nat) : num / den ≤ nearestEven num den := by
  unfold nearestEven
  simp only
  split_ifs <;> omega

theorem round_zero_one (s : Bool) : round s 0 1 = fin s 0 := by
  cases s <;> decide!

/-- Rounding a positive integer number of units never yields zero. -/
theorem round_one_pos (s : Bool) (m : Nat) (hm : 0 < m) :
    round s m 1 = inf s ∨ ∃ k, 0 < k ∧ round s m 1 = fin s k := by
  unfold round
  simp only [Nat.div_one, Nat.one_mul]
  split
  · right
    refine ⟨_, ?_, rfl⟩
    have h1 : 2 ^ dropBits m ≤ m := by
      have hb := (bitLen_spec m).2 (by omega)
      have hle : 2 ^ dropBits m ≤ 2 ^ (bitLen m - 1) :=
        Nat.pow_le_pow_right (by decide) (by unfold dropBits; omega)
      exact le_trans hle hb
    have h2 : 0 < m / 2 ^ dropBits m := Nat.div_pos h1 (Nat.two_pow_pos _)
    have h3 := le_nearestEven m (2 ^ dropBits m)
    exact Nat.mul_pos (by omega) (Nat.two_pow_pos _)
  · left; rfl

theorem lt_zero_round_one (s : Bool) (m : Nat) :
    lt zero (round s m 1) = (!s && decide (0 < m)) := by
  by_cases hm : 0 < m
  · rcases round_one_pos s m hm with h | ⟨k, hk, h⟩
    · rw [h]; cases s <;> simp [lt, zero, hm]
    · rw [h]; cases s <;> simp [lt, zero, hm, hk]
  · have h0 : m = 0 := by omega
    subst h0
    rw [round_zero_one]
    cases s <;> simp [lt, zero]

/-- For numbers that are not NaN the sign test of the comparison function,
`y - x > 0`, is the comparison `x < y`. -/
theorem gt_sub_zero (x y : F64) (hx : isNaN x = false) (hy : isNaN y = false) :
    gt (sub y x) zero = lt x y := by
  rcases x with _ | t | ⟨t, b⟩
  · simp [isNaN] at hx
  · rcases y with _ | s | ⟨s, a⟩
    · simp [isNaN] at hy
    · cases s <;> cases t <;> simp [gt, sub, neg, add, lt, zero]
    · cases s <;> cases t <;> simp [gt, sub, neg, add, lt, zero]
  · rcases y with _ | s | ⟨s, a⟩
    · simp [isNaN] at hy
    · cases s <;> cases t <;> simp [gt, sub, neg, add, lt, zero]
    · simp only [gt, sub, neg, add]
      split_ifs with h1 h2 h3
      · rw [lt_zero_round_one]
        cases s <;> cases t <;> simp [lt] at h1 ⊢
        exact Bool.or_comm _ _
      · rw [lt_zero_round_one]
        cases s <;> cases t <;> simp [lt] at h1 ⊢
        all_goals omega
      · rw [lt_zero_round_one]
        cases s <;> cases t <;> simp [lt] at h1 ⊢
        all_goals omega
      · have hab : a = b := by omega
        subst hab
        cases s <;> cases t <;> simp [lt, zero] at h1 ⊢

theorem lt_not_gt (x y : F64) (h : lt x y = true) : lt y x = false := by
  rcases x with _ | s | ⟨s, a⟩ <;> rcases y with _ | t | ⟨t, b⟩ <;>
    (try cases s) <;> (try cases t) <;> simp [lt] at h ⊢ <;> omega

/-- Negative transitivity of `<` on numbers: a number that is not NaN separates
any strictly ordered pair. -/
theorem lt_cotrans (x y z : F64) (hy : isNaN y = false) (h : lt x z = true) :
    lt x y = true ∨ lt y z = true := by
  rcases x with _ | s | ⟨s, a⟩ <;> rcases y with _ | t | ⟨t, b⟩ <;>
    rcases z with _ | u | ⟨u, c⟩ <;>
    (try cases s) <;> (try cases t) <;> (try cases u) <;> simp [lt, isNaN] at h hy ⊢ <;> omega

end F64

/-! ## Facts about `chunkText` -/

theorem jsSlice_length_le (s : JSString) (a b : Int) : (jsSlice s a b).length ≤ s.length := by
  unfold jsSlice
  simp only [List.length_take, List.length_drop]
  omega

theorem jsSlice_length_le_sub (s : JSString) (a b : Int) (ha : 0 ≤ a) (hab : a ≤ b) :
    ((jsSlice s a b).length : Int) ≤ s.length - a ∨ (jsSlice s a b).length = 0 := by
  unfold jsSlice
  simp only [List.length_take, List.length_drop, min_def, max_def]
  split_ifs <;> omega

theorem jsSlice_length_le_width (s : JSString) (a b : Int) (ha : 0 ≤ a) (hab : a ≤ b) :
    ((jsSlice s a b).length : Int) ≤ b - a := by
  unfold jsSlice
  simp only [List.length_take, List.length_drop, min_def, max_def]
  split_ifs <;> omega

theorem jsSlice_length_head (s : JSString) (b : Int) (hb : 0 ≤ b) :
    ((jsSlice s 0 b).length : Int) = min b s.length := by
  unfold jsSlice
  simp only [List.length_take, List.length_drop, min_def, max_def]
  split_ifs <;> omega

theorem jsSlice_length_window (s : JSString) (a b : Int) (ha : 0 ≤ a) (hab : a ≤ b)
    (hb : b ≤ s.length) : ((jsSlice s a b).length : Int) = b - a := by
  unfold jsSlice
  simp only [List.length_take, List.length_drop, min_def, max_def]
  split_ifs <;> omega

theorem lastIndexOf_bounds (s : JSString) (c : Nat) :
    -1 ≤ lastIndexOf s c ∧ lastIndexOf s c < s.length := by
  induction s with
  | nil => simp [lastIndexOf]
  | cons x xs ih =>
    unfold lastIndexOf
    simp only [List.length_cons]
    by_cases h : 0 ≤ lastIndexOf xs c
    · rw [if_pos h]; push_cast; omega
    · rw [if_neg h]
      by_cases hx : x = c
      · rw [if_pos hx]; constructor <;> omega
      · rw [if_neg hx]; constructor <;> omega

/-- The pushed chunk is never longer than the text, and for a scan position
inside the text neither longer than the rest of the text nor than `chunkSize`. -/
theorem chunkWindow_length_le (text : JSString) (chunkSize : Nat) (start : Int) :
    (chunkWindow text chunkSize start).length ≤ text.length ∧
      (0 ≤ start → start ≤ text.length →
        ((chunkWindow text chunkSize start).length : Int) ≤ text.length - start ∧
        ((chunkWindow text chunkSize start).length : Int) ≤ chunkSize) := by
  have hw := jsSlice_length_le text start (min (start + chunkSize) text.length)
  have hc1 := jsSlice_length_le (jsSlice text start (min (start + chunkSize) text.length)) 0
    (lastIndexOf (jsSlice text start (min (start + chunkSize) text.length)) 46 + 1)
  have hc2 := jsSlice_length_le (jsSlice text start (min (start + chunkSize) text.length)) 0
    (lastIndexOf (jsSlice text start (min (start + chunkSize) text.length)) 32)
  have hlen : ∀ l : JSString, (chunkWindow text chunkSize start).length ≤
      (jsSlice text start (min (start + chunkSize) text.length)).length := by
    intro _
    unfold chunkWindow
    simp only
    split_ifs <;> omega
  refine ⟨le_trans (hlen []) hw, fun h0 h1 => ?_⟩
  have hs := jsSlice_length_le_sub text start (min (start + chunkSize) text.length) h0
    (by simp only [min_def]; split_ifs <;> omega)
  have hs2 := jsSlice_length_le_width text start (min (start + chunkSize) text.length) h0
    (by simp only [min_def]; split_ifs <;> omega)
  have hm : min (start + (chunkSize : Int)) (text.length : Int) ≤ start + chunkSize :=
    min_le_left _ _
  have := hlen []
  omega

/-- With a scan position inside the text and a positive `chunkSize` the pushed
chunk is not empty. -/
theorem chunkWindow_length_pos (text : JSString) (chunkSize : Nat) (start : Int)
    (h0 : 0 ≤ start) (hlt : start < text.length) (hcs : 0 < chunkSize) :
    0 < (chunkWindow text chunkSize start).length := by
  have hw := jsSlice_length_window text start (min (start + chunkSize) text.length) h0
    (by omega) (by omega)
  unfold chunkWindow
  simp only
  split
  · split
    · rename_i hgt
      have hp := F64.pos_of_gt_mul_ofNat _ _ _ hgt
      have hl := jsSlice_length_head (jsSlice text start (min (start + chunkSize) text.length))
        (lastIndexOf (jsSlice text start (min (start + chunkSize) text.length)) 46 + 1) (by omega)
      omega
    · split
      · rename_i hgt
        have hp := F64.pos_of_gt_mul_ofNat _ _ _ hgt
        have hl := jsSlice_length_head (jsSlice text start (min (start + chunkSize) text.length))
          (lastIndexOf (jsSlice text start (min (start + chunkSize) text.length)) 32) (by omega)
        omega
      · omega
  · omega

/-- Whenever `overlap` is positive (or `chunkSize` is zero) the loop condition
`start < text.length`, once true, stays true after the loop body. -/
theorem chunkBody_start_lt (text : JSString) (chunkSize overlap : Nat) (st : ChunkState)
    (hpar : 0 < overlap ∨ chunkSize = 0) (hlt : st.start < text.length) :
    (chunkBody text chunkSize overlap st).start < text.length := by
  have h := chunkWindow_length_le text chunkSize st.start
  simp only [chunkBody]
  by_cases h0 : 0 ≤ st.start
  · have h2 := h.2 h0 (by omega)
    omega
  · omega

theorem chunkLoop_none (text : JSString) (chunkSize overlap : Nat)
    (hpar : 0 < overlap ∨ chunkSize = 0) :
    ∀ (fuel : Nat) (st : ChunkState), st.start < text.length →
      chunkLoop text chunkSize overlap fuel st = none := by
  intro fuel
  induction fuel with
  | zero => intro st hlt; simp [chunkLoop, hlt]
  | succ f ih =>
    intro st hlt
    simp only [chunkLoop, hlt, if_true]
    exact ih _ (chunkBody_start_lt text chunkSize overlap st hpar hlt)

theorem chunkLoop_inBounds (text : JSString) (chunkSize : Nat) (hcs : 0 < chunkSize) :
    ∀ (fuel : Nat) (st : ChunkState) (chunks : List Chunk), 0 ≤ st.start →
      (∀ c ∈ st.chunks, c.InBounds text.length) →
      chunkLoop text chunkSize 0 fuel st = some chunks →
      ∀ c ∈ chunks, c.InBounds text.length := by
  intro fuel
  induction fuel with
  | zero =>
    intro st chunks _ hinv hres
    simp only [chunkLoop] at hres
    split at hres
    · exact absurd hres (by simp)
    · simp only [Option.some.injEq] at hres
      subst hres; exact hinv
  | succ f ih =>
    intro st chunks h0 hinv hres
    simp only [chunkLoop] at hres
    split at hres
    · rename_i hlt
      have hle := (chunkWindow_length_le text chunkSize st.start).2 h0 (by omega)
      have hpos := chunkWindow_length_pos text chunkSize st.start h0 hlt hcs
      refine ih _ chunks ?_ ?_ hres
      · simp only [chunkBody]; omega
      · intro c hc
        simp only [chunkBody, List.mem_append, List.mem_singleton] at hc
        rcases hc with hc | hc
        · exact hinv c hc
        · subst hc
          simp only [Chunk.InBounds]
          omega
    · simp only [Option.some.injEq] at hres
      subst hres; exact hinv

/-- With `overlap = 0` and a positive `chunkSize` the loop leaves after at most
`text.length - start` iterations. -/
theorem chunkLoop_returns (text : JSString) (chunkSize : Nat) (hcs : 0 < chunkSize) :
    ∀ (fuel : Nat) (st : ChunkState), 0 ≤ st.start → (text.length : Int) - st.start ≤ fuel →
      ∃ chunks, chunkLoop text chunkSize 0 fuel st = some chunks := by
  intro fuel
  induction fuel with
  | zero =>
    intro st _ hf
    have : ¬ st.start < text.length := by omega
    exact ⟨st.chunks, by simp [chunkLoop, this]⟩
  | succ f ih =>
    intro st h0 hf
    by_cases hlt : st.start < text.length
    · have hpos := chunkWindow_length_pos text chunkSize st.start h0 hlt hcs
      simp only [chunkLoop, hlt, if_true]
      apply ih
      · simp only [chunkBody]; omega
      · simp only [chunkBody]; push_cast at hf ⊢; omega
    · exact ⟨st.chunks, by simp [chunkLoop, hlt]⟩

/-! ## Runs of `chunkText` that return -/

/-- The call returns exactly for the empty text and for `overlap = 0` with a
positive `chunkSize`. -/
theorem chunkText_returns_iff (text : JSString) (chunkSize overlap : Nat) :
    (∃ fuel chunks, chunkText fuel text chunkSize overlap = some chunks) ↔
      (text = [] ∨ (overlap = 0 ∧ 0 < chunkSize)) := by
  constructor
  · rintro ⟨fuel, chunks, h⟩
    by_contra hcon
    rw [not_or] at hcon
    have hpar : 0 < overlap ∨ chunkSize = 0 := by
      have := hcon.2
      omega
    have hlen : (0 : Int) < text.length := by
      have := List.length_pos.2 hcon.1
      omega
    rw [chunkText, chunkLoop_none text chunkSize overlap hpar fuel _ hlen] at h
    exact absurd h (by simp)
  · rintro (h | ⟨h1, h2⟩)
    · subst h
      exact ⟨0, [], by simp [chunkText, chunkLoop]⟩
    · subst h1
      obtain ⟨chunks, hc⟩ := chunkLoop_returns text chunkSize h2 text.length
        { start := 0, chunks := [] } (le_refl 0) (by simp)
      exact ⟨text.length, chunks, hc⟩

/-- With `overlap = 0`, a non-empty text of at most `chunkSize` units is
returned as one chunk spanning the whole text. -/
theorem chunkText_single_chunk_of_overlap_zero (fuel : Nat) (text : JSString) (chunkSize : Nat)
    (hne : text ≠ []) (hle : text.length ≤ chunkSize) :
    chunkText (fuel + 1) text chunkSize 0 =
      some [{ text := trim text, startIndex := 0, endIndex := text.length }] := by
  have hpos : (0 : Int) < text.length := by
    have := List.length_pos.2 hne
    omega
  have hmin : min ((0 : Int) + (chunkSize : Int)) (text.length : Int) = text.length := by
    rw [min_def]; split_ifs <;> omega
  have hslice : jsSlice text 0 (text.length : Int) = text := by
    unfold jsSlice
    have hn : ¬ ((text.length : Int) < 0) := by omega
    have h0 : min (0 : Int) (text.length : Int) = 0 := by omega
    simp only [lt_self_iff_false, if_false, hn, min_self, h0, Int.toNat_zero,
      List.drop_zero, sub_zero, Int.toNat_ofNat, List.take_length]
  have hwin : chunkWindow text chunkSize 0 = text := by
    unfold chunkWindow
    simp only [hmin, lt_self_iff_false, if_false, hslice]
  have hbody : chunkBody text chunkSize 0 { start := 0, chunks := [] } =
      { start := text.length,
        chunks := [{ text := trim text, startIndex := 0, endIndex := text.length }] } := by
    simp [chunkBody, hwin]
  unfold chunkText
  simp only [chunkLoop, hpos, if_true, hbody]
  cases fuel <;> simp [chunkLoop]

theorem chunkLoop_covers (text : JSString) (chunkSize : Nat) (hcs : 0 < chunkSize) :
    ∀ (fuel : Nat) (st : ChunkState) (chunks : List Chunk),
      0 ≤ st.start → st.start ≤ text.length →
      st.chunks.Chain' (fun c d => d.startIndex ≤ c.endIndex) →
      (st.chunks = [] → st.start = 0) →
      (∀ c, st.chunks.getLast? = some c → c.endIndex = st.start) →
      (∀ c, st.chunks.head? = some c → c.startIndex = 0) →
      chunkLoop text chunkSize 0 fuel st = some chunks →
      chunks.Chain' (fun c d => d.startIndex ≤ c.endIndex) ∧
        (chunks = [] → text.length = 0) ∧
        (∀ c, chunks.getLast? = some c → c.endIndex = text.length) ∧
        (∀ c, chunks.head? = some c → c.startIndex = 0) := by
  intro fuel
  induction fuel with
  | zero =>
    intro st chunks h0 h1 hch hnil hlast hhead hres
    simp only [chunkLoop] at hres
    split at hres
    · exact absurd hres (by simp)
    · simp only [Option.some.injEq] at hres
      subst hres
      have hs : st.start = text.length := by omega
      exact ⟨hch, fun hn => by have := hnil hn; omega, fun c hc => by rw [hlast c hc, hs], hhead⟩
  | succ f ih =>
    intro st chunks h0 h1 hch hnil hlast hhead hres
    simp only [chunkLoop] at hres
    split at hres
    · rename_i hlt
      have hle := (chunkWindow_length_le text chunkSize st.start).2 h0 h1
      have hpos := chunkWindow_length_pos text chunkSize st.start h0 hlt hcs
      refine ih _ chunks ?_ ?_ ?_ ?_ ?_ ?_ hres
      · simp only [chunkBody]; omega
      · simp only [chunkBody]; omega
      · simp only [chunkBody]
        rw [List.chain'_append]
        refine ⟨hch, List.chain'_singleton _, ?_⟩
        intro x hx y hy
        simp only [List.head?_cons, Option.mem_def, Option.some.injEq] at hy
        subst hy
        simp only [Option.mem_def] at hx
        have := hlast x hx
        show st.start ≤ x.endIndex
        omega
      · intro hn
        simp [chunkBody] at hn
      · intro c hc
        simp only [chunkBody, List.getLast?_concat, Option.some.injEq] at hc
        subst hc
        simp only [chunkBody]
        omega
      · intro c hc
        simp only [chunkBody, List.head?_append] at hc
        cases hl : st.chunks with
        | nil =>
          rw [hl] at hc
          simp only [List.head?_nil, Option.or, List.head?_cons, Option.some.injEq] at hc
          subst hc
          exact hnil hl
        | cons d ds =>
          rw [hl] at hc
          simp only [List.head?_cons, Option.or, Option.some.injEq] at hc
          subst hc
          exact hhead d (by rw [hl]; rfl)
    · simp only [Option.some.injEq] at hres
      subst hres
      have hs : st.start = text.length := by omega
      exact ⟨hch, fun hn => by have := hnil hn; omega, fun c hc => by rw [hlast c hc, hs], hhead⟩

/-- Whenever `chunkText` returns for a non-empty text, the returned spans
cover the text: the first chunk starts at 0, every following chunk starts no
later than the end of its predecessor, and the last chunk ends at the text
length. -/
theorem chunkText_covers_of_returns (fuel : Nat) (text : JSString) (chunkSize overlap : Nat)
    (chunks : List Chunk) (hne : text ≠ [])
    (h : chunkText fuel text chunkSize overlap = some chunks) :
    (∃ c, chunks.head? = some c ∧ c.startIndex = 0) ∧
      chunks.Chain' (fun c d => d.startIndex ≤ c.endIndex) ∧
      (∃ c, chunks.getLast? = some c ∧ c.endIndex = text.length) := by
  have hret := (chunkText_returns_iff text chunkSize overlap).1 ⟨fuel, chunks, h⟩
  rcases hret with hnil | ⟨hov, hcs⟩
  · exact absurd hnil hne
  · subst hov
    obtain ⟨h1, h2, h3, h4⟩ := chunkLoop_covers text chunkSize hcs fuel
      { start := 0, chunks := [] } chunks (le_refl 0) (by simp) List.chain'_nil (fun _ => rfl)
      (fun c hc => by simp at hc) (fun c hc => by simp at hc) h
    have hlen := List.length_pos.2 hne
    have hcne : chunks ≠ [] := fun hn => by have := h2 hn; omega
    obtain ⟨c, hc⟩ : ∃ c, chunks.head? = some c := by
      cases chunks with
      | nil => exact absurd rfl hcne
      | cons c cs => exact ⟨c, rfl⟩
    obtain ⟨d, hd⟩ : ∃ d, chunks.getLast? = some d :=
      ⟨chunks.getLast hcne, List.getLast?_eq_getLast _ hcne⟩
    exact ⟨⟨c, hc, h4 c hc⟩, h1, ⟨d, hd, h3 d hd⟩⟩

/-! ## Claims about `chunkText` -/

/-- C1 (the code does not terminate): on every non-empty text and with every
positive `overlap`, whatever `chunkSize` is, the loop of `chunkText` is still
iterating after any number of iterations, so the call never returns; in
particular with `0 < overlap < chunkSize` and with the defaults 1000 and 200. -/
theorem chunkText_never_returns (fuel : Nat) (text : JSString) (chunkSize overlap : Nat)
    (htext : text ≠ []) (hov : 0 < overlap) :
    chunkText fuel text chunkSize overlap = none := by
  apply chunkLoop_none text chunkSize overlap (Or.inl hov)
  have : 0 < text.length := List.length_pos.2 htext
  simpa using this

/-- Witness of C1: the text `abc` with the default `chunkSize` and `overlap`. -/
theorem chunkText_never_returns_witness :
    js "abc" ≠ [] ∧ 0 < defaultOverlap ∧ defaultOverlap < defaultChunkSize ∧
      chunkText 1000 (js "abc") defaultChunkSize defaultOverlap = none :=
  ⟨by decide, by decide, by decide,
    chunkText_never_returns 1000 (js "abc") defaultChunkSize defaultOverlap (by decide) (by decide)⟩

/-- C2 (the code does not return the single chunk): for the three-unit text
`abc` and the defaults 1000 and 200 the first iteration pushes the chunk with
`startIndex = 0` and `endIndex = 3`, but it moves the scan position to `-197`,
which is still below the text length, and the call never returns. -/
theorem chunkText_short_text_no_return :
    ((js "abc").length ≤ defaultChunkSize ∧ defaultOverlap < defaultChunkSize) ∧
      chunkBody (js "abc") defaultChunkSize defaultOverlap { start := 0, chunks := [] } =
        { start := -197, chunks := [{ text := js "abc", startIndex := 0, endIndex := 3 }] } ∧
      ∀ fuel : Nat, chunkText fuel (js "abc") defaultChunkSize defaultOverlap = none :=
  ⟨by decide, by decide!,
    fun fuel => chunkLoop_none (js "abc") defaultChunkSize defaultOverlap (Or.inl (by decide)) fuel
      _ (by decide)⟩

/-- C3 (counterexample): with `chunkSize = 5` and `overlap = 10` the call on
the empty text is not rejected, it returns the empty array. -/
theorem chunkText_overlap_ge_not_rejected : (5 : Nat) ≤ 10 ∧ chunkText 0 [] 5 10 = some [] :=
  ⟨by decide, by decide⟩

/-- On the empty text the call returns the empty array for every `chunkSize`
and `overlap`. -/
theorem chunkText_empty_text (fuel chunkSize overlap : Nat) :
    chunkText fuel [] chunkSize overlap = some [] := by
  cases fuel <;> simp [chunkText, chunkLoop]

/-- C3 (amended): `chunkText` does not reject a configuration with
`overlap >= chunkSize`: with such a configuration the call returns the empty
array for the empty text, and for every non-empty text the loop is still
iterating after any number of iterations, so the call never returns. -/
theorem chunkText_overlap_ge_chunkSize (text : JSString) (chunkSize overlap : Nat)
    (h : chunkSize ≤ overlap) :
    (text = [] → ∀ fuel : Nat, chunkText fuel text chunkSize overlap = some []) ∧
      (text ≠ [] → ∀ fuel : Nat, chunkText fuel text chunkSize overlap = none) := by
  constructor
  · intro htext fuel
    subst htext
    cases fuel <;> simp [chunkText, chunkLoop]
  · intro htext fuel
    have hpar : 0 < overlap ∨ chunkSize = 0 := by omega
    apply chunkLoop_none text chunkSize overlap hpar
    have : 0 < text.length := List.length_pos.2 htext
    simpa using this

/-- Witness of C3 (amended): with `chunkSize = 5` and `overlap = 10` the call
returns the empty array for the empty text and is still iterating after seven
iterations for the text `abc`. -/
theorem chunkText_overlap_ge_chunkSize_witness :
    (5 : Nat) ≤ 10 ∧ chunkText 7 [] 5 10 = some [] ∧ chunkText 7 (js "abc") 5 10 = none :=
  ⟨by decide, (chunkText_overlap_ge_chunkSize [] 5 10 (by decide)).1 rfl 7,
    (chunkText_overlap_ge_chunkSize (js "abc") 5 10 (by decide)).2 (by decide) 7⟩

/-- C4 (the code returns no covering): for the six-unit text `abcdef` with
`chunkSize = 4` and `overlap = 1` the loop pushes the spans `[0,4)`, `[3,6)`
and `[5,6)`, after which the body maps scan position 5 to 5 again; no array is returned. -/
theorem chunkText_no_covering_returned :
    (1 : Nat) < 4 ∧
      chunkBody (js "abcdef") 4 1 (chunkBody (js "abcdef") 4 1
          (chunkBody (js "abcdef") 4 1 { start := 0, chunks := [] })) =
        { start := 5, chunks := [{ text := js "abcd", startIndex := 0, endIndex := 4 },
            { text := js "def", startIndex := 3, endIndex := 6 },
            { text := js "f", startIndex := 5, endIndex := 6 }] } ∧
      (chunkBody (js "abcdef") 4 1 { start := 5, chunks := [] }).start = 5 ∧
      ∀ fuel : Nat, chunkText fuel (js "abcdef") 4 1 = none :=
  ⟨by decide, by decide!, by decide!,
    fun fuel => chunkLoop_none (js "abcdef") 4 1 (Or.inl (by decide)) fuel _ (by decide)⟩

/-- C5 fails on the code: for the text `abc` and the defaults 1000 and 200 the
loop is entered a second time, because `-197 < 3`, and pushes a chunk with
`startIndex = -197` and `endIndex = -194`, which are no positions in the
text; the loop goes on like this and the call never returns. -/
theorem chunkText_pushes_negative_offsets :
    (-197 : Int) < (js "abc").length ∧
      chunkBody (js "abc") defaultChunkSize defaultOverlap
          (chunkBody (js "abc") defaultChunkSize defaultOverlap { start := 0, chunks := [] }) =
        { start := -394,
          chunks := [{ text := js "abc", startIndex := 0, endIndex := 3 },
            { text := js "abc", startIndex := -197, endIndex := -194 }] } ∧
      ¬ Chunk.InBounds (js "abc").length
        { text := js "abc", startIndex := -197, endIndex := -194 } ∧
      ∀ fuel : Nat, chunkText fuel (js "abc") defaultChunkSize defaultOverlap = none :=
  ⟨by decide, by decide!, fun hin => absurd hin.1 (by decide),
    fun fuel => chunkLoop_none (js "abc") defaultChunkSize defaultOverlap (Or.inl (by decide)) fuel
      _ (by decide)⟩

/-- Every chunk of an array that `chunkText` returns satisfies
`0 <= startIndex < endIndex <= text.length`; the call returns only for the
empty text and for `overlap = 0`. -/
theorem chunkText_chunks_inBounds (fuel : Nat) (text : JSString) (chunkSize overlap : Nat)
    (chunks : List Chunk) (h : chunkText fuel text chunkSize overlap = some chunks) :
    ∀ c ∈ chunks, 0 ≤ c.startIndex ∧ c.startIndex < c.endIndex ∧ c.endIndex ≤ text.length := by
  by_cases hpar : 0 < overlap ∨ chunkSize = 0
  · by_cases htext : (0 : Int) < text.length
    · have := chunkLoop_none text chunkSize overlap hpar fuel { start := 0, chunks := [] } htext
      rw [chunkText, this] at h
      exact absurd h (by simp)
    · have hnil : chunks = [] := by
        cases fuel <;> simp [chunkText, chunkLoop, htext] at h <;> exact h
      subst hnil
      intro c hc
      exact absurd hc (List.not_mem_nil c)
  · have hov : overlap = 0 := by omega
    have hcs : 0 < chunkSize := by omega
    subst hov
    exact chunkLoop_inBounds text chunkSize hcs fuel { start := 0, chunks := [] } chunks
      (le_refl 0) (fun c hc => absurd hc (List.not_mem_nil c)) h

/-- A run with `chunkSize = 5` and `overlap = 0` that returns three chunks, and
the bounds of the second one. -/
theorem chunkText_chunks_inBounds_witness :
    chunkText 5 (js "Hi. there you") 5 0 =
        some [{ text := js "Hi. t", startIndex := 0, endIndex := 5 },
          { text := js "here", startIndex := 5, endIndex := 10 },
          { text := js "you", startIndex := 10, endIndex := 13 }] ∧
      ((0 : Int) ≤ 5 ∧ (5 : Int) < 10 ∧ (10 : Int) ≤ (js "Hi. there you").length) :=
  ⟨by decide!,
    chunkText_chunks_inBounds 5 (js "Hi. there you") 5 0
      [{ text := js "Hi. t", startIndex := 0, endIndex := 5 },
        { text := js "here", startIndex := 5, endIndex := 10 },
        { text := js "you", startIndex := 10, endIndex := 13 }] (by decide!)
      { text := js "here", startIndex := 5, endIndex := 10 } (by decide)⟩

/-! ## Claims about `computeCosineSimilarity` -/

theorem F64.mul_symm (x y : F64) : F64.mul x y = F64.mul y x := by
  cases x <;> cases y <;> simp [F64.mul, Bool.xor_comm, Nat.mul_comm, -Nat.reducePow]

theorem cosineLoop_eq_foldl : ∀ (a b : List F64) (dot normA normB : F64), a.length = b.length →
    cosineLoop a b (dot, normA, normB) =
      ((a.zip b).foldl (fun acc p => F64.add acc (F64.mul p.1 p.2)) dot,
        a.foldl (fun acc x => F64.add acc (F64.mul x x)) normA,
        b.foldl (fun acc x => F64.add acc (F64.mul x x)) normB) := by
  intro a
  induction a with
  | nil =>
    intro b dot normA normB h
    cases b with
    | nil => simp [cosineLoop]
    | cons y ys => simp at h
  | cons x xs ih =>
    intro b dot normA normB h
    cases b with
    | nil => simp at h
    | cons y ys =>
      simp only [List.length_cons, Nat.add_right_cancel_iff] at h
      simp only [cosineLoop, List.zip_cons_cons, List.foldl_cons]
      exact ih ys _ _ _ h

theorem cosineLoop_swap : ∀ (a b : List F64) (dot normA normB : F64),
    cosineLoop b a (dot, normB, normA) =
      ((cosineLoop a b (dot, normA, normB)).1, (cosineLoop a b (dot, normA, normB)).2.2,
        (cosineLoop a b (dot, normA, normB)).2.1) := by
  intro a
  induction a with
  | nil =>
    intro b dot normA normB
    cases b <;> simp [cosineLoop]
  | cons x xs ih =>
    intro b dot normA normB
    cases b with
    | nil => simp [cosineLoop]
    | cons y ys =>
      simp only [cosineLoop]
      rw [F64.mul_symm y x]
      exact ih ys _ _ _

/-- C6 (counterexample): for `a = b = [1, 1, 1]` the loop ends with
`dotProduct = normA = normB = 3`, and the returned quotient
`3 / (Math.sqrt(3) * Math.sqrt(3))` is `1 + 2^(-52)`, greater than 1. -/
theorem computeCosineSimilarity_exceeds_one :
    cosineLoop [F64.ofNat 1, F64.ofNat 1, F64.ofNat 1] [F64.ofNat 1, F64.ofNat 1, F64.ofNat 1]
        (F64.zero, F64.zero, F64.zero) = (F64.ofNat 3, F64.ofNat 3, F64.ofNat 3) ∧
      computeCosineSimilarity [F64.ofNat 1, F64.ofNat 1, F64.ofNat 1]
        [F64.ofNat 1, F64.ofNat 1, F64.ofNat 1] = F64.fin false ((2 ^ 52 + 1) * 2 ^ 1022) ∧
      F64.gt (computeCosineSimilarity [F64.ofNat 1, F64.ofNat 1, F64.ofNat 1]
        [F64.ofNat 1, F64.ofNat 1, F64.ofNat 1]) (F64.ofNat 1) = true :=
  ⟨by decide!, by decide!, by decide!⟩

/-- C6 (amended): for vectors of equal length `computeCosineSimilarity(a, b)`
is the binary64 quotient of the dot product by the product of the two norms,
every operation rounded to binary64. -/
theorem computeCosineSimilarity_eq_formula (a b : List F64) (h : a.length = b.length) :
    computeCosineSimilarity a b = F64.div (dotProduct a b) (F64.mul (norm a) (norm b)) := by
  simp only [computeCosineSimilarity, h, ne_eq, not_true_eq_false, if_false,
    cosineLoop_eq_foldl a b _ _ _ h, dotProduct, norm]

/-- Witness of C6 (amended): the vectors `[1, 2]` and `[3, 4]`. -/
theorem computeCosineSimilarity_eq_formula_witness :
    [F64.ofNat 1, F64.ofNat 2].length = [F64.ofNat 3, F64.ofNat 4].length ∧
      computeCosineSimilarity [F64.ofNat 1, F64.ofNat 2] [F64.ofNat 3, F64.ofNat 4] =
        F64.div (dotProduct [F64.ofNat 1, F64.ofNat 2] [F64.ofNat 3, F64.ofNat 4])
          (F64.mul (norm [F64.ofNat 1, F64.ofNat 2]) (norm [F64.ofNat 3, F64.ofNat 4])) :=
  ⟨by simp only [List.length_cons, List.length_nil],
    computeCosineSimilarity_eq_formula [F64.ofNat 1, F64.ofNat 2] [F64.ofNat 3, F64.ofNat 4]
      (by simp only [List.length_cons, List.length_nil])⟩

/-- C7 (the code returns NaN): for two empty vectors, and for the zero vector
`[0, 0]` against `[1, 2]`, `computeCosineSimilarity` evaluates `0 / 0` and
returns NaN, not 0. -/
theorem computeCosineSimilarity_zero_norm_nan :
    computeCosineSimilarity [] [] = F64.nan ∧
      computeCosineSimilarity [F64.ofNat 0, F64.ofNat 0] [F64.ofNat 1, F64.ofNat 2] = F64.nan ∧
      F64.nan ≠ F64.zero :=
  ⟨by decide!, by decide!, by decide⟩

/-- C8: for vectors of different lengths `computeCosineSimilarity` returns
`0` (the function is total, no error is raised). -/
theorem computeCosineSimilarity_length_mismatch (a b : List F64) (h : a.length ≠ b.length) :
    computeCosineSimilarity a b = F64.zero := by
  simp only [computeCosineSimilarity, h, ne_eq, not_false_eq_true, if_true]

/-- Witness of C8: the vectors `[1, 2]` and `[1]`. -/
theorem computeCosineSimilarity_length_mismatch_witness :
    [F64.ofNat 1, F64.ofNat 2].length ≠ [F64.ofNat 1].length ∧
      computeCosineSimilarity [F64.ofNat 1, F64.ofNat 2] [F64.ofNat 1] = F64.zero :=
  ⟨by simp, computeCosineSimilarity_length_mismatch [F64.ofNat 1, F64.ofNat 2] [F64.ofNat 1]
    (by simp)⟩

/-- C9: `computeCosineSimilarity(a, b)` and `computeCosineSimilarity(b, a)`
are the same value, for all vectors `a` and `b`. -/
theorem computeCosineSimilarity_symm (a b : List F64) :
    computeCosineSimilarity a b = computeCosineSimilarity b a := by
  by_cases h : a.length = b.length
  · unfold computeCosineSimilarity
    rw [if_neg (fun hn => hn h), if_neg (fun hn => hn h.symm)]
    simp only
    rw [cosineLoop_swap a b F64.zero F64.zero F64.zero]
    simp only
    rw [F64.mul_symm]
  · have h2 : b.length ≠ a.length := fun e => h e.symm
    unfold computeCosineSimilarity
    rw [if_pos h, if_pos h2]

/-! ## Facts about the stable sort and `findSimilarChunks` -/

theorem mem_insertBy {α : Type} (comparefn : α → α → F64) (x z : α) :
    ∀ l : List α, z ∈ insertBy comparefn x l ↔ z = x ∨ z ∈ l := by
  intro l
  induction l with
  | nil => simp [insertBy]
  | cons y ys ih =>
    unfold insertBy
    split_ifs
    · simp only [List.mem_cons, ih]
      tauto
    · simp only [List.mem_cons]

theorem perm_insertBy {α : Type} (comparefn : α → α → F64) (x : α) :
    ∀ l : List α, (insertBy comparefn x l).Perm (x :: l) := by
  intro l
  induction l with
  | nil => simp [insertBy]
  | cons y ys ih =>
    unfold insertBy
    split_ifs
    · exact (List.Perm.cons y ih).trans (List.Perm.swap x y ys)
    · exact List.Perm.refl _

theorem perm_sortBy {α : Type} (comparefn : α → α → F64) :
    ∀ l : List α, (sortBy comparefn l).Perm l := by
  intro l
  induction l with
  | nil => simp [sortBy]
  | cons x xs ih =>
    unfold sortBy
    exact (perm_insertBy comparefn x _).trans (List.Perm.cons x ih)

theorem ComesBefore.not_lt {y z : SimilarChunk} (h : ComesBefore y z) :
    F64.lt y.similarity z.similarity = false := by
  rcases h with h | ⟨h, _⟩
  · exact F64.lt_not_gt _ _ h
  · simp only [F64.eq, Bool.and_eq_true, Bool.not_eq_true'] at h
    exact h.1.2

theorem ComesBefore.ge {y z : SimilarChunk} (hy : F64.isNaN y.similarity = false)
    (hz : F64.isNaN z.similarity = false) (h : ComesBefore y z) :
    F64.ge y.similarity z.similarity = true := by
  simp [F64.ge, hy, hz, h.not_lt]

theorem comesBefore_of_not_lt {x z : SimilarChunk} (hx : F64.isNaN x.similarity = false)
    (hz : F64.isNaN z.similarity = false) (hlt : F64.lt x.similarity z.similarity = false)
    (hidx : x.index < z.index) : ComesBefore x z := by
  by_cases h : F64.lt z.similarity x.similarity = true
  · exact Or.inl h
  · right
    simp only [Bool.not_eq_true] at h
    exact ⟨by simp [F64.eq, hx, hz, hlt, h], hidx⟩

theorem insertBy_pairwise (x : SimilarChunk) (hx : F64.isNaN x.similarity = false) :
    ∀ l : List SimilarChunk, (∀ y ∈ l, F64.isNaN y.similarity = false) →
      (∀ y ∈ l, x.index < y.index) → l.Pairwise ComesBefore →
      (insertBy bySimilarityDesc x l).Pairwise ComesBefore := by
  intro l
  induction l with
  | nil => intro _ _ _; simp [insertBy]
  | cons y ys ih =>
    intro hnan hidx hsorted
    have hy := hnan y (List.mem_cons_self y ys)
    have hcmp : F64.gt (bySimilarityDesc x y) F64.zero = F64.lt x.similarity y.similarity :=
      F64.gt_sub_zero x.similarity y.similarity hx hy
    rw [List.pairwise_cons] at hsorted
    unfold insertBy
    rw [hcmp]
    by_cases hlt : F64.lt x.similarity y.similarity = true
    · rw [if_pos hlt, List.pairwise_cons]
      refine ⟨fun z hz => ?_, ih (fun z hz => hnan z (List.mem_cons_of_mem y hz))
        (fun z hz => hidx z (List.mem_cons_of_mem y hz)) hsorted.2⟩
      rcases (mem_insertBy bySimilarityDesc x z ys).1 hz with rfl | hz
      · exact Or.inl hlt
      · exact hsorted.1 z hz
    · rw [if_neg hlt, List.pairwise_cons]
      simp only [Bool.not_eq_true] at hlt
      refine ⟨fun z hz => ?_, List.pairwise_cons.2 hsorted⟩
      have hzn := hnan z hz
      apply comesBefore_of_not_lt hx hzn _ (hidx z hz)
      rcases List.mem_cons.1 hz with rfl | hz'
      · exact hlt
      · by_contra hxz
        simp only [Bool.not_eq_false] at hxz
        rcases F64.lt_cotrans _ _ _ hy hxz with h1 | h1
        · rw [hlt] at h1; exact Bool.false_ne_true h1
        · rw [(hsorted.1 z hz').not_lt] at h1; exact Bool.false_ne_true h1

theorem sortBy_pairwise : ∀ l : List SimilarChunk,
    (∀ y ∈ l, F64.isNaN y.similarity = false) → l.Pairwise (fun a b => a.index < b.index) →
      (sortBy bySimilarityDesc l).Pairwise ComesBefore := by
  intro l
  induction l with
  | nil => intro _ _; simp [sortBy]
  | cons x xs ih =>
    intro hnan hidx
    rw [List.pairwise_cons] at hidx
    unfold sortBy
    apply insertBy_pairwise x (hnan x (List.mem_cons_self x xs))
    · intro y hy
      exact hnan y (List.mem_cons_of_mem x ((perm_sortBy _ xs).mem_iff.1 hy))
    · intro y hy
      exact hidx.1 y ((perm_sortBy _ xs).mem_iff.1 hy)
    · exact ih (fun y hy => hnan y (List.mem_cons_of_mem x hy)) hidx.2

theorem mem_similaritiesFrom (q : List F64) : ∀ (chunks : List StoredChunk) (i : Nat)
    (z : SimilarChunk), z ∈ similaritiesFrom q i chunks →
      i ≤ z.index ∧ ∃ c ∈ chunks, z.similarity = computeCosineSimilarity q c.embedding := by
  intro chunks
  induction chunks with
  | nil => intro i z hz; simp [similaritiesFrom] at hz
  | cons c cs ih =>
    intro i z hz
    simp only [similaritiesFrom, List.mem_cons] at hz
    rcases hz with rfl | hz
    · exact ⟨le_refl _, c, List.mem_cons_self c cs, rfl⟩
    · obtain ⟨h1, c', hc', h2⟩ := ih (i + 1) z hz
      exact ⟨by omega, c', List.mem_cons_of_mem c hc', h2⟩

theorem similaritiesFrom_pairwise (q : List F64) : ∀ (chunks : List StoredChunk) (i : Nat),
    (similaritiesFrom q i chunks).Pairwise (fun a b => a.index < b.index) := by
  intro chunks
  induction chunks with
  | nil => intro i; simp [similaritiesFrom]
  | cons c cs ih =>
    intro i
    simp only [similaritiesFrom, List.pairwise_cons]
    refine ⟨fun z hz => ?_, ih (i + 1)⟩
    have := (mem_similaritiesFrom q cs (i + 1) z hz).1
    show i < z.index
    omega

/-! ## Claims about `findSimilarChunks` -/

/-- C10 fails on the code: for the query `[1]` and two chunks with embeddings
`[0]` and `[1]` the similarities are NaN and 1; the comparison function
returns NaN for the two entries in either order, the sort leaves the entries
in place, the returned similarities `[NaN, 1]` are not non-increasing, and
with `k = 1` the chunk of similarity NaN is returned instead of the one of
similarity 1. -/
theorem findSimilarChunks_nan_first :
    F64.sub (F64.ofNat 1) F64.nan = F64.nan ∧ F64.sub F64.nan (F64.ofNat 1) = F64.nan ∧
    (findSimilarChunks [F64.ofNat 1]
        [{ text := [], startIndex := 0, endIndex := 0, embedding := [F64.ofNat 0] },
          { text := [], startIndex := 0, endIndex := 0, embedding := [F64.ofNat 1] }] 2).map
        (fun e => e.similarity) = [F64.nan, F64.ofNat 1] ∧
      F64.ge F64.nan (F64.ofNat 1) = false ∧
      (findSimilarChunks [F64.ofNat 1]
        [{ text := [], startIndex := 0, endIndex := 0, embedding := [F64.ofNat 0] },
          { text := [], startIndex := 0, endIndex := 0, embedding := [F64.ofNat 1] }] 1).map
        (fun e => (e.index, e.similarity)) = [(0, F64.nan)] :=
  ⟨by decide!, by decide!, by decide!, by decide!, by decide!⟩

/-- When no chunk has similarity NaN to the query, `findSimilarChunks` returns the first `k` entries of the arrangement of the
entries in which every entry comes before every entry of smaller similarity
and before every later entry of equal similarity; hence it returns at most
`k` entries and their similarities are non-increasing. -/
theorem findSimilarChunks_ordered (q : List F64) (chunks : List StoredChunk) (k : Nat)
    (h : ∀ c ∈ chunks, F64.isNaN (computeCosineSimilarity q c.embedding) = false) :
    ∃ ordered : List SimilarChunk,
      ordered.Perm (similaritiesFrom q 0 chunks) ∧ ordered.Pairwise ComesBefore ∧
      findSimilarChunks q chunks k = ordered.take k ∧
      (findSimilarChunks q chunks k).length ≤ k ∧
      ((findSimilarChunks q chunks k).map (fun e => e.similarity)).Pairwise
        (fun s t => F64.ge s t = true) := by
  have hnan : ∀ z ∈ similaritiesFrom q 0 chunks, F64.isNaN z.similarity = false := by
    intro z hz
    obtain ⟨_, c, hc, hzc⟩ := mem_similaritiesFrom q chunks 0 z hz
    rw [hzc]; exact h c hc
  have hperm := perm_sortBy bySimilarityDesc (similaritiesFrom q 0 chunks)
  have hsorted := sortBy_pairwise _ hnan (similaritiesFrom_pairwise q chunks 0)
  refine ⟨sortBy bySimilarityDesc (similaritiesFrom q 0 chunks), hperm, hsorted, rfl, ?_, ?_⟩
  · simp only [findSimilarChunks, List.length_take]
    exact Nat.min_le_left _ _
  · rw [List.pairwise_map]
    have htake : ((sortBy bySimilarityDesc (similaritiesFrom q 0 chunks)).take k).Pairwise
        ComesBefore := hsorted.sublist (List.take_sublist _ _)
    refine htake.imp_of_mem ?_
    intro a b ha hb hab
    have ha' := hnan a (hperm.mem_iff.1 (List.mem_of_mem_take ha))
    have hb' := hnan b (hperm.mem_iff.1 (List.mem_of_mem_take hb))
    exact hab.ge ha' hb'

/-- For the query `[1, 0]` the sample chunks have the similarities 0, 1 and 1; the first two results are the chunks 1 and 2, in
their original order. -/
theorem findSimilarChunks_ordered_witness :
    (∀ c ∈ sampleChunks,
        F64.isNaN (computeCosineSimilarity [F64.ofNat 1, F64.ofNat 0] c.embedding) = false) ∧
      (findSimilarChunks [F64.ofNat 1, F64.ofNat 0] sampleChunks 2).map
        (fun e => (e.index, e.similarity)) = [(1, F64.ofNat 1), (2, F64.ofNat 1)] ∧
      ∃ ordered : List SimilarChunk, ordered.Pairwise ComesBefore ∧
        findSimilarChunks [F64.ofNat 1, F64.ofNat 0] sampleChunks 2 = ordered.take 2 := by
  have hq : ∀ c ∈ sampleChunks,
      F64.isNaN (computeCosineSimilarity [F64.ofNat 1, F64.ofNat 0] c.embedding) = false := by
    decide!
  obtain ⟨ordered, _, h2, h3, _, _⟩ :=
    findSimilarChunks_ordered [F64.ofNat 1, F64.ofNat 0] sampleChunks 2 hq
  exact ⟨hq, by decide!, ordered, h2, h3⟩

/-! ## Facts about rounding -/

namespace F64

theorem bitLen_le_of_lt_pow (x k : Nat) (h : x < 2 ^ k) : bitLen x ≤ k := by
  by_cases hx : x = 0
  · subst hx
    have : bitLen 0 = 0 := by decide
    omega
  · have h1 := (bitLen_spec x).2 hx
    by_contra hcon
    have h2 : 2 ^ k ≤ 2 ^ (bitLen x - 1) := Nat.pow_le_pow_right (by decide) (by omega)
    omega

theorem bitLen_mono (a b : Nat) (h : a ≤ b) : bitLen a ≤ bitLen b :=
  bitLen_le_of_lt_pow a (bitLen b) (lt_of_le_of_lt h (bitLen_spec b).1)

theorem nearestEven_le (n d c : Nat) (hd : 0 < d) (h : n ≤ c * d) : nearestEven n d ≤ c := by
  have hq : n / d ≤ c := Nat.div_le_of_le_mul (by rw [Nat.mul_comm]; exact h)
  unfold nearestEven
  simp only
  rcases Nat.lt_or_ge (n / d) c with hlt | hge
  · split_ifs <;> omega
  · have hqc : n / d = c := by omega
    have hlow : c * d ≤ n := by
      rw [← hqc]; exact Nat.div_mul_le_self n d
    have hn : n = c * d := by omega
    have h1 : 2 * n < (2 * (n / d) + 1) * d := by
      rw [hqc, hn]
      nlinarith
    rw [if_pos h1]
    omega

theorem nearestEven_of_dvd (n d : Nat) (hd : 0 < d) (h : d ∣ n) : nearestEven n d = n / d := by
  obtain ⟨c, rfl⟩ := h
  have hq : d * c / d = c := Nat.mul_div_cancel_left c hd
  unfold nearestEven
  simp only
  have h1 : 2 * (d * c) < (2 * (d * c / d) + 1) * d := by
    rw [hq]; nlinarith
  rw [if_pos h1]

/-- A magnitude that does not exceed a representable magnitude `bound` is
rounded to a finite value that does not exceed `bound`. -/
theorem round_le (s : Bool) (num den bound : Nat) (hden : 0 < den)
    (hdvd : 2 ^ dropBits bound ∣ bound) (hb : bound < 2 ^ 2098) (h : num ≤ bound * den) :
    ∃ r, r ≤ bound ∧ round s num den = fin s r := by
  have hq : num / den ≤ bound := Nat.div_le_of_le_mul (by rw [Nat.mul_comm]; exact h)
  have hsh : dropBits (num / den) ≤ dropBits bound := by
    unfold dropBits
    have := bitLen_mono _ _ hq
    omega
  have hdvd2 : 2 ^ dropBits (num / den) ∣ bound :=
    Dvd.dvd.trans (Nat.pow_dvd_pow 2 hsh) hdvd
  obtain ⟨c, hc⟩ := hdvd2
  have hpos : 0 < 2 ^ dropBits (num / den) := Nat.two_pow_pos _
  have hne : nearestEven num (den * 2 ^ dropBits (num / den)) ≤ c := by
    apply nearestEven_le _ _ _ (Nat.mul_pos hden hpos)
    calc num ≤ bound * den := h
      _ = c * (den * 2 ^ dropBits (num / den)) := by rw [hc]; ring
  have hm : nearestEven num (den * 2 ^ dropBits (num / den)) * 2 ^ dropBits (num / den) ≤ bound := by
    calc nearestEven num (den * 2 ^ dropBits (num / den)) * 2 ^ dropBits (num / den)
        ≤ c * 2 ^ dropBits (num / den) := Nat.mul_le_mul_right _ hne
      _ = bound := by rw [hc]; ring
  refine ⟨_, hm, ?_⟩
  unfold round
  simp only
  rw [if_pos (lt_of_le_of_lt hm hb)]

/-- Integers below `2^53` are binary64 values. -/
theorem ofNat_exact (n : Nat) (h : n < 2 ^ 53) : ofNat n = fin false (n * 2 ^ 1074) := by
  have hlt : n * 2 ^ 1074 < 2 ^ 1127 := by
    have key : ∀ U : Nat, 0 < U → n * U < 2 ^ 53 * U :=
      fun U hU => Nat.mul_lt_mul_of_pos_right h hU
    have h2 : (2 : Nat) ^ 1127 = 2 ^ 53 * 2 ^ 1074 := by rw [← Nat.pow_add]
    rw [h2]
    exact key _ (by decide!)
  have hsh : dropBits (n * 2 ^ 1074) ≤ 1074 := by
    unfold dropBits
    have := bitLen_le_of_lt_pow _ _ hlt
    omega
  have hmul : ∀ U k : Nat, k ∣ U → k ∣ n * U := fun U k hk => Dvd.dvd.mul_left hk n
  have hpow : ∀ a b : Nat, a ≤ b → 2 ^ a ∣ 2 ^ b := fun a b hab => Nat.pow_dvd_pow 2 hab
  have hdvd : 2 ^ dropBits (n * 2 ^ 1074) ∣ n * 2 ^ 1074 :=
    hmul _ _ (hpow _ _ hsh)
  have hpos : 0 < 2 ^ dropBits (n * 2 ^ 1074) := Nat.two_pow_pos _
  unfold ofNat round
  simp only [Nat.div_one, Nat.one_mul]
  rw [nearestEven_of_dvd _ _ hpos hdvd, Nat.div_mul_cancel hdvd]
  have hb : n * 2 ^ 1074 < 2 ^ 2098 :=
    lt_trans hlt (by decide!)
  rw [if_pos hb]

/-- The quotient of a magnitude by a magnitude that is not smaller is at
most 1. -/
theorem div_le_one (s : Bool) (a b : Nat) (hb : 0 < b) (hab : a ≤ b) :
    ∃ q, q ≤ 2 ^ 1074 ∧ round s (a * 2 ^ 1074) b = fin s q := by
  have hdvd : 2 ^ dropBits (2 ^ 1074) ∣ 2 ^ 1074 := by decide!
  have hlt : 2 ^ 1074 < 2 ^ 2098 := by decide!
  have key : ∀ U : Nat, a * U ≤ U * b := fun U => by
    rw [Nat.mul_comm]; exact Nat.mul_le_mul_left _ hab
  exact round_le s _ b _ hb hdvd hlt (key _)

/-- The product of a magnitude of at most 1 with 100 is at most 100. -/
theorem mul_hundred_le (s : Bool) (q : Nat) (hq : q ≤ 2 ^ 1074) :
    ∃ p, p ≤ 100 * 2 ^ 1074 ∧ round s (q * (100 * 2 ^ 1074)) (2 ^ 1074) = fin s p := by
  have hdvd : 2 ^ dropBits (100 * 2 ^ 1074) ∣ 100 * 2 ^ 1074 := by decide!
  have hlt : 100 * 2 ^ 1074 < 2 ^ 2098 := by decide!
  have key : ∀ U : Nat, q ≤ U → q * (100 * U) ≤ 100 * U * U := fun U h => by nlinarith
  have hU : 0 < 2 ^ 1074 := by decide!
  exact round_le s _ _ _ hU hdvd hlt (key _ hq)

/-- The function `Math.round` maps a non-negative number of at most 100 to an
integer between 0 and 100. -/
theorem mathRound_le_hundred (p : Nat) (hp : p ≤ 100 * 2 ^ 1074) :
    ∃ k, k ≤ 100 ∧ mathRound (fin false p) = fin false (k * 2 ^ 1074) := by
  refine ⟨(2 * p + 2 ^ 1074) / (2 * 2 ^ 1074), ?_, rfl⟩
  have hU : 0 < 2 ^ 1074 := by decide!
  generalize 2 ^ 1074 = U at hp hU ⊢
  have hpos : 0 < 2 * U := by omega
  rw [Nat.div_le_iff_le_mul_add_pred hpos]
  omega

theorem isPercent_of_le (k : Nat) (hk : k ≤ 100) : IsPercent (fin false (k * 2 ^ 1074)) :=
  ⟨k, hk, (ofNat_exact k (lt_of_le_of_lt hk (by decide))).symm⟩

end F64

/-- The percentage of `matched` out of `total` is an integer between 0 and 100
whenever `matched <= total`, `total` is positive and below `2^53`. -/
theorem percentOf_isPercent (matched total : Nat) (h0 : 0 < total) (hle : matched ≤ total)
    (hlt : total < 2 ^ 53) : F64.IsPercent (percentOf matched total) := by
  unfold percentOf
  rw [F64.ofNat_exact matched (lt_of_le_of_lt hle hlt), F64.ofNat_exact total hlt,
    F64.ofNat_exact 100 (by decide)]
  have hb : total * 2 ^ 1074 ≠ 0 := by
    have hU : 0 < 2 ^ 1074 := by decide!
    generalize 2 ^ 1074 = U at hU
    exact Nat.mul_ne_zero (by omega) (by omega)
  obtain ⟨q, hq, hdiv⟩ := F64.div_le_one false (matched * 2 ^ 1074) (total * 2 ^ 1074)
    (Nat.pos_of_ne_zero hb) (Nat.mul_le_mul_right _ hle)
  have hd : F64.div (F64.fin false (matched * 2 ^ 1074)) (F64.fin false (total * 2 ^ 1074)) =
      F64.fin false q := by
    simp only [F64.div, hb, if_false, Bool.xor_false]
    exact hdiv
  rw [hd]
  obtain ⟨p, hp, hmul⟩ := F64.mul_hundred_le false q hq
  have hm : F64.mul (F64.fin false q) (F64.fin false (100 * 2 ^ 1074)) = F64.fin false p := by
    simp only [F64.mul, Bool.xor_false]
    exact hmul
  rw [hm]
  obtain ⟨k, hk, hr⟩ := F64.mathRound_le_hundred p hp
  rw [hr]
  exact F64.isPercent_of_le k hk

/-! ## Facts about `matchJob` -/

theorem F64.lt_not_nan {x y : F64} (h : F64.lt x y = true) :
    F64.isNaN x = false ∧ F64.isNaN y = false := by
  cases x <;> cases y <;> simp [F64.lt, F64.isNaN] at h ⊢

/-- The inner loop keeps a best similarity that is not NaN, that is the
initial value or one of the similarities, and that no similarity exceeds. -/
theorem bestMatchLoop_spec (jobEmbedding : List F64) :
    ∀ (resumeChunks : List StoredChunk) (best : F64) (chunk : Option StoredChunk),
      F64.isNaN best = false →
      F64.isNaN (bestMatchLoop jobEmbedding resumeChunks (best, chunk)).1 = false ∧
      F64.lt (bestMatchLoop jobEmbedding resumeChunks (best, chunk)).1 best = false ∧
      (∀ r ∈ resumeChunks, F64.lt (bestMatchLoop jobEmbedding resumeChunks (best, chunk)).1
        (computeCosineSimilarity jobEmbedding r.embedding) = false) ∧
      (bestMatchLoop jobEmbedding resumeChunks (best, chunk) = (best, chunk) ∨
        ∃ r ∈ resumeChunks,
          bestMatchLoop jobEmbedding resumeChunks (best, chunk) =
            (computeCosineSimilarity jobEmbedding r.embedding, some r)) := by
  intro resumeChunks
  induction resumeChunks with
  | nil =>
    intro best chunk hb
    refine ⟨hb, ?_, ?_, Or.inl rfl⟩
    · simp only [bestMatchLoop]
      cases hlt : F64.lt best best
      · rfl
      · rw [F64.lt_not_gt _ _ hlt] at hlt; exact absurd hlt (by simp)
    · intro r hr; exact absurd hr (List.not_mem_nil r)
  | cons rc rest ih =>
    intro best chunk hb
    unfold bestMatchLoop
    by_cases hgt : F64.gt (computeCosineSimilarity jobEmbedding rc.embedding) best = true
    · rw [if_pos hgt]
      have hs := (F64.lt_not_nan hgt).2
      obtain ⟨h1, h2, h3, h4⟩ := ih (computeCosineSimilarity jobEmbedding rc.embedding) (some rc) hs
      have hcot : ∀ z : F64, F64.lt (bestMatchLoop jobEmbedding rest
          (computeCosineSimilarity jobEmbedding rc.embedding, some rc)).1 z = true →
          F64.lt (computeCosineSimilarity jobEmbedding rc.embedding) z = true := by
        intro z hz
        rcases F64.lt_cotrans _ _ _ hs hz with h | h
        · rw [h2] at h; exact absurd h (by simp)
        · exact h
      refine ⟨h1, ?_, ?_, ?_⟩
      · by_contra hcon
        simp only [Bool.not_eq_false] at hcon
        have := hcot _ hcon
        rw [F64.lt_not_gt _ _ hgt] at this
        exact absurd this (by simp)
      · intro r hr
        rcases List.mem_cons.1 hr with rfl | hr'
        · exact h2
        · exact h3 r hr'
      · right
        rcases h4 with h | ⟨r, hr, h⟩
        · exact ⟨rc, List.mem_cons_self _ _, h⟩
        · exact ⟨r, List.mem_cons_of_mem _ hr, h⟩
    · rw [if_neg hgt]
      simp only [Bool.not_eq_true] at hgt
      obtain ⟨h1, h2, h3, h4⟩ := ih best chunk hb
      refine ⟨h1, h2, ?_, ?_⟩
      · intro r hr
        rcases List.mem_cons.1 hr with rfl | hr'
        · by_contra hcon
          simp only [Bool.not_eq_false] at hcon
          rcases F64.lt_cotrans _ _ _ hb hcon with h | h
          · rw [h2] at h; exact absurd h (by simp)
          · rw [F64.gt] at hgt; rw [hgt] at h; exact absurd h (by simp)
        · exact h3 r hr'
      · rcases h4 with h | ⟨r, hr, h⟩
        · exact Or.inl h
        · exact Or.inr ⟨r, List.mem_cons_of_mem _ hr, h⟩

/-- A best similarity above the threshold is the similarity of the recorded
best chunk, which is a chunk of the resume, and it is a highest similarity. -/
theorem bestMatch_of_gt (jobEmbedding : List F64) (resumeChunks : List StoredChunk)
    (h : F64.gt (bestMatch jobEmbedding resumeChunks).1 F64.lit03 = true) :
    (∃ r ∈ resumeChunks, bestMatch jobEmbedding resumeChunks =
        (computeCosineSimilarity jobEmbedding r.embedding, some r)) ∧
      IsHighest (bestMatch jobEmbedding resumeChunks).1
        (resumeChunks.map (fun r => computeCosineSimilarity jobEmbedding r.embedding)) := by
  obtain ⟨_, _, h3, h4⟩ := bestMatchLoop_spec jobEmbedding resumeChunks F64.zero none (by decide)
  have hex : ∃ r ∈ resumeChunks, bestMatch jobEmbedding resumeChunks =
      (computeCosineSimilarity jobEmbedding r.embedding, some r) := by
    rcases h4 with h0 | h0
    · exfalso
      unfold bestMatch at h
      rw [h0] at h
      exact absurd h (by decide!)
    · exact h0
  refine ⟨hex, ?_, ?_⟩
  · obtain ⟨r, hr, he⟩ := hex
    rw [he]
    exact List.mem_map.2 ⟨r, hr, rfl⟩
  · intro s hs
    obtain ⟨r, hr, rfl⟩ := List.mem_map.1 hs
    exact h3 r hr

/-- The best similarity passes the threshold exactly when some similarity
does. -/
theorem bestMatch_gt_iff (jobEmbedding : List F64) (resumeChunks : List StoredChunk) :
    F64.gt (bestMatch jobEmbedding resumeChunks).1 F64.lit03 = true ↔
      ∃ r ∈ resumeChunks,
        F64.gt (computeCosineSimilarity jobEmbedding r.embedding) F64.lit03 = true := by
  constructor
  · intro h
    obtain ⟨⟨r, hr, he⟩, _⟩ := bestMatch_of_gt jobEmbedding resumeChunks h
    rw [he] at h
    exact ⟨r, hr, h⟩
  · rintro ⟨r, hr, h⟩
    obtain ⟨h1, _, h3, _⟩ :=
      bestMatchLoop_spec jobEmbedding resumeChunks F64.zero none (by decide)
    rcases F64.lt_cotrans _ _ _ h1 h with hlt | hlt
    · exact hlt
    · unfold bestMatch at *
      rw [h3 r hr] at hlt
      exact absurd hlt (by simp)

/-- The list of the best similarities of the job chunks that pass the
threshold, in the order of the job chunks. -/
theorem matchLoop_spec (B : Builtins) (resumeChunks : List StoredChunk) :
    ∀ (jobChunks : List StoredChunk) (acc : MatchAcc),
      (matchLoop B resumeChunks jobChunks acc).totalSimilarity =
        ((jobChunks.map (fun j => (bestMatch j.embedding resumeChunks).1)).filter
          (fun b => F64.gt b F64.lit03)).foldl F64.add acc.totalSimilarity ∧
      (matchLoop B resumeChunks jobChunks acc).matchCount =
        acc.matchCount + ((jobChunks.map (fun j => (bestMatch j.embedding resumeChunks).1)).filter
          (fun b => F64.gt b F64.lit03)).length := by
  intro jobChunks
  induction jobChunks with
  | nil => intro acc; simp [matchLoop]
  | cons j rest ih =>
    intro acc
    unfold matchLoop
    simp only
    by_cases hgt : F64.gt (bestMatch j.embedding resumeChunks).1 F64.lit03 = true
    · rw [if_pos hgt]
      refine ⟨(ih _).1.trans ?_, (ih _).2.trans ?_⟩
      · simp only [List.map_cons, List.filter_cons, hgt, if_true, List.foldl_cons]
      · simp only [List.map_cons, List.filter_cons, hgt, if_true, List.length_cons]
        omega
    · rw [if_neg hgt]
      refine ⟨(ih _).1.trans ?_, (ih _).2.trans ?_⟩
      · simp only [List.map_cons, List.filter_cons, hgt, Bool.false_eq_true, if_false]
      · simp only [List.map_cons, List.filter_cons, hgt, Bool.false_eq_true, if_false]

theorem avgSimilarity_eq_mean (B : Builtins) (job : Job) (resume : Resume) :
    avgSimilarity B job resume =
      mean ((job.chunks.map (fun j => (bestMatch j.embedding resume.chunks).1)).filter
        (fun b => F64.gt b F64.lit03)) := by
  obtain ⟨h1, h2⟩ := matchLoop_spec B resume.chunks job.chunks
    { totalSimilarity := F64.zero, matchCount := 0, evidence := [] }
  unfold avgSimilarity matchAcc mean
  rw [h1, h2]
  simp only [Nat.zero_add]
  by_cases hnil : (job.chunks.map (fun j => (bestMatch j.embedding resume.chunks).1)).filter
      (fun b => F64.gt b F64.lit03) = []
  · rw [hnil]; simp
  · have hpos := List.length_pos.2 hnil
    rw [if_pos hpos, if_neg hnil]

/-! ## Claims about `matchJob` -/

/-- C11: the score that `matchJob` computes for a job and a resume is
`Math.round(100 * avg)`, where `avg` is the mean of the best similarities of
the job chunks whose best similarity exceeds `0.3` (and `0` when there is
none); the best similarity of such a job chunk is the highest cosine
similarity between that job chunk and the resume chunks, and it exceeds
`0.3` exactly when some of these similarities does. -/
theorem matchScore_eq_round_mean (B : Builtins) (job : Job) (resume : Resume) :
    matchScore B job resume =
        F64.mathRound (F64.mul (F64.ofNat 100)
          (mean ((job.chunks.map (fun j => (bestMatch j.embedding resume.chunks).1)).filter
            (fun b => F64.gt b F64.lit03)))) ∧
      (∀ j ∈ job.chunks, F64.gt (bestMatch j.embedding resume.chunks).1 F64.lit03 = true →
        IsHighest (bestMatch j.embedding resume.chunks).1
          (resume.chunks.map (fun r => computeCosineSimilarity j.embedding r.embedding))) ∧
      (∀ j ∈ job.chunks, F64.gt (bestMatch j.embedding resume.chunks).1 F64.lit03 = true ↔
        ∃ r ∈ resume.chunks,
          F64.gt (computeCosineSimilarity j.embedding r.embedding) F64.lit03 = true) ∧
      ((∀ j ∈ job.chunks, F64.gt (bestMatch j.embedding resume.chunks).1 F64.lit03 = false) →
        avgSimilarity B job resume = F64.zero) := by
  refine ⟨?_, fun j _ hgt => (bestMatch_of_gt j.embedding resume.chunks hgt).2,
    fun j _ => bestMatch_gt_iff j.embedding resume.chunks, fun hnone => ?_⟩
  · unfold matchScore
    rw [avgSimilarity_eq_mean, F64.mul_symm]
  · rw [avgSimilarity_eq_mean]
    have : (job.chunks.map (fun j => (bestMatch j.embedding resume.chunks).1)).filter
        (fun b => F64.gt b F64.lit03) = [] := by
      rw [List.filter_eq_nil_iff]
      intro b hb
      obtain ⟨j, hj, rfl⟩ := List.mem_map.1 hb
      rw [hnone j hj]; simp
    rw [this]; simp [mean]

/-- Sorting with the comparison function `(a, b) => key(b) - key(a)` puts
elements whose keys are not NaN in non-increasing order of their keys. -/
theorem insertBy_key_pairwise {α : Type} (key : α → F64) (x : α)
    (hx : F64.isNaN (key x) = false) :
    ∀ l : List α, (∀ y ∈ l, F64.isNaN (key y) = false) →
      l.Pairwise (fun a b => F64.lt (key a) (key b) = false) →
      (insertBy (fun a b => F64.sub (key b) (key a)) x l).Pairwise
        (fun a b => F64.lt (key a) (key b) = false) := by
  intro l
  induction l with
  | nil => intro _ _; simp [insertBy]
  | cons y ys ih =>
    intro hnan hsorted
    have hy := hnan y (List.mem_cons_self y ys)
    have hcmp : F64.gt (F64.sub (key y) (key x)) F64.zero = F64.lt (key x) (key y) :=
      F64.gt_sub_zero (key x) (key y) hx hy
    rw [List.pairwise_cons] at hsorted
    unfold insertBy
    simp only [hcmp]
    by_cases hlt : F64.lt (key x) (key y) = true
    · rw [if_pos hlt, List.pairwise_cons]
      refine ⟨fun z hz => ?_, ih (fun z hz => hnan z (List.mem_cons_of_mem y hz)) hsorted.2⟩
      rcases (mem_insertBy _ x z ys).1 hz with rfl | hz
      · exact F64.lt_not_gt _ _ hlt
      · exact hsorted.1 z hz
    · rw [if_neg hlt, List.pairwise_cons]
      simp only [Bool.not_eq_true] at hlt
      refine ⟨fun z hz => ?_, List.pairwise_cons.2 hsorted⟩
      rcases List.mem_cons.1 hz with rfl | hz'
      · exact hlt
      · by_contra hxz
        simp only [Bool.not_eq_false] at hxz
        rcases F64.lt_cotrans _ _ _ hy hxz with h1 | h1
        · rw [hlt] at h1; exact Bool.false_ne_true h1
        · rw [hsorted.1 z hz'] at h1; exact Bool.false_ne_true h1

theorem sortBy_key_pairwise {α : Type} (key : α → F64) :
    ∀ l : List α, (∀ y ∈ l, F64.isNaN (key y) = false) →
      (sortBy (fun a b => F64.sub (key b) (key a)) l).Pairwise
        (fun a b => F64.lt (key a) (key b) = false) := by
  intro l
  induction l with
  | nil => intro _; simp [sortBy]
  | cons x xs ih =>
    intro hnan
    unfold sortBy
    apply insertBy_key_pairwise key x (hnan x (List.mem_cons_self x xs))
    · intro y hy
      exact hnan y (List.mem_cons_of_mem x ((perm_sortBy _ xs).mem_iff.1 hy))
    · exact ih (fun y hy => hnan y (List.mem_cons_of_mem x hy))

/-- The array `matches` before sorting holds, in the order of the resumes, the
resumes whose score is greater than 0, each with its score. -/
theorem collectMatches_spec (B : Builtins) (job : Job) :
    ∀ resumes : List Resume,
      (collectMatches B job resumes).map (fun e => e.resume) =
          resumes.filter (fun r => F64.gt (matchScore B job r) F64.zero) ∧
        ∀ e ∈ collectMatches B job resumes,
          e.score = matchScore B job e.resume ∧ F64.gt e.score F64.zero = true := by
  intro resumes
  induction resumes with
  | nil => simp [collectMatches]
  | cons r rest ih =>
    unfold collectMatches
    by_cases hgt : F64.gt (matchScore B job r) F64.zero = true
    · rw [if_pos hgt]
      refine ⟨?_, ?_⟩
      · simp only [List.map_cons, List.filter_cons, hgt, if_true, ih.1]
      · intro e he
        rcases List.mem_cons.1 he with rfl | he'
        · exact ⟨rfl, hgt⟩
        · exact ih.2 e he'
    · rw [if_neg hgt]
      refine ⟨?_, ih.2⟩
      simp only [List.filter_cons, hgt, Bool.false_eq_true, if_false, ih.1]

/-- C12: the response of `matchJob` lists the resumes whose score is greater
than 0, each with its score, in non-increasing order of score and cut to the
first `top_n`; `matchedCandidates` is the number of resumes with a score
greater than 0 and `totalCandidates` the number of resumes. -/
theorem matchJob_lists_positive_scores (B : Builtins) (job : Job) (resumes : List Resume)
    (topN : Nat) :
    ∃ ordered : List MatchEntry,
      (ordered.map (fun e => e.resume)).Perm
          (resumes.filter (fun r => F64.gt (matchScore B job r) F64.zero)) ∧
        (∀ e ∈ ordered, e.score = matchScore B job e.resume) ∧
        ordered.Pairwise (fun a b => F64.ge a.score b.score = true) ∧
        (matchJob B job resumes topN).topMatches = ordered.take topN ∧
        (matchJob B job resumes topN).matchedCandidates =
          (resumes.filter (fun r => F64.gt (matchScore B job r) F64.zero)).length ∧
        (matchJob B job resumes topN).totalCandidates = resumes.length := by
  obtain ⟨hmap, hall⟩ := collectMatches_spec B job resumes
  have hperm := perm_sortBy byScoreDesc (collectMatches B job resumes)
  have hnan : ∀ e ∈ collectMatches B job resumes, F64.isNaN e.score = false :=
    fun e he => (F64.lt_not_nan (hall e he).2).2
  have hsorted := sortBy_key_pairwise (fun e : MatchEntry => e.score)
    (collectMatches B job resumes) hnan
  refine ⟨sortBy byScoreDesc (collectMatches B job resumes), ?_, ?_, ?_, rfl, ?_, rfl⟩
  · rw [← hmap]
    exact hperm.map _
  · intro e he
    exact (hall e (hperm.mem_iff.1 he)).1
  · refine List.Pairwise.imp_of_mem ?_ hsorted
    intro a b ha hb hab
    have ha' := hnan a (hperm.mem_iff.1 ha)
    have hb' := hnan b (hperm.mem_iff.1 hb)
    simp [F64.ge, ha', hb', hab]
  · show (collectMatches B job resumes).length = _
    rw [← hmap, List.length_map]

/-! ## Facts about `checkEligibility` -/

theorem bandStatus_ne_pending (score : F64) : bandStatus score ≠ Status.pending := by
  unfold bandStatus
  split_ifs <;> simp

theorem checkSkills_pending_iff (B : Builtins) (req : EligibilityRequest) (resume : Resume) :
    (checkSkills B req resume).1.status = Status.pending ↔ req.requiredSkills = [] := by
  unfold checkSkills
  by_cases h : 0 < req.requiredSkills.length
  · rw [if_pos h]
    have hne : req.requiredSkills ≠ [] := List.length_pos.1 h
    simp [bandStatus_ne_pending, hne]
  · rw [if_neg h]
    have : req.requiredSkills = [] := by
      cases hl : req.requiredSkills with
      | nil => rfl
      | cons a l => rw [hl] at h; simp at h
    simp [pendingCriterion, this]

theorem checkExperience_pending_iff (B : Builtins) (req : EligibilityRequest) (resume : Resume) :
    (checkExperience B req resume).1.status = Status.pending ↔
      F64.gt req.minExperience F64.zero = false := by
  unfold checkExperience
  by_cases h : F64.gt req.minExperience F64.zero = true
  · rw [if_pos h]
    simp only [h]
    split_ifs <;> simp
  · rw [if_neg h]
    simp only [Bool.not_eq_true] at h
    simp [pendingCriterion, h]

theorem checkEducation_pending_iff (B : Builtins) (req : EligibilityRequest) (resume : Resume) :
    (checkEducation B req resume).1.status = Status.pending ↔ req.requiredEducation = [] := by
  unfold checkEducation
  by_cases h : req.requiredEducation ≠ []
  · rw [if_pos h]
    simp only [h]
    split_ifs <;> simp
  · rw [if_neg h]
    simp only [ne_eq, not_not] at h
    simp [pendingCriterion, h]

theorem checkCertifications_pending_iff (B : Builtins) (req : EligibilityRequest)
    (resume : Resume) :
    (checkCertifications B req resume).1.status = Status.pending ↔
      req.requiredCertifications = [] := by
  unfold checkCertifications
  by_cases h : 0 < req.requiredCertifications.length
  · rw [if_pos h]
    have hne : req.requiredCertifications ≠ [] := List.length_pos.1 h
    simp [bandStatus_ne_pending, hne]
  · rw [if_neg h]
    have : req.requiredCertifications = [] := by
      cases hl : req.requiredCertifications with
      | nil => rfl
      | cons a l => rw [hl] at h; simp at h
    simp [pendingCriterion, this]

theorem checkAdditional_pending_iff (B : Builtins) (req : EligibilityRequest) (resume : Resume) :
    (checkAdditional B req resume).1.status = Status.pending ↔
      req.additionalRequirements = [] := by
  unfold checkAdditional
  by_cases h : req.additionalRequirements ≠ []
  · rw [if_pos h]
    simp [bandStatus_ne_pending, h]
  · rw [if_neg h]
    simp only [ne_eq, not_not] at h
    simp [pendingCriterion, h]

theorem mathRound_zero : F64.mathRound F64.zero = F64.zero := by decide!

theorem overallScore_eq_round_mean (c : Criteria) :
    overallScore c = F64.mathRound (mean (criteriaScores c)) := by
  unfold overallScore mean
  by_cases hnil : criteriaScores c = []
  · rw [hnil]
    simp only [List.length_nil, lt_self_iff_false, if_false, if_true]
    exact mathRound_zero.symm
  · rw [if_pos (List.length_pos.2 hnil), if_neg hnil]

/-! ## Claims about `checkEligibility`: eligibility and overall score -/

/-- C14: in the result of `checkEligibility`, `isEligible` is true exactly when
`overallScore >= 70` and `missingRequirements` is empty; it is false whenever
`missingRequirements` is not empty; and for the required skills `Python` and
`Go` against the resume skills `Python` the missing requirements are
`Missing skills: Go` and `isEligible` is false. -/
theorem checkEligibility_isEligible_iff (B : Builtins) (req : EligibilityRequest)
    (resume : Resume) :
    ((checkEligibility B req resume).isEligible = true ↔
        F64.ge (checkEligibility B req resume).overallScore (F64.ofNat 70) = true ∧
          (checkEligibility B req resume).missingRequirements = []) ∧
      ((checkEligibility B req resume).missingRequirements ≠ [] →
        (checkEligibility B req resume).isEligible = false) ∧
      ((checkEligibility asciiBuiltins pythonGoRequest sampleResume).missingRequirements =
          [js "Missing skills: Go"] ∧
        (checkEligibility asciiBuiltins pythonGoRequest sampleResume).isEligible = false) := by
  refine ⟨?_, ?_, by decide!, by decide!⟩
  · simp only [checkEligibility, Bool.and_eq_true, beq_iff_eq, List.length_eq_zero]
  · intro hne
    simp only [checkEligibility, Bool.and_eq_false_iff, beq_eq_false_iff_ne, ne_eq,
      List.length_eq_zero] at hne ⊢
    exact Or.inr hne

/-- C15: each of the five criteria keeps the status `pending` exactly when it
is not supplied (empty `requiredSkills`, `minExperience` not greater than 0,
empty `requiredEducation`, empty `requiredCertifications`, empty
`additionalRequirements`); `overallScore` is the rounded mean of the scores
of the criteria that are not pending, and it is 0 when no criterion is
supplied. -/
theorem checkEligibility_pending_and_overall (B : Builtins) (req : EligibilityRequest)
    (resume : Resume) :
    ((checkEligibility B req resume).criteria.skills.status = Status.pending ↔
        req.requiredSkills = []) ∧
      ((checkEligibility B req resume).criteria.experience.status = Status.pending ↔
        F64.gt req.minExperience F64.zero = false) ∧
      ((checkEligibility B req resume).criteria.education.status = Status.pending ↔
        req.requiredEducation = []) ∧
      ((checkEligibility B req resume).criteria.certifications.status = Status.pending ↔
        req.requiredCertifications = []) ∧
      ((checkEligibility B req resume).criteria.additional.status = Status.pending ↔
        req.additionalRequirements = []) ∧
      (checkEligibility B req resume).overallScore =
        F64.mathRound (mean (([(checkEligibility B req resume).criteria.skills,
          (checkEligibility B req resume).criteria.experience,
          (checkEligibility B req resume).criteria.education,
          (checkEligibility B req resume).criteria.certifications,
          (checkEligibility B req resume).criteria.additional].filter
            (fun c => c.status ≠ Status.pending)).map (fun c => c.score))) ∧
      (req.requiredSkills = [] → F64.gt req.minExperience F64.zero = false →
        req.requiredEducation = [] → req.requiredCertifications = [] →
        req.additionalRequirements = [] →
        (checkEligibility B req resume).overallScore = F64.zero) := by
  refine ⟨checkSkills_pending_iff B req resume, checkExperience_pending_iff B req resume,
    checkEducation_pending_iff B req resume, checkCertifications_pending_iff B req resume,
    checkAdditional_pending_iff B req resume, overallScore_eq_round_mean _, ?_⟩
  intro h1 h2 h3 h4 h5
  have e1 := (checkSkills_pending_iff B req resume).2 h1
  have e2 := (checkExperience_pending_iff B req resume).2 h2
  have e3 := (checkEducation_pending_iff B req resume).2 h3
  have e4 := (checkCertifications_pending_iff B req resume).2 h4
  have e5 := (checkAdditional_pending_iff B req resume).2 h5
  show overallScore (eligibilityCriteria B req resume) = F64.zero
  have hnil : criteriaScores (eligibilityCriteria B req resume) = [] := by
    simp [criteriaScores, eligibilityCriteria, e1, e2, e3, e4, e5]
  simp [overallScore, hnil]

/-! ## Claims about `checkEligibility`: skills and experience -/

theorem skillFound_iff (B : Builtins) (resumeSkills : List JSString) (skill : JSString) :
    skillFound B resumeSkills skill = true ↔
      ∃ r ∈ resumeSkills, jsIncludes (B.toLowerCase r) (trim (B.toLowerCase skill)) = true ∨
        jsIncludes (trim (B.toLowerCase skill)) (B.toLowerCase r) = true := by
  simp only [skillFound, List.any_eq_true, Bool.or_eq_true]

/-- For a score that is an integer between 0 and 100 the status is `pass`
from 70 on, `partial` from 40 to below 70 and `fail` below 40. -/
theorem bandStatus_of_isPercent (score : F64) (h : F64.IsPercent score) :
    (bandStatus score = Status.pass ↔ F64.ge score (F64.ofNat 70) = true) ∧
      (bandStatus score = Status.part ↔
        F64.ge score (F64.ofNat 40) = true ∧ F64.lt score (F64.ofNat 70) = true) ∧
      (bandStatus score = Status.fail ↔ F64.lt score (F64.ofNat 40) = true) := by
  obtain ⟨k, hk, hscore⟩ := h
  have hU : 0 < 2 ^ 1074 := by decide!
  unfold bandStatus
  rw [hscore, F64.ofNat_exact k (lt_of_le_of_lt hk (by decide)), F64.ofNat_exact 70 (by decide),
    F64.ofNat_exact 40 (by decide)]
  simp only [F64.ge, F64.lt, F64.isNaN, Bool.not_false, Bool.true_and]
  generalize 2 ^ 1074 = U at hU
  have h70 : k * U < 70 * U ↔ k < 70 := Nat.mul_lt_mul_right hU
  have h40 : k * U < 40 * U ↔ k < 40 := Nat.mul_lt_mul_right hU
  by_cases a : k < 40
  · have b : k < 70 := by omega
    simp [h70, h40, a, b]
  · by_cases b : k < 70
    · simp [h70, h40, a, b]
    · simp [h70, h40, a, b]

theorem filter_length_le_self {α : Type} (p : α → Bool) (l : List α) :
    (l.filter p).length ≤ l.length := List.length_filter_le p l

/-- C16 (counterexample): the required skill ` py `, written with surrounding
spaces, neither contains nor is contained in the resume skill `Python` when
case is ignored, yet `checkEligibility` counts it as matched: the skills
score is 100 with status `pass` and nothing is missing.  And when the resume
has 23 of forty required skills, the formula `round(100 * 23 / 40)` is 58
(the quotient `2300 / 40` is exactly `57.5`), but the skills score is 57,
because the code multiplies the rounded quotient `23 / 40` by 100. -/
theorem skills_trimmed_before_matching :
    (containsEitherWay asciiBuiltins sampleResume.skills (js " py ") = false ∧
      (checkEligibility asciiBuiltins spacedSkillRequest sampleResume).criteria.skills =
        { status := Status.pass, score := F64.ofNat 100 } ∧
      (checkEligibility asciiBuiltins spacedSkillRequest sampleResume).missingRequirements =
        []) ∧
    (fortySkillsRequest.requiredSkills.length = 40 ∧
      (fortySkillsRequest.requiredSkills.filter
        (containsEitherWay asciiBuiltins twentyThreeSkillsResume.skills)).length = 23 ∧
      2 * (100 * 23) = (2 * 57 + 1) * 40 ∧
      F64.mathRound (F64.div (F64.mul (F64.ofNat 100) (F64.ofNat 23)) (F64.ofNat 40)) =
        F64.ofNat 58 ∧
      (checkEligibility asciiBuiltins fortySkillsRequest
        twentyThreeSkillsResume).criteria.skills.score = F64.ofNat 57 ∧
      F64.ofNat 57 ≠ F64.ofNat 58) :=
  ⟨⟨by decide, by decide!, by decide!⟩, by decide!⟩

/-- C16 (amended): with a non-empty `requiredSkills` list, a required skill
counts as matched iff its lower-cased form with the surrounding white space
trimmed contains or is contained in some lower-cased resume skill; the skills
score is `Math.round((matched / count) * 100)`, the quotient and the product
rounded to binary64 in this order, an integer between 0 and 100;
the status is `pass` when the score is at least 70, `partial` when it is at
least 40 and below 70, `fail` when it is below 40; and when a required skill
is unmatched, `missingRequirements` has the entry `Missing skills: ` followed
by the unmatched skills, which include that skill. -/
theorem skills_criterion (B : Builtins) (req : EligibilityRequest) (resume : Resume)
    (hne : req.requiredSkills ≠ []) (hlen : req.requiredSkills.length < 2 ^ 32) :
    (∀ skill, skillFound B resume.skills skill = true ↔
        ∃ r ∈ resume.skills, jsIncludes (B.toLowerCase r) (trim (B.toLowerCase skill)) = true ∨
          jsIncludes (trim (B.toLowerCase skill)) (B.toLowerCase r) = true) ∧
      (checkEligibility B req resume).criteria.skills.score =
        F64.mathRound (F64.mul
          (F64.div (F64.ofNat (req.requiredSkills.filter (skillFound B resume.skills)).length)
            (F64.ofNat req.requiredSkills.length)) (F64.ofNat 100)) ∧
      F64.IsPercent (checkEligibility B req resume).criteria.skills.score ∧
      ((checkEligibility B req resume).criteria.skills.status = Status.pass ↔
        F64.ge (checkEligibility B req resume).criteria.skills.score (F64.ofNat 70) = true) ∧
      ((checkEligibility B req resume).criteria.skills.status = Status.part ↔
        F64.ge (checkEligibility B req resume).criteria.skills.score (F64.ofNat 40) = true ∧
          F64.lt (checkEligibility B req resume).criteria.skills.score (F64.ofNat 70) = true) ∧
      ((checkEligibility B req resume).criteria.skills.status = Status.fail ↔
        F64.lt (checkEligibility B req resume).criteria.skills.score (F64.ofNat 40) = true) ∧
      (∀ skill ∈ req.requiredSkills, skillFound B resume.skills skill = false →
        skill ∈ missingSkills B req resume ∧
          js "Missing skills: " ++ jsJoin (js ", ") (missingSkills B req resume) ∈
            (checkEligibility B req resume).missingRequirements) := by
  have hpos : 0 < req.requiredSkills.length := List.length_pos.2 hne
  have hscore : (checkEligibility B req resume).criteria.skills.score =
      percentOf (matchedSkills B req resume).length req.requiredSkills.length := by
    show (checkSkills B req resume).1.score = _
    unfold checkSkills
    rw [if_pos hpos]
  have hstatus : (checkEligibility B req resume).criteria.skills.status =
      bandStatus (percentOf (matchedSkills B req resume).length req.requiredSkills.length) := by
    show (checkSkills B req resume).1.status = _
    unfold checkSkills
    rw [if_pos hpos]
  have hpct : F64.IsPercent (percentOf (matchedSkills B req resume).length
      req.requiredSkills.length) :=
    percentOf_isPercent _ _ hpos (filter_length_le_self _ _)
      (lt_trans hlen (by decide))
  have hband := bandStatus_of_isPercent _ hpct
  refine ⟨skillFound_iff B resume.skills, ?_, ?_, ?_, ?_, ?_, ?_⟩
  · rw [hscore]
    unfold percentOf matchedSkills
    rfl
  · rw [hscore]; exact hpct
  · rw [hscore, hstatus]; exact hband.1
  · rw [hscore, hstatus]; exact hband.2.1
  · rw [hscore, hstatus]; exact hband.2.2
  · intro skill hs hnot
    have hmem : skill ∈ missingSkills B req resume := by
      unfold missingSkills
      rw [List.mem_filter]
      exact ⟨hs, by simp [hnot]⟩
    refine ⟨hmem, ?_⟩
    have hlenpos : 0 < (missingSkills B req resume).length :=
      List.length_pos.2 (List.ne_nil_of_mem hmem)
    show _ ∈ eligibilityMissing B req resume
    unfold eligibilityMissing checkSkills
    rw [if_pos hpos]
    simp only [hlenpos, if_true, List.mem_append, List.mem_singleton, true_or]

/-- Witness of C16 (amended): the required skills `Python` and `Go` against the
resume skill `Python`; `Go` is unmatched and reported. -/
theorem skills_criterion_witness :
    pythonGoRequest.requiredSkills ≠ [] ∧ pythonGoRequest.requiredSkills.length < 2 ^ 32 ∧
      skillFound asciiBuiltins sampleResume.skills (js "Go") = false ∧
      js "Missing skills: " ++ jsJoin (js ", ")
          (missingSkills asciiBuiltins pythonGoRequest sampleResume) ∈
        (checkEligibility asciiBuiltins pythonGoRequest sampleResume).missingRequirements :=
  ⟨by decide, by decide, by decide,
    ((skills_criterion asciiBuiltins pythonGoRequest sampleResume (by decide) (by decide)).2.2.2.2.2.2
      (js "Go") (by decide) (by decide)).2⟩

theorem F64.orZero_not_nan (x : F64) : F64.isNaN (F64.orZero x) = false := by
  cases x with
  | nan => rfl
  | inf s => rfl
  | fin s n =>
    simp only [F64.orZero]
    split_ifs <;> rfl

theorem F64.ofNat_hundred : F64.ofNat 100 = F64.fin false (100 * 2 ^ 1074) :=
  F64.ofNat_exact 100 (by decide)

/-- The rounded hundredfold of a number that is NaN or negative does not
exceed 100. -/
theorem F64.round_hundredfold_of_neg (x : F64)
    (hx : x = F64.nan ∨ x = F64.inf true ∨ ∃ q, x = F64.fin true q) :
    F64.gt (F64.mathRound (F64.mul x (F64.ofNat 100))) (F64.ofNat 100) = false := by
  rw [F64.ofNat_hundred]
  rcases hx with rfl | rfl | ⟨q, rfl⟩
  · rfl
  · have h0 : 100 * 2 ^ 1074 ≠ 0 := by decide!
    simp only [F64.mul, h0, if_false, Bool.xor_false, F64.mathRound, F64.gt, F64.lt,
      Bool.not_true]
  · simp only [F64.mul, Bool.xor_false]
    rcases F64.round_cases true (q * (100 * 2 ^ 1074)) (2 ^ 1074) with ⟨m, hm⟩ | hm
    · rw [hm]; simp only [F64.mathRound, F64.gt, F64.lt]
    · rw [hm]; simp only [F64.mathRound, F64.gt, F64.lt, Bool.not_true]

/-- The rounded hundredfold of a non-negative number of at most 1 is an
integer between 0 and 100. -/
theorem F64.round_hundredfold_of_le_one (q : Nat) (hq : q ≤ 2 ^ 1074) :
    ∃ k, k ≤ 100 ∧
      F64.mathRound (F64.mul (F64.fin false q) (F64.ofNat 100)) = F64.fin false (k * 2 ^ 1074) := by
  rw [F64.ofNat_hundred]
  obtain ⟨p, hp, hmul⟩ := F64.mul_hundred_le false q hq
  have hm : F64.mul (F64.fin false q) (F64.fin false (100 * 2 ^ 1074)) = F64.fin false p := by
    simp only [F64.mul, Bool.xor_false]
    exact hmul
  rw [hm]
  exact F64.mathRound_le_hundred p hp

/-- Whenever the candidate's experience is not at least the positive minimum,
their quotient is NaN, negative, or a non-negative number of at most 1. -/
theorem F64.div_of_not_ge (cand min : F64) (hmin : F64.gt min F64.zero = true)
    (hc : F64.isNaN cand = false) (hge : F64.ge cand min = false) :
    (F64.div cand min = F64.nan ∨ F64.div cand min = F64.inf true ∨
        ∃ q, F64.div cand min = F64.fin true q) ∨
      ∃ q, q ≤ 2 ^ 1074 ∧ F64.div cand min = F64.fin false q := by
  rcases min with _ | t | ⟨t, b⟩
  · simp [F64.gt, F64.lt, F64.zero] at hmin
  · -- the minimum is an infinity
    have ht : t = false := by
      cases t
      · rfl
      · simp [F64.gt, F64.lt, F64.zero] at hmin
    subst ht
    rcases cand with _ | s | ⟨s, a⟩
    · simp [F64.isNaN] at hc
    · left; left; rfl
    · cases s
      · right; exact ⟨0, Nat.zero_le _, rfl⟩
      · left; right; right; exact ⟨0, rfl⟩
  · -- the minimum is finite
    have hb : t = false ∧ 0 < b := by
      cases t
      · simpa [F64.gt, F64.lt, F64.zero] using hmin
      · simp [F64.gt, F64.lt, F64.zero] at hmin
    obtain ⟨ht, hbpos⟩ := hb
    subst ht
    have hb0 : b ≠ 0 := by omega
    rcases cand with _ | s | ⟨s, a⟩
    · simp [F64.isNaN] at hc
    · cases s
      · simp [F64.ge, F64.lt, F64.isNaN] at hge
      · left; right; left; rfl
    · cases s
      · have hab : a < b := by
          simpa [F64.ge, F64.lt, F64.isNaN] using hge
        right
        obtain ⟨q, hq, hdiv⟩ := F64.div_le_one false a b hbpos (le_of_lt hab)
        refine ⟨q, hq, ?_⟩
        simp only [F64.div, hb0, if_false, Bool.xor_false]
        exact hdiv
      · left
        simp only [F64.div, hb0, if_false, Bool.xor_false]
        rcases F64.round_cases true (a * 2 ^ 1074) b with ⟨m, hm⟩ | hm
        · right; right; exact ⟨m, hm⟩
        · right; left; exact hm

/-- The experience score never exceeds 100. -/
theorem experienceScore_not_gt (min cand : F64) (hmin : F64.gt min F64.zero = true)
    (hc : F64.isNaN cand = false) :
    F64.gt (experienceScore min cand) (F64.ofNat 100) = false := by
  unfold experienceScore
  by_cases hge : F64.ge cand min = true
  · rw [if_pos hge]
    rw [F64.ofNat_hundred]
    simp only [F64.gt, F64.lt, lt_self_iff_false, decide_False]
  · rw [if_neg hge]
    simp only [Bool.not_eq_true] at hge
    rcases F64.div_of_not_ge cand min hmin hc hge with h | ⟨q, hq, h⟩
    · exact F64.round_hundredfold_of_neg _ h
    · rw [h]
      obtain ⟨k, hk, hr⟩ := F64.round_hundredfold_of_le_one q hq
      rw [hr, F64.ofNat_hundred]
      have hU : 0 < 2 ^ 1074 := by decide!
      simp only [F64.gt, F64.lt, decide_eq_false_iff_not, not_lt]
      generalize 2 ^ 1074 = U at hU
      exact Nat.mul_le_mul_right U hk

/-- A number that is at least 100 and not greater than 100 is 100. -/
theorem F64.eq_hundred_of_ge_of_not_gt (x : F64) (h1 : F64.ge x (F64.ofNat 100) = true)
    (h2 : F64.gt x (F64.ofNat 100) = false) : x = F64.ofNat 100 := by
  rw [F64.ofNat_hundred] at h1 h2 ⊢
  have hU : 0 < 100 * 2 ^ 1074 := by decide!
  generalize 100 * 2 ^ 1074 = V at h1 h2 hU ⊢
  rcases x with _ | s | ⟨s, a⟩
  · simp [F64.ge, F64.isNaN] at h1
  · cases s <;> simp [F64.ge, F64.gt, F64.lt, F64.isNaN] at h1 h2
  · cases s
    · simp only [F64.ge, F64.gt, F64.lt, F64.isNaN, Bool.not_false, Bool.true_and,
        Bool.not_eq_true', decide_eq_false_iff_not, not_lt] at h1 h2
      have : a = V := by omega
      rw [this]
    · simp [F64.ge, F64.gt, F64.lt, F64.isNaN, hU] at h1

/-- C17 (counterexample): for 40 years required and a candidate of 23 years the
formula `round(100 * 23 / 40)` is 58 (the quotient `2300 / 40` is exactly
`57.5`), but the experience score is 57, because the code multiplies the
rounded quotient `23 / 40` by 100. -/
theorem experience_score_quotient_first :
    F64.gt fortyYearsRequest.minExperience F64.zero = true ∧
      F64.ge (F64.orZero twentyThreeYearsResume.experience) fortyYearsRequest.minExperience =
        false ∧
      2 * (100 * 23) = (2 * 57 + 1) * 40 ∧
      F64.mathRound (F64.div (F64.mul (F64.ofNat 100) (F64.ofNat 23)) (F64.ofNat 40)) =
        F64.ofNat 58 ∧
      (checkEligibility asciiBuiltins fortyYearsRequest twentyThreeYearsResume).criteria.experience =
        { status := Status.fail, score := F64.ofNat 57 } ∧
      F64.ofNat 57 ≠ F64.ofNat 58 := by
  decide!

/-- C17 (amended): with `minExperience > 0` the experience score is 100 when the
candidate's experience is at least `minExperience` and
`Math.round((candidate / minExperience) * 100)` otherwise, the quotient and
the product rounded to binary64 in this order; the status is `pass` exactly
when the score is 100, and `fail` otherwise. -/
theorem experience_criterion (B : Builtins) (req : EligibilityRequest) (resume : Resume)
    (h : F64.gt req.minExperience F64.zero = true) :
    (F64.ge (F64.orZero resume.experience) req.minExperience = true →
        (checkEligibility B req resume).criteria.experience.score = F64.ofNat 100) ∧
      (F64.ge (F64.orZero resume.experience) req.minExperience = false →
        (checkEligibility B req resume).criteria.experience.score =
          F64.mathRound (F64.mul (F64.div (F64.orZero resume.experience) req.minExperience)
            (F64.ofNat 100))) ∧
      ((checkEligibility B req resume).criteria.experience.status = Status.pass ↔
        (checkEligibility B req resume).criteria.experience.score = F64.ofNat 100) ∧
      ((checkEligibility B req resume).criteria.experience.status ≠ Status.pass →
        (checkEligibility B req resume).criteria.experience.status = Status.fail) := by
  have hscore : (checkEligibility B req resume).criteria.experience.score =
      experienceScore req.minExperience (F64.orZero resume.experience) := by
    show (checkExperience B req resume).1.score = _
    unfold checkExperience
    rw [if_pos h]
  have hstatus : (checkEligibility B req resume).criteria.experience.status =
      if F64.ge (experienceScore req.minExperience (F64.orZero resume.experience))
        (F64.ofNat 100) then Status.pass else Status.fail := by
    show (checkExperience B req resume).1.status = _
    unfold checkExperience
    rw [if_pos h]
  have hle := experienceScore_not_gt req.minExperience (F64.orZero resume.experience) h
    (F64.orZero_not_nan _)
  refine ⟨?_, ?_, ?_, ?_⟩
  · intro hge
    rw [hscore]; unfold experienceScore; rw [if_pos hge]
  · intro hge
    rw [hscore]; unfold experienceScore
    rw [if_neg (by rw [hge]; simp)]
  · rw [hstatus, hscore]
    constructor
    · intro hp
      by_cases hge : F64.ge (experienceScore req.minExperience (F64.orZero resume.experience))
          (F64.ofNat 100) = true
      · exact F64.eq_hundred_of_ge_of_not_gt _ hge hle
      · rw [if_neg hge] at hp; exact absurd hp (by simp)
    · intro he
      rw [he]
      have : F64.ge (F64.ofNat 100) (F64.ofNat 100) = true := by decide!
      rw [if_pos this]
  · rw [hstatus]
    split_ifs <;> simp

/-- Witness of C17 (amended): five years of experience against a minimum of eight give
the score 63 and the status `fail`. -/
theorem experience_criterion_witness :
    F64.gt eightYearsRequest.minExperience F64.zero = true ∧
      (checkEligibility asciiBuiltins eightYearsRequest sampleResume).criteria.experience =
        { status := Status.fail, score := F64.ofNat 63 } ∧
      ((checkEligibility asciiBuiltins eightYearsRequest sampleResume).criteria.experience.status
          = Status.pass ↔
        (checkEligibility asciiBuiltins eightYearsRequest sampleResume).criteria.experience.score
          = F64.ofNat 100) :=
  ⟨by decide!, by decide!,
    (experience_criterion asciiBuiltins eightYearsRequest sampleResume (by decide!)).2.2.1⟩

/-! ## Claims about `checkEligibility`: education, additional requirements, recommendations -/

theorem educationHit_iff (B : Builtins) (requiredEducation edu : JSString) :
    educationHit B requiredEducation edu = true ↔
      ∃ kw ∈ educationKeywords requiredEducation, jsIncludes (B.toLowerCase edu) kw = true := by
  unfold educationHit educationKeywords
  simp only
  have d12 : js "high-school" ≠ js "associate" := by decide
  have d13 : js "high-school" ≠ js "bachelor" := by decide
  have d14 : js "high-school" ≠ js "master" := by decide
  have d15 : js "high-school" ≠ js "phd" := by decide
  have d23 : js "associate" ≠ js "bachelor" := by decide
  have d24 : js "associate" ≠ js "master" := by decide
  have d25 : js "associate" ≠ js "phd" := by decide
  have d34 : js "bachelor" ≠ js "master" := by decide
  have d35 : js "bachelor" ≠ js "phd" := by decide
  have d45 : js "master" ≠ js "phd" := by decide
  generalize js "high-school" = l1 at *
  generalize js "associate" = l2 at *
  generalize js "bachelor" = l3 at *
  generalize js "master" = l4 at *
  generalize js "phd" = l5 at *
  by_cases h1 : requiredEducation = l1
  · subst h1
    simp [d12, d13, d14, d15]
  · by_cases h2 : requiredEducation = l2
    · subst h2
      simp [h1, d23, d24, d25]
    · by_cases h3 : requiredEducation = l3
      · subst h3
        simp [h1, h2, d34, d35, or_assoc]
      · by_cases h4 : requiredEducation = l4
        · subst h4
          simp [h1, h2, h3, d45, or_assoc]
        · by_cases h5 : requiredEducation = l5
          · subst h5
            simp [h1, h2, h3, h4, or_assoc]
          · simp [h1, h2, h3, h4, h5]

theorem educationLoop_eq (B : Builtins) (requiredEducation : JSString) :
    ∀ (education : List JSString) (acc : Bool × F64),
      educationLoop B requiredEducation education acc =
        if education.any (educationHit B requiredEducation) = true then (true, F64.ofNat 100)
        else acc := by
  intro education
  induction education with
  | nil => intro acc; simp [educationLoop]
  | cons edu rest ih =>
    intro acc
    unfold educationLoop
    by_cases hit : educationHit B requiredEducation edu = true
    · rw [if_pos hit, ih]
      simp [hit]
    · rw [if_neg hit, ih]
      simp [hit]

/-- C18: with a non-empty `requiredEducation`, the education criterion has
score 100 and status `pass` iff some education entry of the resume contains,
lower-cased, one of the keywords of the required level (for `bachelor`:
`bachelor`, `degree`, `bsc`, `ba`), and then the education block pushes
nothing; otherwise the criterion has score 0 and status `fail` and the entry
`Education requirement not met: ` followed by the required level is in
`missingRequirements`. -/
theorem education_criterion (B : Builtins) (req : EligibilityRequest) (resume : Resume)
    (h : req.requiredEducation ≠ []) :
    ((∃ edu ∈ resume.education, ∃ kw ∈ educationKeywords req.requiredEducation,
          jsIncludes (B.toLowerCase edu) kw = true) →
        (checkEligibility B req resume).criteria.education =
            { status := Status.pass, score := F64.ofNat 100 } ∧
          (checkEducation B req resume).2 = []) ∧
      ((¬ ∃ edu ∈ resume.education, ∃ kw ∈ educationKeywords req.requiredEducation,
          jsIncludes (B.toLowerCase edu) kw = true) →
        (checkEligibility B req resume).criteria.education =
            { status := Status.fail, score := F64.zero } ∧
          js "Education requirement not met: " ++ req.requiredEducation ∈
            (checkEligibility B req resume).missingRequirements) ∧
      educationKeywords (js "bachelor") = [js "bachelor", js "degree", js "bsc", js "ba"] := by
  have hany : resume.education.any (educationHit B req.requiredEducation) = true ↔
      ∃ edu ∈ resume.education, ∃ kw ∈ educationKeywords req.requiredEducation,
        jsIncludes (B.toLowerCase edu) kw = true := by
    rw [List.any_eq_true]
    constructor
    · rintro ⟨edu, he, hh⟩
      exact ⟨edu, he, (educationHit_iff B _ edu).1 hh⟩
    · rintro ⟨edu, he, hh⟩
      exact ⟨edu, he, (educationHit_iff B _ edu).2 hh⟩
  have hloop := educationLoop_eq B req.requiredEducation resume.education (false, F64.zero)
  refine ⟨fun hex => ?_, fun hno => ?_, by decide⟩
  · have ha := hany.2 hex
    rw [if_pos ha] at hloop
    constructor
    · show (checkEducation B req resume).1 = _
      unfold checkEducation
      rw [if_pos h, hloop]
      simp
    · unfold checkEducation
      rw [if_pos h, hloop]
      simp
  · have ha : ¬ resume.education.any (educationHit B req.requiredEducation) = true :=
      fun hc => hno (hany.1 hc)
    rw [if_neg ha] at hloop
    constructor
    · show (checkEducation B req resume).1 = _
      unfold checkEducation
      rw [if_pos h, hloop]
      simp
    · show _ ∈ eligibilityMissing B req resume
      have : (checkEducation B req resume).2 =
          [js "Education requirement not met: " ++ req.requiredEducation] := by
        unfold checkEducation
        rw [if_pos h, hloop]
        simp
      unfold eligibilityMissing
      rw [this]
      simp

/-- Witness of C18: the required level `bachelor` against the education entry
`Bachelor of Science`. -/
theorem education_criterion_witness :
    bachelorRequest.requiredEducation ≠ [] ∧
      (checkEligibility asciiBuiltins bachelorRequest sampleResume).criteria.education =
        { status := Status.pass, score := F64.ofNat 100 } :=
  ⟨by decide,
    ((education_criterion asciiBuiltins bachelorRequest sampleResume (by decide)).1
      ⟨js "Bachelor of Science", by decide, js "bachelor", by decide, by decide⟩).1⟩

/-- C19 (the code returns NaN): for the additional requirements `abc` no
token of more than three characters remains, the score is
`Math.round((0 / 0) * 100)`, which is NaN, the status is `fail`, and nothing
is pushed to `missingRequirements`. -/
theorem additional_score_nan_without_keywords :
    shortWordsRequest.additionalRequirements ≠ [] ∧
      additionalKeywords asciiBuiltins shortWordsRequest = [] ∧
      (checkEligibility asciiBuiltins shortWordsRequest sampleResume).criteria.additional =
        { status := Status.fail, score := F64.nan } ∧
      (checkEligibility asciiBuiltins shortWordsRequest sampleResume).missingRequirements = [] :=
  ⟨by decide, by decide, by decide!, by decide!⟩

/-- Whenever at least one token of more than three characters remains, the
additional score is `Math.round(100 * (matched / tokens))`, an integer
between 0 and 100, and the status follows the thresholds 70 and 40. -/
theorem additional_criterion_of_keywords (B : Builtins) (req : EligibilityRequest)
    (resume : Resume) (h : req.additionalRequirements ≠ [])
    (hk : additionalKeywords B req ≠ []) (hlen : (additionalKeywords B req).length < 2 ^ 32) :
    (checkEligibility B req resume).criteria.additional.score =
        F64.mathRound (F64.mul (F64.ofNat 100)
          (F64.div (F64.ofNat (matchedKeywords B req resume))
            (F64.ofNat (additionalKeywords B req).length))) ∧
      F64.IsPercent (checkEligibility B req resume).criteria.additional.score ∧
      (checkEligibility B req resume).criteria.additional.status =
        bandStatus (checkEligibility B req resume).criteria.additional.score := by
  have hscore : (checkEligibility B req resume).criteria.additional.score =
      percentOf (matchedKeywords B req resume) (additionalKeywords B req).length := by
    show (checkAdditional B req resume).1.score = _
    unfold checkAdditional
    rw [if_pos h]
  have hstatus : (checkEligibility B req resume).criteria.additional.status =
      bandStatus (percentOf (matchedKeywords B req resume) (additionalKeywords B req).length) := by
    show (checkAdditional B req resume).1.status = _
    unfold checkAdditional
    rw [if_pos h]
  refine ⟨?_, ?_, ?_⟩
  · rw [hscore, F64.mul_symm]
    unfold percentOf
    rfl
  · rw [hscore]
    exact percentOf_isPercent _ _ (List.length_pos.2 hk) (List.length_filter_le _ _)
      (lt_trans hlen (by decide))
  · rw [hstatus, hscore]

/-- C20 (counterexample): for a request whose skills, experience, education
and certifications are all met but whose additional requirement `kubernetes`
is not, the additional score is 0, the resume is not eligible, and
`recommendations` is empty: there is no message for the additional criterion. -/
theorem recommendations_without_additional :
    (checkEligibility asciiBuiltins fullRequest sampleResume).criteria.additional =
        { status := Status.fail, score := F64.zero } ∧
      (checkEligibility asciiBuiltins fullRequest sampleResume).overallScore = F64.ofNat 80 ∧
      (checkEligibility asciiBuiltins fullRequest sampleResume).missingRequirements =
        [js "Additional requirements not fully met"] ∧
      (checkEligibility asciiBuiltins fullRequest sampleResume).isEligible = false ∧
      (checkEligibility asciiBuiltins fullRequest sampleResume).recommendations = [] :=
  ⟨by decide!, by decide!, by decide!, by decide!, by decide!⟩

/-- C20 (amended): `recommendations` is empty whenever `isEligible` is true;
when `isEligible` is false it holds exactly the messages of those of the four
criteria skills (score below 70), experience (score below 100), education
(score equal to 0) and certifications (score below 70) whose condition
holds, each once; there is no message for the additional criterion. -/
theorem recommendations_spec (B : Builtins) (req : EligibilityRequest) (resume : Resume) :
    ((checkEligibility B req resume).isEligible = true →
        (checkEligibility B req resume).recommendations = []) ∧
      ((checkEligibility B req resume).isEligible = false →
        ∀ msg, msg ∈ (checkEligibility B req resume).recommendations ↔
          (msg = skillsAdvice ∧
            F64.lt (checkEligibility B req resume).criteria.skills.score (F64.ofNat 70) = true) ∨
          (msg = experienceAdvice ∧
            F64.lt (checkEligibility B req resume).criteria.experience.score (F64.ofNat 100)
              = true) ∨
          (msg = educationAdvice ∧
            F64.eq (checkEligibility B req resume).criteria.education.score F64.zero = true) ∨
          (msg = certificationsAdvice ∧
            F64.lt (checkEligibility B req resume).criteria.certifications.score (F64.ofNat 70)
              = true)) ∧
      (checkEligibility B req resume).recommendations.Nodup := by
  have hrec : (checkEligibility B req resume).recommendations =
      recommendationsOf (checkEligibility B req resume).isEligible
        (checkEligibility B req resume).criteria := rfl
  have d : [skillsAdvice, experienceAdvice, educationAdvice, certificationsAdvice].Nodup := by
    decide
  have hsub : ∀ (e : Bool) (c : Criteria), (recommendationsOf e c).Sublist
      [skillsAdvice, experienceAdvice, educationAdvice, certificationsAdvice] := by
    intro e c
    unfold recommendationsOf
    split_ifs <;> simp [skillsAdvice, experienceAdvice, educationAdvice, certificationsAdvice]
  refine ⟨fun he => ?_, fun he msg => ?_, ?_⟩
  · rw [hrec, he]; rfl
  · rw [hrec, he]
    simp only [recommendationsOf, Bool.not_false, if_true, List.mem_append]
    constructor
    · rintro (((h1 | h2) | h3) | h4)
      · split_ifs at h1 with hc
        · exact Or.inl ⟨List.mem_singleton.1 h1, hc⟩
        · exact absurd h1 (List.not_mem_nil _)
      · split_ifs at h2 with hc
        · exact Or.inr (Or.inl ⟨List.mem_singleton.1 h2, hc⟩)
        · exact absurd h2 (List.not_mem_nil _)
      · split_ifs at h3 with hc
        · exact Or.inr (Or.inr (Or.inl ⟨List.mem_singleton.1 h3, hc⟩))
        · exact absurd h3 (List.not_mem_nil _)
      · split_ifs at h4 with hc
        · exact Or.inr (Or.inr (Or.inr ⟨List.mem_singleton.1 h4, hc⟩))
        · exact absurd h4 (List.not_mem_nil _)
    · rintro (⟨rfl, hc⟩ | ⟨rfl, hc⟩ | ⟨rfl, hc⟩ | ⟨rfl, hc⟩)
      · left; left; left; rw [if_pos hc]; exact List.mem_singleton.2 rfl
      · left; left; right; rw [if_pos hc]; exact List.mem_singleton.2 rfl
      · left; right; rw [if_pos hc]; exact List.mem_singleton.2 rfl
      · right; rw [if_pos hc]; exact List.mem_singleton.2 rfl
  · rw [hrec]
    exact (hsub _ _).nodup d

/-- C13 (scores outside 0 to 100): for the additional requirements `abc` the
`overallScore` of `checkEligibility` is NaN, and for the query vector `[1]`
and a chunk with embedding `[-1]` the evidence similarity of `askQuestion` is
`-100`; neither is an integer between 0 and 100. -/
theorem scores_outside_percent :
    (checkEligibility asciiBuiltins shortWordsRequest sampleResume).overallScore = F64.nan ∧
      ¬ F64.IsPercent F64.nan ∧
      (findSimilarChunks [F64.ofNat 1] [oppositeChunk] 5).map askEvidenceSimilarity =
        [F64.fin true (100 * 2 ^ 1074)] ∧
      ¬ F64.IsPercent (F64.fin true (100 * 2 ^ 1074)) := by
  refine ⟨by decide!, ?_, by decide!, ?_⟩
  · rintro ⟨k, _, hk⟩
    rcases F64.round_cases false (k * 2 ^ 1074) 1 with ⟨m, hm⟩ | hm
    · rw [F64.ofNat, hm] at hk; exact F64.noConfusion hk
    · rw [F64.ofNat, hm] at hk; exact F64.noConfusion hk
  · rintro ⟨k, _, hk⟩
    rcases F64.round_cases false (k * 2 ^ 1074) 1 with ⟨m, hm⟩ | hm
    · rw [F64.ofNat, hm] at hk
      exact absurd (F64.fin.inj hk).1.symm (by decide)
    · rw [F64.ofNat, hm] at hk; exact F64.noConfusion hk

/-! ## Facts about the helper functions of `matchJob` -/

/-- The function `Math.min` does not depend on the order of its arguments. -/
theorem F64.mathMin_symm (x y : F64) : F64.mathMin x y = F64.mathMin y x := by
  rcases x with _ | s | ⟨s, a⟩ <;> rcases y with _ | t | ⟨t, b⟩
  · rfl
  · rfl
  · rfl
  · rfl
  · cases s <;> cases t <;> rfl
  · cases s <;> cases t <;> rfl
  · rfl
  · cases s <;> cases t <;> rfl
  · cases s <;> cases t <;>
      simp only [F64.mathMin, F64.isNaN, F64.lt, Bool.or_self, Bool.false_eq_true, if_false,
        decide_eq_true_eq] <;>
      (try split_ifs) <;> (try first | rfl | omega | (congr 1; omega))

/-- A number denoted by a natural number is falsy only when it is `+0`. -/
theorem F64.ofNat_falsy (n : Nat) (h : F64.toBoolean (F64.ofNat n) = false) :
    F64.ofNat n = F64.zero := by
  unfold F64.ofNat at h ⊢
  rcases F64.round_cases false (n * 2 ^ 1074) 1 with ⟨m, hm⟩ | hinf
  · rw [hm] at h ⊢
    simp only [F64.toBoolean, ne_eq, decide_not, Bool.not_eq_false', decide_eq_true_eq] at h
    rw [h]; rfl
  · rw [hinf] at h
    exact absurd h (by simp [F64.toBoolean])

/-- The years that `extractYears` returns are denoted by a natural number. -/
theorem extractYears_ofNat (text : JSString) (years : F64)
    (h : extractYears text = some years) : ∃ n : Nat, years = F64.ofNat n := by
  unfold extractYears at h
  cases hm : firstYearsMatch text with
  | none => rw [hm] at h; exact absurd h (by simp)
  | some digits =>
    rw [hm] at h
    simp only [Option.map_some', Option.some.injEq] at h
    exact ⟨digitsValue digits, h.symm⟩

/-- The loop over the job skills appends, in their order, the skills that
neither contain nor are contained in a resume skill. -/
theorem missingLoop_eq (resumeSkills : List JSString) :
    ∀ (jobSkills missing : List JSString),
      missingLoop resumeSkills jobSkills missing =
        missing ++ jobSkills.filter (fun skill =>
          !(resumeSkills.any (fun rs => jsIncludes rs skill || jsIncludes skill rs))) := by
  intro jobSkills
  induction jobSkills with
  | nil => intro missing; simp [missingLoop]
  | cons skill rest ih =>
    intro missing
    unfold missingLoop
    by_cases h : (!(resumeSkills.any (fun rs => jsIncludes rs skill || jsIncludes skill rs)))
        = true
    · rw [if_pos h, ih, List.filter_cons, if_pos h, List.append_assoc]
      rfl
    · rw [if_neg h, ih, List.filter_cons, if_neg h]

/-- The test on the lower-cased skills is the test of the specification on the
skills themselves. -/
theorem any_lowered_eq (B : Builtins) (resumeSkills : List JSString) (skill : JSString) :
    (resumeSkills.map B.toLowerCase).any (fun rs =>
        jsIncludes rs (B.toLowerCase skill) || jsIncludes (B.toLowerCase skill) rs) =
      containsEitherWay B resumeSkills skill := by
  unfold containsEitherWay
  induction resumeSkills with
  | nil => rfl
  | cons r rest ih => simp only [List.map_cons, List.any_cons, ih]

/-- An occurrence found by `matchYearsAt` is a non-empty run of digits at the
start of the string, followed by an optional plus sign, white space and
`year`. -/
theorem matchYearsAt_spec (s digits : JSString) (h : matchYearsAt s = some digits) :
    digits ≠ [] ∧ (∀ c ∈ digits, isDigit c = true) ∧
      ∃ rest : JSString, s = digits ++ rest ∧
        (∀ c t, rest = c :: t → isDigit c = false) ∧
        (startsWithYear (rest.dropWhile isWhiteSpace) = true ∨
          ∃ t, rest = 43 :: t ∧ startsWithYear (t.dropWhile isWhiteSpace) = true) := by
  unfold matchYearsAt at h
  simp only at h
  split_ifs at h with hc
  simp only [Option.some.injEq] at h
  subst h
  refine ⟨hc.1, fun c hc' => (List.mem_takeWhile_imp hc'), s.dropWhile isDigit,
    (List.takeWhile_append_dropWhile _ _).symm, ?_, ?_⟩
  · intro c t hct
    have := List.head_dropWhile_not isDigit s (by rw [hct]; simp)
    simpa [hct] using this
  · have h2 := hc.2
    unfold skipPlus at h2
    split at h2
    · next t heq => exact Or.inr ⟨t, heq, h2⟩
    · exact Or.inl h2

/-- The match returned by `firstYearsMatch` starts at the leftmost position
where the expression matches. -/
theorem firstYearsMatch_spec : ∀ (text digits : JSString),
    firstYearsMatch text = some digits →
      ∃ k : Nat, k < text.length ∧ matchYearsAt (text.drop k) = some digits ∧
        ∀ j : Nat, j < k → matchYearsAt (text.drop j) = none := by
  intro text
  induction text with
  | nil => intro digits h; simp [firstYearsMatch] at h
  | cons c cs ih =>
    intro digits h
    unfold firstYearsMatch at h
    cases hm : matchYearsAt (c :: cs) with
    | some d =>
      rw [hm] at h
      simp only [Option.some.injEq] at h
      subst h
      exact ⟨0, by simp, by simpa using hm, fun j hj => absurd hj (Nat.not_lt_zero j)⟩
    | none =>
      rw [hm] at h
      simp only at h
      obtain ⟨k, hk, hmatch, hbefore⟩ := ih digits h
      refine ⟨k + 1, by simp only [List.length_cons]; omega, by simpa using hmatch, ?_⟩
      intro j hj
      cases j with
      | zero => simpa using hm
      | succ j => simpa using hbefore j (by omega)

/-- Where the expression matches nowhere, `firstYearsMatch` returns `none`,
and conversely. -/
theorem firstYearsMatch_none : ∀ (text : JSString),
    firstYearsMatch text = none ↔ ∀ j : Nat, j < text.length → matchYearsAt (text.drop j) = none := by
  intro text
  induction text with
  | nil => simp [firstYearsMatch]
  | cons c cs ih =>
    unfold firstYearsMatch
    cases hm : matchYearsAt (c :: cs) with
    | some d =>
      constructor
      · intro h; exact absurd h (by simp)
      · intro hall
        have h0 := hall 0 (by simp)
        rw [List.drop_zero, hm] at h0
        exact absurd h0 (by simp)
    | none =>
      simp only
      rw [ih]
      constructor
      · intro hall j hj
        cases j with
        | zero => simpa using hm
        | succ j => simpa using hall j (by simpa using hj)
      · intro hall j hj
        simpa using hall (j + 1) (by simpa using hj)

/-! ## The expression of `extractYears` against its specification -/

theorem isDigit_of_isWhiteSpace (c : Nat) (h : isWhiteSpace c = true) : isDigit c = false := by
  unfold isWhiteSpace at h
  unfold isDigit
  simp only [Bool.or_eq_true, Bool.and_eq_true, decide_eq_true_eq] at h
  simp only [Bool.and_eq_false_iff, decide_eq_false_iff_not]
  omega

theorem ne_plus_of_isWhiteSpace (c : Nat) (h : isWhiteSpace c = true) : c ≠ 43 := by
  unfold isWhiteSpace at h
  simp only [Bool.or_eq_true, Bool.and_eq_true, decide_eq_true_eq] at h
  omega

/-- A predicate that holds on all of `l₁` and fails at the head of `l₂` splits
`l₁ ++ l₂` at the seam. -/
theorem takeWhile_dropWhile_append (p : Nat → Bool) :
    ∀ (l₁ l₂ : JSString), (∀ a ∈ l₁, p a = true) → (∀ c t, l₂ = c :: t → p c = false) →
      (l₁ ++ l₂).takeWhile p = l₁ ∧ (l₁ ++ l₂).dropWhile p = l₂ := by
  intro l₁
  induction l₁ with
  | nil =>
    intro l₂ _ h2
    cases l₂ with
    | nil => simp
    | cons c t =>
      have := h2 c t rfl
      simp [List.takeWhile, List.dropWhile, this]
  | cons a as ih =>
    intro l₂ h1 h2
    have ha := h1 a (List.mem_cons_self _ _)
    obtain ⟨i1, i2⟩ := ih l₂ (fun b hb => h1 b (List.mem_cons_of_mem _ hb)) h2
    rw [List.cons_append, List.takeWhile_cons_of_pos ha, List.dropWhile_cons_of_pos ha, i1]
    exact ⟨rfl, i2⟩

/-- The test `startsWithYear` holds exactly for the strings that start with a
word of four letters that is `year` up to case. -/
theorem startsWithYear_iff (s : JSString) :
    startsWithYear s = true ↔
      ∃ word tail : JSString, s = word ++ tail ∧ word.length = 4 ∧
        asciiToLowerCase word = js "year" := by
  constructor
  · intro h
    match s, h with
    | y :: e :: a :: r :: tail, h =>
      refine ⟨[y, e, a, r], tail, rfl, rfl, ?_⟩
      simp only [startsWithYear, Bool.and_eq_true, Bool.or_eq_true, decide_eq_true_eq] at h
      obtain ⟨⟨⟨hy, he⟩, ha⟩, hr⟩ := h
      rcases hy with rfl | rfl <;> rcases he with rfl | rfl <;> rcases ha with rfl | rfl <;>
        rcases hr with rfl | rfl <;> decide
  · rintro ⟨word, tail, rfl, h4, hlow⟩
    match word, h4, hlow with
    | [y, e, a, r], _, hlow =>
      have hjs : js "year" = [121, 101, 97, 114] := by decide
      rw [hjs] at hlow
      simp only [asciiToLowerCase, List.map_cons, List.map_nil, List.cons.injEq, and_true] at hlow
      obtain ⟨hy, he, ha, hr⟩ := hlow
      simp only [List.cons_append, List.nil_append, startsWithYear, Bool.and_eq_true,
        Bool.or_eq_true, decide_eq_true_eq]
      refine ⟨⟨⟨?_, ?_⟩, ?_⟩, ?_⟩
      · split_ifs at hy <;> omega
      · split_ifs at he <;> omega
      · split_ifs at ha <;> omega
      · split_ifs at hr <;> omega

/-- A string that starts with `year` starts with a code unit that is no digit,
no white space and no plus sign. -/
theorem startsWithYear_head (s : JSString) (h : startsWithYear s = true) :
    ∃ y rest, s = y :: rest ∧ isDigit y = false ∧ isWhiteSpace y = false ∧ y ≠ 43 := by
  match s, h with
  | y :: e :: a :: r :: tail, h =>
    simp only [startsWithYear, Bool.and_eq_true, Bool.or_eq_true, decide_eq_true_eq] at h
    refine ⟨y, e :: a :: r :: tail, rfl, ?_⟩
    rcases h.1.1.1 with rfl | rfl <;> decide

/-- The attempt `matchYearsAt` succeeds with the group `digits` exactly when the
specification of a match at the start of the string holds for `digits`. -/
theorem matchYearsAt_iff (s digits : JSString) :
    matchYearsAt s = some digits ↔ IsYearsPhraseAt s 0 digits := by
  unfold IsYearsPhraseAt
  rw [List.drop_zero]
  constructor
  · intro h
    obtain ⟨hne, hdig, rest, hsplit, _, hyear⟩ := matchYearsAt_spec s digits h
    refine ⟨hne, hdig, ?_⟩
    rcases hyear with hy | ⟨t, ht, hy⟩
    · obtain ⟨word, tail, hw, h4, hlow⟩ := (startsWithYear_iff _).1 hy
      refine ⟨[], rest.takeWhile isWhiteSpace, word, tail, ?_, Or.inl rfl,
        fun c hc => List.mem_takeWhile_imp hc, h4, hlow⟩
      rw [List.nil_append, ← hw, List.takeWhile_append_dropWhile]
      exact hsplit
    · obtain ⟨word, tail, hw, h4, hlow⟩ := (startsWithYear_iff _).1 hy
      refine ⟨[43], t.takeWhile isWhiteSpace, word, tail, ?_, Or.inr rfl,
        fun c hc => List.mem_takeWhile_imp hc, h4, hlow⟩
      rw [← hw, List.takeWhile_append_dropWhile, List.singleton_append, ← ht]
      exact hsplit
  · rintro ⟨hne, hdig, plus, spaces, word, tail, hsplit, hplus, hspaces, h4, hlow⟩
    have hyear : startsWithYear (word ++ tail) = true :=
      (startsWithYear_iff _).2 ⟨word, tail, rfl, h4, hlow⟩
    obtain ⟨y, yrest, hy, hyd, hyw, hyp⟩ := startsWithYear_head _ hyear
    have hsp : (spaces ++ (word ++ tail)).takeWhile isWhiteSpace = spaces ∧
        (spaces ++ (word ++ tail)).dropWhile isWhiteSpace = word ++ tail :=
      takeWhile_dropWhile_append isWhiteSpace spaces (word ++ tail) hspaces
        (fun c t hct => by rw [hy] at hct; cases hct; exact hyw)
    have hhead : ∀ c t, spaces ++ (word ++ tail) = c :: t → isDigit c = false ∧ c ≠ 43 := by
      intro c t hct
      cases spaces with
      | nil =>
        rw [List.nil_append, hy] at hct
        cases hct
        exact ⟨hyd, hyp⟩
      | cons w ws =>
        rw [List.cons_append] at hct
        cases hct
        have hw := hspaces c (List.mem_cons_self _ _)
        exact ⟨isDigit_of_isWhiteSpace c hw, ne_plus_of_isWhiteSpace c hw⟩
    have hrest : ∀ c t, plus ++ (spaces ++ (word ++ tail)) = c :: t → isDigit c = false := by
      intro c t hct
      rcases hplus with rfl | rfl
      · exact (hhead c t hct).1
      · cases hct; decide
    obtain ⟨htake, hdrop⟩ := takeWhile_dropWhile_append isDigit digits _ hdig hrest
    unfold matchYearsAt
    simp only
    rw [hsplit, htake, hdrop]
    have hafter : skipPlus (plus ++ (spaces ++ (word ++ tail))) = spaces ++ (word ++ tail) := by
      rcases hplus with rfl | rfl
      · rw [List.nil_append]
        unfold skipPlus
        split
        · next t heq => exact absurd rfl (hhead 43 t heq).2
        · rfl
      · rfl
    rw [hafter, hsp.2, if_pos ⟨hne, hyear⟩]

/-- The specification of a match at the index `k` is the success of
`matchYearsAt` on the text from `k` on. -/
theorem matchYearsAt_drop_iff (text : JSString) (k : Nat) (digits : JSString) :
    matchYearsAt (text.drop k) = some digits ↔ IsYearsPhraseAt text k digits := by
  rw [matchYearsAt_iff]
  unfold IsYearsPhraseAt
  rw [List.drop_zero]

/-- No match starts at or behind the end of the text. -/
theorem IsYearsPhraseAt.lt_length {text : JSString} {k : Nat} {digits : JSString}
    (h : IsYearsPhraseAt text k digits) : k < text.length := by
  by_contra hk
  obtain ⟨hne, _, plus, spaces, word, tail, hsplit, _⟩ := h
  rw [List.drop_eq_nil_of_le (by omega)] at hsplit
  have := congrArg List.length hsplit
  simp only [List.length_nil, List.length_append] at this
  exact hne (List.length_eq_zero.1 (by omega))

/-- The function `firstYearsMatch` returns the group of the first phrase of the
specification. -/
theorem firstYearsMatch_eq_some_iff (text digits : JSString) :
    firstYearsMatch text = some digits ↔ IsFirstYearsPhrase text digits := by
  unfold IsFirstYearsPhrase
  constructor
  · intro h
    obtain ⟨k, _, hmatch, hbefore⟩ := firstYearsMatch_spec text digits h
    refine ⟨k, (matchYearsAt_drop_iff text k digits).1 hmatch, fun j hj d hd => ?_⟩
    have := (matchYearsAt_drop_iff text j d).2 hd
    rw [hbefore j hj] at this
    exact absurd this (by simp)
  · rintro ⟨k, hphrase, hbefore⟩
    have hk := (matchYearsAt_drop_iff text k digits).2 hphrase
    cases hf : firstYearsMatch text with
    | none =>
      have := (firstYearsMatch_none text).1 hf k hphrase.lt_length
      rw [hk] at this
      exact absurd this (by simp)
    | some d =>
      obtain ⟨k', _, hmatch', hbefore'⟩ := firstYearsMatch_spec text d hf
      rcases Nat.lt_trichotomy k k' with hlt | heq | hgt
      · rw [hbefore' k hlt] at hk
        exact absurd hk (by simp)
      · subst heq
        rw [hk] at hmatch'
        exact hmatch'.symm
      · exact absurd ((matchYearsAt_drop_iff text k' d).1 hmatch') (hbefore k' hgt d)

/-- The function `extractYears` returns the number written by the digits of the
first phrase of the specification, and `null` when the text has no phrase. -/
theorem extractYears_iff (text : JSString) :
    (∀ years : F64, extractYears text = some years ↔
        ∃ digits : JSString, IsFirstYearsPhrase text digits ∧
          years = F64.ofNat (digitsValue digits)) ∧
      (extractYears text = none ↔ ∀ (k : Nat) (digits : JSString), ¬ IsYearsPhraseAt text k digits) := by
  constructor
  · intro years
    unfold extractYears
    constructor
    · intro h
      cases hf : firstYearsMatch text with
      | none => rw [hf] at h; exact absurd h (by simp)
      | some digits =>
        rw [hf] at h
        simp only [Option.map_some', Option.some.injEq] at h
        exact ⟨digits, (firstYearsMatch_eq_some_iff text digits).1 hf, h.symm⟩
    · rintro ⟨digits, hphrase, hy⟩
      rw [(firstYearsMatch_eq_some_iff text digits).2 hphrase, hy]
      simp only [Option.map_some']
  · unfold extractYears
    rw [Option.map_eq_none', firstYearsMatch_none]
    constructor
    · intro hall k digits hphrase
      have := hall k hphrase.lt_length
      rw [(matchYearsAt_drop_iff text k digits).2 hphrase] at this
      exact absurd this (by simp)
    · intro hall j _
      cases hm : matchYearsAt (text.drop j) with
      | none => rfl
      | some d => exact absurd ((matchYearsAt_drop_iff text j d).1 hm) (hall j d)

/-- A number denoted by a natural number is truthy exactly when the natural
number is not 0. -/
theorem F64.toBoolean_ofNat (n : Nat) : F64.toBoolean (F64.ofNat n) = decide (n ≠ 0) := by
  by_cases hn : n = 0
  · subst hn
    rw [F64.ofNat_zero]
    rfl
  · have hpos : 0 < n * 2 ^ 1074 := Nat.mul_pos (Nat.pos_of_ne_zero hn) (by decide!)
    unfold F64.ofNat
    rcases F64.round_one_pos false (n * 2 ^ 1074) hpos with h | ⟨k, hk, h⟩
    · rw [h]; simp [F64.toBoolean, hn]
    · rw [h]
      have hk' : k ≠ 0 := by omega
      simp [F64.toBoolean, hn, hk']

/-- The digits that write a natural number in decimal denote that number. -/
theorem digitsValue_decimalDigits : ∀ (fuel n : Nat), n < 10 ^ fuel →
    digitsValue (decimalDigits fuel n) = n := by
  intro fuel
  induction fuel with
  | zero =>
    intro n hn
    have h0 : n = 0 := by simpa using hn
    subst h0
    rfl
  | succ f ih =>
    intro n hn
    unfold decimalDigits
    by_cases hlt : n < 10
    · rw [if_pos hlt]
      simp [digitsValue]
    · rw [if_neg hlt]
      have hdiv : n / 10 < 10 ^ f := by
        rw [Nat.div_lt_iff_lt_mul (by decide)]
        rw [Nat.pow_succ] at hn
        exact hn
      have hi := ih (n / 10) hdiv
      unfold digitsValue at hi ⊢
      rw [List.foldl_append, hi]
      simp only [List.foldl_cons, List.foldl_nil, Nat.add_sub_cancel_left]
      omega

/-! ## Claims about the helper functions of `matchJob` -/

/-- C21: for a resume whose experience is not negative,
`analyzeMissingRequirements` returns, in the order of the job skills, the
lower-cased form of every job skill that neither contains nor is contained in
a resume skill (both lower-cased), followed by the entries `shortfall`: when
the experience text of the job has a first "N years" phrase, that is one
entry if the number N exceeds the experience of the resume and nothing if it
does not, and when the text has no such phrase it is nothing.  The job
skills `Python` and `SQL` against the resume skills `Python` and `Java` give
the entry `sql`; with the experience text `8+ years` against five years of
experience the entry for the shortfall follows it. -/
theorem analyzeMissingRequirements_spec (B : Builtins) (job : Job) (resume : Resume)
    (hexp : F64.lt resume.experience F64.zero = false) :
    (∃ shortfall : List JSString,
      analyzeMissingRequirements B job resume =
          (job.skills.filter (fun skill => !containsEitherWay B resume.skills skill)).map
            B.toLowerCase ++ shortfall ∧
        (∀ digits : JSString, IsFirstYearsPhrase job.experience digits →
          shortfall =
            if F64.gt (F64.ofNat (digitsValue digits)) resume.experience = true then
              [experienceShortfall B (F64.ofNat (digitsValue digits)) resume.experience]
            else []) ∧
        ((∀ (k : Nat) (digits : JSString), ¬ IsYearsPhraseAt job.experience k digits) →
          shortfall = [])) ∧
      analyzeMissingRequirements asciiBuiltins pythonSqlJob pythonJavaResume = [js "sql"] ∧
      analyzeMissingRequirements asciiBuiltins eightYearsJob pythonJavaResume =
        [js "sql", js "8 years of experience (candidate has 5)"] := by
  refine ⟨?_, by decide!, by decide!⟩
  have hskills : missingLoop (resume.skills.map B.toLowerCase) (job.skills.map B.toLowerCase) [] =
      (job.skills.filter (fun skill => !containsEitherWay B resume.skills skill)).map
        B.toLowerCase := by
    rw [missingLoop_eq, List.nil_append, List.filter_map]
    congr 1
    apply List.filter_congr
    intro skill _
    simp only [Function.comp_apply, any_lowered_eq]
  obtain ⟨hsome, hnone⟩ := extractYears_iff job.experience
  cases hy : extractYears job.experience with
  | none =>
    refine ⟨[], ?_, ?_, fun _ => rfl⟩
    · unfold analyzeMissingRequirements
      simp only [hskills, hy, List.append_nil]
    · intro digits hphrase
      have := (hsome _).2 ⟨digits, hphrase, rfl⟩
      rw [hy] at this
      exact absurd this (by simp)
  | some years =>
    obtain ⟨digits0, hphrase0, hyears⟩ := (hsome years).1 hy
    have hresult : analyzeMissingRequirements B job resume =
        (job.skills.filter (fun skill => !containsEitherWay B resume.skills skill)).map
          B.toLowerCase ++
        (if F64.gt years resume.experience = true then
          [experienceShortfall B years resume.experience] else []) := by
      unfold analyzeMissingRequirements
      simp only [hskills, hy]
      by_cases htrue : F64.toBoolean years = true
      · rw [htrue, Bool.true_and]
        unfold F64.gt
        split_ifs <;> simp
      · simp only [Bool.not_eq_true] at htrue
        have hzero : years = F64.zero := by
          rw [hyears] at htrue ⊢
          exact F64.ofNat_falsy _ htrue
        have hgt : F64.gt years resume.experience = false := by
          rw [hzero]; exact hexp
        rw [htrue, hgt]
        simp
    refine ⟨_, hresult, ?_, ?_⟩
    · intro digits hphrase
      have h2 := (hsome (F64.ofNat (digitsValue digits))).2 ⟨digits, hphrase, rfl⟩
      rw [hy] at h2
      rw [Option.some.inj h2]
    · intro hno
      obtain ⟨k, hk, _⟩ := hphrase0
      exact absurd hk (hno k digits0)

/-- Witness of C21: the job skills `Python` and `SQL` and the experience text
`8+ years` against the resume skills `Python` and `Java` and five years of
experience give the entry `sql` and the entry for the shortfall. -/
theorem analyzeMissingRequirements_spec_witness :
    F64.lt pythonJavaResume.experience F64.zero = false ∧
      analyzeMissingRequirements asciiBuiltins eightYearsJob pythonJavaResume =
        [js "sql", js "8 years of experience (candidate has 5)"] :=
  ⟨by decide!,
    (analyzeMissingRequirements_spec asciiBuiltins eightYearsJob pythonJavaResume
      (by decide!)).2.2⟩

/-- Counterexample to C22 as stated: of the forty job skills the resume has 23,
the formula `round(100 * 23 / 40)` is 58 (the quotient `2300 / 40` is exactly
`57.5`), but `calculateSkillsMatch` returns 57, because it multiplies the
rounded quotient `23 / 40` by 100. -/
theorem calculateSkillsMatch_quotient_first :
    fortySkills.length = 40 ∧
      matchedSkillCount asciiBuiltins fortySkills (fortySkills.take 23) = 23 ∧
      2 * (100 * 23) = (2 * 57 + 1) * 40 ∧
      F64.mathRound (F64.div (F64.mul (F64.ofNat 100) (F64.ofNat 23)) (F64.ofNat 40)) =
        F64.ofNat 58 ∧
      calculateSkillsMatch asciiBuiltins fortySkills (fortySkills.take 23) = F64.ofNat 57 ∧
      F64.ofNat 57 ≠ F64.ofNat 58 := by
  decide!

/-- C22, amended: `calculateSkillsMatch(jobSkills, resumeSkills)` is `0` when
the job has no skills and otherwise `Math.round((m / n) * 100)`, the
quotient and the product rounded to binary64 in this order, where `n` is the
number of job skills and `m` the number of job skills that contain or are
contained in some resume skill, both lower-cased; the job skills `Python`
and `SQL` against the resume skills `Python` and `Java` give 50. -/
theorem calculateSkillsMatch_spec (B : Builtins) (jobSkills resumeSkills : List JSString) :
    calculateSkillsMatch B jobSkills resumeSkills =
        (if jobSkills = [] then F64.zero
          else F64.mathRound (F64.mul
            (F64.div (F64.ofNat (matchedSkillCount B jobSkills resumeSkills))
              (F64.ofNat jobSkills.length)) (F64.ofNat 100))) ∧
      calculateSkillsMatch asciiBuiltins [js "Python", js "SQL"] [js "Python", js "Java"] =
        F64.ofNat 50 := by
  refine ⟨?_, by decide!⟩
  unfold calculateSkillsMatch
  by_cases hnil : jobSkills = []
  · rw [if_pos hnil, if_pos (by rw [hnil]; rfl)]
  · rw [if_neg hnil, if_neg (by simpa using hnil)]
    have hcount : ((jobSkills.map B.toLowerCase).filter (fun skill =>
        (resumeSkills.map B.toLowerCase).any (fun rs =>
          jsIncludes rs skill || jsIncludes skill rs))).length =
        matchedSkillCount B jobSkills resumeSkills := by
      unfold matchedSkillCount
      rw [List.filter_map, List.length_map]
      congr 1
      apply List.filter_congr
      intro skill _
      simp only [Function.comp_apply, any_lowered_eq]
    simp only [hcount]

/-- Counterexample to C23 as stated: from the experience text `0+ years` the
number 0 is extracted, and for a resume with five years the formula
`round(min(100, 100 * 5 / 0))` is 100, but `calculateExperienceMatch`
returns 0; and for `40 years` against 23 years the formula
`round(min(100, 100 * 23 / 40))` is 58 (the quotient `2300 / 40` is exactly
`57.5`), but `calculateExperienceMatch` returns 57, because it multiplies the
rounded quotient `23 / 40` by 100. -/
theorem calculateExperienceMatch_zero_years :
    (extractYears (js "0+ years") = some (F64.ofNat 0) ∧
      F64.mathRound (F64.mathMin (F64.ofNat 100)
        (F64.mul (F64.ofNat 100) (F64.div (F64.ofNat 5) (F64.ofNat 0)))) = F64.ofNat 100 ∧
      F64.mathRound (F64.mathMin (F64.ofNat 100)
        (F64.div (F64.mul (F64.ofNat 100) (F64.ofNat 5)) (F64.ofNat 0))) = F64.ofNat 100 ∧
      calculateExperienceMatch (js "0+ years") (F64.ofNat 5) = F64.zero ∧
      F64.zero ≠ F64.ofNat 100) ∧
    (extractYears (js "40 years") = some (F64.ofNat 40) ∧
      2 * (100 * 23) = (2 * 57 + 1) * 40 ∧
      F64.mathRound (F64.mathMin (F64.ofNat 100)
        (F64.div (F64.mul (F64.ofNat 100) (F64.ofNat 23)) (F64.ofNat 40))) = F64.ofNat 58 ∧
      calculateExperienceMatch (js "40 years") (F64.ofNat 23) = F64.ofNat 57 ∧
      F64.ofNat 57 ≠ F64.ofNat 58) := by
  decide!

/-- C23, amended: when the experience text of the job has a first "N years"
phrase, `calculateExperienceMatch(jobExperience, resumeExperience)` is `0` if
the number N is 0 or the experience of the resume is 0 or NaN, and otherwise
`Math.round(Math.min((resumeExperience / N) * 100, 100))`, the quotient and
the product rounded to binary64 in this order; when the text has no such
phrase it is `0`.  The number N is the one that the digits of the phrase
write in decimal.  `3+ years` against 5 gives 100, `40 years` against 23
gives 57 and `0+ years` against 5 gives 0. -/
theorem calculateExperienceMatch_spec (jobExperience : JSString) (resumeExperience : F64) :
    (∀ digits : JSString, IsFirstYearsPhrase jobExperience digits →
        calculateExperienceMatch jobExperience resumeExperience =
          if digitsValue digits = 0 ∨ F64.toBoolean resumeExperience = false then F64.zero
          else
            F64.mathRound (F64.mathMin
              (F64.mul (F64.div resumeExperience (F64.ofNat (digitsValue digits)))
                (F64.ofNat 100))
              (F64.ofNat 100))) ∧
      ((∀ (k : Nat) (digits : JSString), ¬ IsYearsPhraseAt jobExperience k digits) →
        calculateExperienceMatch jobExperience resumeExperience = F64.zero) ∧
      (∀ n : Nat, n < 10 ^ 21 → digitsValue (decimalDigits 21 n) = n) ∧
      calculateExperienceMatch (js "3+ years") (F64.ofNat 5) = F64.ofNat 100 ∧
      calculateExperienceMatch (js "40 years") (F64.ofNat 23) = F64.ofNat 57 ∧
      calculateExperienceMatch (js "0+ years") (F64.ofNat 5) = F64.zero := by
  refine ⟨?_, ?_, digitsValue_decimalDigits 21, by decide!, by decide!, by decide!⟩
  · intro digits hphrase
    obtain ⟨hsome, _⟩ := extractYears_iff jobExperience
    have hy := (hsome (F64.ofNat (digitsValue digits))).2 ⟨digits, hphrase, rfl⟩
    have hne : jobExperience ≠ [] := by
      obtain ⟨k, hk, _⟩ := hphrase
      have := hk.lt_length
      intro hnil
      rw [hnil] at this
      exact absurd this (by simp)
    have htb := F64.toBoolean_ofNat (digitsValue digits)
    unfold calculateExperienceMatch
    simp only [hne, false_or, hy]
    by_cases hr : F64.toBoolean resumeExperience = false
    · simp [hr]
    · by_cases hd : digitsValue digits = 0
      · have hfalse : F64.toBoolean (F64.ofNat (digitsValue digits)) = false := by
          rw [htb]; simp [hd]
        rw [if_neg hr, if_pos hfalse, if_pos (Or.inl hd)]
      · have htrue : ¬ F64.toBoolean (F64.ofNat (digitsValue digits)) = false := by
          rw [htb]; simp [hd]
        rw [if_neg hr, if_neg htrue, if_neg (by simp [hd, hr])]
  · intro hno
    obtain ⟨_, hnone⟩ := extractYears_iff jobExperience
    have hy := hnone.2 hno
    unfold calculateExperienceMatch
    rw [hy]
    simp

/-- C24: the strengths of a resume are computed from the resume alone, so
they are the same against every job; the list contains `Diverse skill set`
exactly when the resume has more than 5 skills, `Senior-level experience`
exactly when its experience exceeds 5, and `Strong educational background`
exactly when it has an education entry, in that order, each at most once and
nothing else. -/
theorem analyzeStrengths_spec (resume : Resume) :
    (∀ job1 job2 : Job, matchStrengths job1 resume = matchStrengths job2 resume) ∧
      (js "Diverse skill set" ∈ analyzeStrengths resume ↔ 5 < resume.skills.length) ∧
      (js "Senior-level experience" ∈ analyzeStrengths resume ↔
        F64.gt resume.experience (F64.ofNat 5) = true) ∧
      (js "Strong educational background" ∈ analyzeStrengths resume ↔
        resume.education ≠ []) ∧
      (analyzeStrengths resume).Sublist
        [js "Diverse skill set", js "Senior-level experience",
          js "Strong educational background"] := by
  have h12 : js "Diverse skill set" ≠ js "Senior-level experience" := by decide
  have h13 : js "Diverse skill set" ≠ js "Strong educational background" := by decide
  have h23 : js "Senior-level experience" ≠ js "Strong educational background" := by decide
  have hedu : 0 < resume.education.length ↔ resume.education ≠ [] := List.length_pos
  unfold analyzeStrengths
  rw [← hedu]
  generalize js "Diverse skill set" = a at *
  generalize js "Senior-level experience" = b at *
  generalize js "Strong educational background" = c at *
  refine ⟨fun _ _ => rfl, ?_, ?_, ?_, ?_⟩
  · split_ifs <;> simp_all
  · split_ifs <;> simp_all [Ne.symm h12]
  · split_ifs <;> simp_all [Ne.symm h13, Ne.symm h23]
  · split_ifs <;> simp

/-! ## Facts about `askQuestion` and `searchResumes` -/

theorem length_insertBy {α : Type} (comparefn : α → α → F64) (x : α) (l : List α) :
    (insertBy comparefn x l).length = l.length + 1 :=
  (perm_insertBy comparefn x l).length_eq

theorem length_sortBy {α : Type} (comparefn : α → α → F64) (l : List α) :
    (sortBy comparefn l).length = l.length :=
  (perm_sortBy comparefn l).length_eq

theorem length_similaritiesFrom (q : List F64) :
    ∀ (chunks : List StoredChunk) (i : Nat), (similaritiesFrom q i chunks).length = chunks.length := by
  intro chunks
  induction chunks with
  | nil => intro i; rfl
  | cons c cs ih => intro i; simp only [similaritiesFrom, List.length_cons, ih]

/-- The function `findSimilarChunks` returns `topK` entries, or one for every
chunk when there are fewer chunks. -/
theorem length_findSimilarChunks (q : List F64) (chunks : List StoredChunk) (topK : Nat) :
    (findSimilarChunks q chunks topK).length = min topK chunks.length := by
  unfold findSimilarChunks
  rw [List.length_take, length_sortBy, length_similaritiesFrom]

/-- The array `results` of `askQuestion` before sorting holds, in the order of
the resumes, one element for every resume with a chunk when `k` is positive,
with the rounded hundredfold of the mean of the similarities that
`findSimilarChunks` returns. -/
theorem askResults_spec (q : List F64) (k : Nat) :
    ∀ resumes : List Resume,
      (askResults q k resumes).map (fun r => r.resume) =
          resumes.filter (fun r => decide (0 < k ∧ r.chunks ≠ [])) ∧
        ∀ r ∈ askResults q k resumes,
          r.score = F64.mathRound (F64.mul (F64.ofNat 100)
            (mean ((findSimilarChunks q r.resume.chunks k).map (fun c => c.similarity)))) := by
  intro resumes
  induction resumes with
  | nil => simp [askResults]
  | cons r rest ih =>
    have hlen := length_findSimilarChunks q r.chunks k
    have hiff : 0 < (findSimilarChunks q r.chunks k).length ↔ (0 < k ∧ r.chunks ≠ []) := by
      rw [hlen, ← List.length_pos]
      omega
    unfold askResults
    simp only
    by_cases hpos : 0 < (findSimilarChunks q r.chunks k).length
    · rw [if_pos hpos]
      have hcond : decide (0 < k ∧ r.chunks ≠ []) = true := by
        rw [decide_eq_true_eq]; exact hiff.1 hpos
      refine ⟨?_, ?_⟩
      · rw [List.map_cons, List.filter_cons, if_pos hcond, ih.1]
      · intro e he
        rcases List.mem_cons.1 he with rfl | he'
        · have hne : (findSimilarChunks q r.chunks k).map (fun c => c.similarity) ≠ [] := by
            intro hnil
            rw [List.map_eq_nil_iff] at hnil
            rw [hnil] at hpos
            exact absurd hpos (by simp)
          show F64.mathRound (F64.mul (F64.div _ _) (F64.ofNat 100)) = _
          unfold mean
          rw [if_neg hne, List.foldl_map, List.length_map, F64.mul_symm]
        · exact ih.2 e he'
    · rw [if_neg hpos]
      have hcond : ¬ decide (0 < k ∧ r.chunks ≠ []) = true := by
        rw [decide_eq_true_eq]; exact fun h => hpos (hiff.2 h)
      refine ⟨?_, ih.2⟩
      rw [List.filter_cons, if_neg hcond, ih.1]

/-- The array `results` of `searchResumes` before sorting holds, in the order of
the resumes, the resumes whose score is at least `minScore`, each with its
score. -/
theorem searchResults_spec (q : List F64) (minScore : F64) :
    ∀ resumes : List Resume,
      (searchResults q minScore resumes).map (fun r => r.resume) =
          resumes.filter (fun r => F64.ge (searchScore q r) minScore) ∧
        ∀ r ∈ searchResults q minScore resumes,
          r.score = searchScore q r.resume ∧ F64.ge r.score minScore = true := by
  intro resumes
  induction resumes with
  | nil => simp [searchResults]
  | cons r rest ih =>
    unfold searchResults
    by_cases hge : F64.ge (searchScore q r) minScore = true
    · rw [if_pos hge]
      refine ⟨?_, ?_⟩
      · rw [List.map_cons, List.filter_cons, if_pos hge, ih.1]
      · intro e he
        rcases List.mem_cons.1 he with rfl | he'
        · exact ⟨rfl, hge⟩
        · exact ih.2 e he'
    · rw [if_neg hge]
      refine ⟨?_, ih.2⟩
      rw [List.filter_cons, if_neg hge, ih.1]

theorem F64.ge_not_nan {x y : F64} (h : F64.ge x y = true) : F64.isNaN x = false := by
  cases x <;> simp [F64.ge, F64.isNaN] at h ⊢

theorem F64.ge_of_not_lt {x y : F64} (hx : F64.isNaN x = false) (hy : F64.isNaN y = false)
    (h : F64.lt x y = false) : F64.ge x y = true := by
  simp [F64.ge, hx, hy, h]

theorem F64.lt_trans {x y z : F64} (h1 : F64.lt x y = true) (h2 : F64.lt y z = true) :
    F64.lt x z = true := by
  rcases F64.lt_cotrans x z y (F64.lt_not_nan h2).2 h1 with h | h
  · exact h
  · rw [F64.lt_not_gt _ _ h2] at h
    exact absurd h (by simp)

/-- The loop over the chunks either keeps the initial pair or ends with the
similarity of a chunk that is greater than the initial value, together with
that chunk. -/
theorem bestMatchLoop_gt (q : List F64) :
    ∀ (chunks : List StoredChunk) (best : F64) (chunk : Option StoredChunk),
      bestMatchLoop q chunks (best, chunk) = (best, chunk) ∨
        (F64.gt (bestMatchLoop q chunks (best, chunk)).1 best = true ∧
          ∃ r ∈ chunks, bestMatchLoop q chunks (best, chunk) =
            (computeCosineSimilarity q r.embedding, some r)) := by
  intro chunks
  induction chunks with
  | nil => intro best chunk; left; rfl
  | cons rc rest ih =>
    intro best chunk
    unfold bestMatchLoop
    by_cases hgt : F64.gt (computeCosineSimilarity q rc.embedding) best = true
    · rw [if_pos hgt]
      right
      rcases ih (computeCosineSimilarity q rc.embedding) (some rc) with h | ⟨h, r, hr, he⟩
      · rw [h]
        exact ⟨hgt, rc, List.mem_cons_self _ _, rfl⟩
      · exact ⟨F64.lt_trans hgt h, r, List.mem_cons_of_mem _ hr, he⟩
    · rw [if_neg hgt]
      rcases ih best chunk with h | ⟨h, r, hr, he⟩
      · left; exact h
      · right; exact ⟨h, r, List.mem_cons_of_mem _ hr, he⟩

/-! ## Claims about `askQuestion` and `searchResumes` -/

/-- C25 fails on the code: for the query embedding `[1]`, a resume whose chunk
has the embedding `[0]` gets the score NaN; the comparison function returns
NaN for it and the resume with the score 100 in either order, so the sort
leaves the result with the score NaN in front: the results are not in
non-increasing order of score, and with `k = 1` only the resume with the
score NaN is returned. -/
theorem askQuestion_nan_score_first :
    (askResults [F64.ofNat 1] 5 zeroAndUnitResumes).map (fun r => r.score) =
        [F64.nan, F64.ofNat 100] ∧
      F64.sub (F64.ofNat 100) F64.nan = F64.nan ∧ F64.sub F64.nan (F64.ofNat 100) = F64.nan ∧
      (askQuestion [F64.ofNat 1] zeroAndUnitResumes 5).results.map (fun r => r.score) =
        [F64.nan, F64.ofNat 100] ∧
      F64.ge F64.nan (F64.ofNat 100) = false ∧
      (askQuestion [F64.ofNat 1] zeroAndUnitResumes 1).results.map (fun r => r.resume.id) =
        [1] := by
  decide!

/-- When no chunk has the similarity NaN to the query and no result has the
score NaN, the results of `askQuestion` are, for `k > 0`, the resumes with
at least one chunk; the score of each is `Math.round(100 * mean)`, where
`mean` is the mean of the similarities of the chunks that
`findSimilarChunks` returns for that resume and `k`, which are in
non-increasing order; the results are in non-increasing order of score and
cut to the first `k`, and `totalFound` counts them before the cut. -/
theorem askQuestion_ordered (q : List F64) (resumes : List Resume) (k : Nat)
    (hsim : ∀ r ∈ resumes, ∀ c ∈ r.chunks,
      F64.isNaN (computeCosineSimilarity q c.embedding) = false)
    (hnan : ∀ r ∈ askResults q k resumes, F64.isNaN r.score = false) :
    ∃ ordered : List AskResult,
      (ordered.map (fun r => r.resume)).Perm
          (resumes.filter (fun r => decide (0 < k ∧ r.chunks ≠ []))) ∧
        (∀ r ∈ ordered, r.score = F64.mathRound (F64.mul (F64.ofNat 100)
          (mean ((findSimilarChunks q r.resume.chunks k).map (fun c => c.similarity))))) ∧
        (∀ r ∈ ordered,
          ((findSimilarChunks q r.resume.chunks k).map (fun c => c.similarity)).Pairwise
            (fun s t => F64.ge s t = true)) ∧
        ordered.Pairwise (fun a b => F64.ge a.score b.score = true) ∧
        (askQuestion q resumes k).results = ordered.take k ∧
        (askQuestion q resumes k).totalFound = ordered.length := by
  obtain ⟨hmap, hall⟩ := askResults_spec q k resumes
  have hperm := perm_sortBy byAskScoreDesc (askResults q k resumes)
  have hnan' : ∀ r ∈ sortBy byAskScoreDesc (askResults q k resumes),
      F64.isNaN r.score = false := fun r hr => hnan r (hperm.mem_iff.1 hr)
  refine ⟨sortBy byAskScoreDesc (askResults q k resumes), ?_, ?_, ?_, ?_, rfl, ?_⟩
  · rw [← hmap]
    exact hperm.map _
  · intro r hr
    exact hall r (hperm.mem_iff.1 hr)
  · intro r hr
    have hmem : r.resume ∈ (askResults q k resumes).map (fun r => r.resume) :=
      List.mem_map.2 ⟨r, hperm.mem_iff.1 hr, rfl⟩
    rw [hmap] at hmem
    obtain ⟨_, _, _, _, _, hsorted⟩ :=
      findSimilarChunks_ordered q r.resume.chunks k (hsim r.resume (List.mem_filter.1 hmem).1)
    exact hsorted
  · have hsorted := sortBy_key_pairwise (fun r : AskResult => r.score)
      (askResults q k resumes) hnan
    refine List.Pairwise.imp_of_mem ?_ hsorted
    intro a b ha hb hab
    exact F64.ge_of_not_lt (hnan' a ha) (hnan' b hb) hab
  · show (askResults q k resumes).length = _
    rw [length_sortBy]

/-- Counterexample to C26 as stated: for the query embedding `[1, 0]` and
`minScore = 80`, a resume whose best chunk has a cosine similarity of about
`0.797`, below `80 / 100`, is in the results with the score 80; and for the
query embedding `[1]` and `minScore = 0` a resume whose only chunk has the
similarity `-1`, below `0 / 100`, is in the results with the score 0. -/
theorem searchResumes_admits_below_threshold :
    (searchResumes [F64.ofNat 1, F64.ofNat 0] [nearEightyResume] (F64.ofNat 80)).map
        (fun r => (r.resume.id, r.score)) = [(1, F64.ofNat 80)] ∧
      F64.lt (computeCosineSimilarity [F64.ofNat 1, F64.ofNat 0] [F64.ofNat 400, F64.ofNat 303])
        (F64.div (F64.ofNat 80) (F64.ofNat 100)) = true ∧
      (searchResumes [F64.ofNat 1] [oppositeResume] F64.zero).map
        (fun r => (r.resume.id, r.score)) = [(2, F64.zero)] ∧
      F64.lt (computeCosineSimilarity [F64.ofNat 1] oppositeChunk.embedding)
        (F64.div F64.zero (F64.ofNat 100)) = true := by
  decide!

/-- C26, amended: the results of `searchResumes` are the resumes of the fetched
page whose score is at least `minScore`, in non-increasing order of score;
the score of a resume is `Math.round(100 * best)`, where `best` is the
highest cosine similarity between the query and a chunk of the resume when
that is greater than 0, and 0 otherwise. -/
theorem searchResumes_spec (q : List F64) (resumes : List Resume) (minScore : F64) :
    ((searchResumes q resumes minScore).map (fun r => r.resume)).Perm
        (resumes.filter (fun r => F64.ge (searchScore q r) minScore)) ∧
      (∀ r ∈ searchResumes q resumes minScore,
        r.score = searchScore q r.resume ∧ F64.ge r.score minScore = true) ∧
      (searchResumes q resumes minScore).Pairwise (fun a b => F64.ge a.score b.score = true) ∧
      (∀ r : Resume,
        searchScore q r =
            F64.mathRound (F64.mul (F64.ofNat 100) (searchBest q r.chunks).1) ∧
          ((searchBest q r.chunks).1 = F64.zero ∨
            (F64.gt (searchBest q r.chunks).1 F64.zero = true ∧
              IsHighest (searchBest q r.chunks).1
                (r.chunks.map (fun c => computeCosineSimilarity q c.embedding)))) ∧
          ((searchBest q r.chunks).1 = F64.zero ↔
            ∀ c ∈ r.chunks, F64.gt (computeCosineSimilarity q c.embedding) F64.zero = false)) := by
  obtain ⟨hmap, hall⟩ := searchResults_spec q minScore resumes
  have hperm := perm_sortBy bySearchScoreDesc (searchResults q minScore resumes)
  have hnan : ∀ r ∈ searchResults q minScore resumes, F64.isNaN r.score = false :=
    fun r hr => F64.ge_not_nan (hall r hr).2
  refine ⟨?_, ?_, ?_, ?_⟩
  · rw [← hmap]
    exact hperm.map _
  · intro r hr
    exact hall r (hperm.mem_iff.1 hr)
  · have hsorted := sortBy_key_pairwise (fun r : SearchResult => r.score)
      (searchResults q minScore resumes) hnan
    refine List.Pairwise.imp_of_mem ?_ hsorted
    intro a b ha hb hab
    exact F64.ge_of_not_lt (hnan a (hperm.mem_iff.1 ha)) (hnan b (hperm.mem_iff.1 hb)) hab
  · intro r
    obtain ⟨_, _, h3, _⟩ := bestMatchLoop_spec q r.chunks F64.zero none (by decide)
    have h4 := bestMatchLoop_gt q r.chunks F64.zero none
    have hbest : searchBest q r.chunks = bestMatchLoop q r.chunks (F64.zero, none) := rfl
    rw [← hbest] at h3 h4
    refine ⟨?_, ?_, ?_⟩
    · unfold searchScore
      rw [F64.mul_symm]
    · rcases h4 with h0 | ⟨hgt, c, hc, he⟩
      · left; rw [h0]
      · right
        refine ⟨hgt, ?_, ?_⟩
        · rw [he]
          exact List.mem_map.2 ⟨c, hc, rfl⟩
        · intro s hs
          obtain ⟨c', hc', rfl⟩ := List.mem_map.1 hs
          exact h3 c' hc'
    · constructor
      · intro hz c hc
        have := h3 c hc
        rw [hz] at this
        exact this
      · intro hall
        rcases h4 with h0 | ⟨hgt, c, hc, he⟩
        · rw [h0]
        · rw [he] at hgt
          rw [hall c hc] at hgt
          exact absurd hgt (by simp)

/-! ## Facts about the cut of a chunk -/

/-- Where `lastIndexOf` returns `-1` the code unit does not occur. -/
theorem lastIndexOf_absent : ∀ (s : JSString) (c : Nat),
    lastIndexOf s c = -1 → ∀ j : Nat, s[j]? ≠ some c := by
  intro s c
  induction s with
  | nil => intro _ j; simp
  | cons x xs ih =>
    intro h j
    unfold lastIndexOf at h
    simp only at h
    have hb := lastIndexOf_bounds xs c
    by_cases h0 : 0 ≤ lastIndexOf xs c
    · rw [if_pos h0] at h; omega
    · rw [if_neg h0] at h
      by_cases hx : x = c
      · rw [if_pos hx] at h; omega
      · cases j with
        | zero =>
          simp only [List.getElem?_cons_zero, ne_eq, Option.some.injEq]
          exact hx
        | succ j =>
          rw [List.getElem?_cons_succ]
          exact ih (by omega) j

/-- A non-negative result of `lastIndexOf` is the last occurrence of the code
unit. -/
theorem lastIndexOf_isLast : ∀ (s : JSString) (c : Nat),
    0 ≤ lastIndexOf s c → IsLastOccurrence s c (lastIndexOf s c).toNat := by
  intro s c
  induction s with
  | nil => intro h; simp [lastIndexOf] at h
  | cons x xs ih =>
    intro h
    unfold lastIndexOf at h ⊢
    simp only at h ⊢
    have hb := lastIndexOf_bounds xs c
    by_cases h0 : 0 ≤ lastIndexOf xs c
    · rw [if_pos h0]
      obtain ⟨h1, h2⟩ := ih h0
      have hto : (lastIndexOf xs c + 1).toNat = (lastIndexOf xs c).toNat + 1 := by omega
      rw [hto]
      refine ⟨by rw [List.getElem?_cons_succ]; exact h1, ?_⟩
      intro j hj
      cases j with
      | zero => omega
      | succ j =>
        rw [List.getElem?_cons_succ]
        exact h2 j (by omega)
    · rw [if_neg h0] at h ⊢
      by_cases hx : x = c
      · rw [if_pos hx]
        refine ⟨by simp [hx], ?_⟩
        intro j hj
        cases j with
        | zero => simp at hj
        | succ j =>
          rw [List.getElem?_cons_succ]
          exact lastIndexOf_absent xs c (by omega) j
      · rw [if_neg hx] at h; omega

/-- The last occurrence of a code unit is the index that `lastIndexOf`
returns. -/
theorem lastIndexOf_of_isLast (s : JSString) (c i : Nat) (h : IsLastOccurrence s c i) :
    lastIndexOf s c = (i : Int) := by
  have hb := lastIndexOf_bounds s c
  by_cases h0 : 0 ≤ lastIndexOf s c
  · obtain ⟨h1, h2⟩ := lastIndexOf_isLast s c h0
    rcases Nat.lt_trichotomy i (lastIndexOf s c).toNat with hlt | heq | hgt
    · exact absurd h1 (h.2 _ hlt)
    · omega
    · exact absurd h.1 (h2 _ hgt)
  · exact absurd h.1 (lastIndexOf_absent s c (by omega) i)

theorem jsSlice_zero_eq_take (s : JSString) (b : Int) (hb : 0 ≤ b) :
    jsSlice s 0 b = s.take b.toNat := by
  unfold jsSlice
  simp only
  have h1 : ¬ ((0 : Int) < 0) := by omega
  have h2 : ¬ (b < 0) := by omega
  rw [if_neg h1, if_neg h2]
  have h3 : min (0 : Int) (s.length : Int) = 0 := by omega
  rw [h3]
  simp only [Int.toNat_zero, List.drop_zero, sub_zero]
  by_cases hle : b ≤ s.length
  · rw [min_eq_left hle]
  · have hlen : s.length ≤ b.toNat := by omega
    rw [min_eq_right (by omega), Int.toNat_ofNat, List.take_of_length_le (le_refl _),
      List.take_of_length_le hlen]

theorem jsSlice_eq_scanWindow (text : JSString) (chunkSize start : Nat)
    (h : start + chunkSize ≤ text.length) :
    jsSlice text (start : Int) ((start : Int) + (chunkSize : Int)) =
      scanWindow text chunkSize start := by
  unfold jsSlice scanWindow
  simp only
  have h1 : ¬ ((start : Int) < 0) := by omega
  have h2 : ¬ ((start : Int) + (chunkSize : Int) < 0) := by omega
  rw [if_neg h1, if_neg h2, min_eq_left (by omega), min_eq_left (by omega)]
  have h3 : ((start : Int) + (chunkSize : Int) - (start : Int)).toNat = chunkSize := by omega
  rw [h3, Int.toNat_ofNat]

/-- The pushed chunk for a window that stops before the end of the text, in
terms of the window. -/
theorem chunkWindow_eq (text : JSString) (chunkSize start : Nat)
    (h : start + chunkSize < text.length) :
    chunkWindow text chunkSize (start : Int) =
      if F64.gt (F64.ofInt (lastIndexOf (scanWindow text chunkSize start) 46))
          (F64.mul (F64.ofNat chunkSize) F64.lit07) = true then
        (scanWindow text chunkSize start).take
          (lastIndexOf (scanWindow text chunkSize start) 46 + 1).toNat
      else if F64.gt (F64.ofInt (lastIndexOf (scanWindow text chunkSize start) 32))
          (F64.mul (F64.ofNat chunkSize) F64.lit08) = true then
        (scanWindow text chunkSize start).take
          (lastIndexOf (scanWindow text chunkSize start) 32).toNat
      else scanWindow text chunkSize start := by
  have hstop : min ((start : Int) + (chunkSize : Int)) (text.length : Int) =
      (start : Int) + (chunkSize : Int) := min_eq_left (by omega)
  unfold chunkWindow
  simp only
  rw [hstop, if_pos (by omega), jsSlice_eq_scanWindow text chunkSize start (by omega)]
  have hb46 := lastIndexOf_bounds (scanWindow text chunkSize start) 46
  by_cases h46 : F64.gt (F64.ofInt (lastIndexOf (scanWindow text chunkSize start) 46))
      (F64.mul (F64.ofNat chunkSize) F64.lit07) = true
  · rw [if_pos h46, if_pos h46, jsSlice_zero_eq_take _ _ (by omega)]
  · rw [if_neg h46, if_neg h46]
    by_cases h32 : F64.gt (F64.ofInt (lastIndexOf (scanWindow text chunkSize start) 32))
        (F64.mul (F64.ofNat chunkSize) F64.lit08) = true
    · have hp := F64.pos_of_gt_mul_ofNat _ _ _ h32
      rw [if_pos h32, if_pos h32, jsSlice_zero_eq_take _ _ (by omega)]
    · rw [if_neg h32, if_neg h32]

/-- The index that `lastIndexOf` returns passes a threshold test only if it is
a last occurrence that passes the test. -/
theorem lastIndexOf_gt_threshold (s : JSString) (c chunkSize lit : Nat)
    (hno : ∀ p : Nat, IsLastOccurrence s c p →
      F64.gt (F64.ofNat p) (F64.mul (F64.ofNat chunkSize) (F64.fin false lit)) = false) :
    ¬ F64.gt (F64.ofInt (lastIndexOf s c))
      (F64.mul (F64.ofNat chunkSize) (F64.fin false lit)) = true := by
  intro hgt
  have hp := F64.pos_of_gt_mul_ofNat _ _ _ hgt
  have hlast := lastIndexOf_isLast s c (by omega)
  have hcast : lastIndexOf s c = ((lastIndexOf s c).toNat : Int) := by omega
  have := hno _ hlast
  rw [hcast] at hgt
  have hof : F64.ofInt (((lastIndexOf s c).toNat : Nat) : Int) =
      F64.ofNat (lastIndexOf s c).toNat := rfl
  rw [hof, this] at hgt
  exact absurd hgt (by simp)

/-! ## Claims about the cut of a chunk in `chunkText` -/

/-- Counterexample to C27 as stated: in the text `abcdefghi`, line feed, `jkl`
with `chunkSize = 10` the window does not reach the end of the text and has
no full stop; its last white space character, the line feed at index 9, lies
beyond 80% of the window; but the chunk is the whole window of 10 code
units, it does not end at the line feed. -/
theorem chunkWindow_ignores_line_feed :
    0 + 10 < lineFeedText.length ∧
      (∀ c ∈ scanWindow lineFeedText 10 0, c ≠ 46) ∧
      (scanWindow lineFeedText 10 0)[9]? = some 10 ∧ isWhiteSpace 10 = true ∧
      F64.gt (F64.ofNat 9) (F64.mul (F64.ofNat 10) F64.lit08) = true ∧
      chunkWindow lineFeedText 10 0 = scanWindow lineFeedText 10 0 ∧
      (chunkWindow lineFeedText 10 0).length = 10 ∧
      chunkWindow lineFeedText 10 0 ≠ (scanWindow lineFeedText 10 0).take 9 := by
  decide!

/-- C27, amended: when the window of `chunkSize` code units that starts at the
scan position stops before the end of the text, the pushed chunk is the
window up to and including its last full stop if the index of that full stop
is greater than `chunkSize * 0.7`; otherwise it is the window up to, and
without, its last space character (U+0020) if the index of that space is
greater than `chunkSize * 0.8`; otherwise it is the whole window, of
`chunkSize` code units. -/
theorem chunkWindow_cut (text : JSString) (chunkSize start : Nat)
    (h : start + chunkSize < text.length) :
    (scanWindow text chunkSize start).length = chunkSize ∧
      (∀ i : Nat, IsLastOccurrence (scanWindow text chunkSize start) 46 i →
        F64.gt (F64.ofNat i) (F64.mul (F64.ofNat chunkSize) F64.lit07) = true →
        chunkWindow text chunkSize (start : Int) =
          (scanWindow text chunkSize start).take (i + 1)) ∧
      (∀ i : Nat,
        (∀ p : Nat, IsLastOccurrence (scanWindow text chunkSize start) 46 p →
          F64.gt (F64.ofNat p) (F64.mul (F64.ofNat chunkSize) F64.lit07) = false) →
        IsLastOccurrence (scanWindow text chunkSize start) 32 i →
        F64.gt (F64.ofNat i) (F64.mul (F64.ofNat chunkSize) F64.lit08) = true →
        chunkWindow text chunkSize (start : Int) = (scanWindow text chunkSize start).take i) ∧
      ((∀ p : Nat, IsLastOccurrence (scanWindow text chunkSize start) 46 p →
          F64.gt (F64.ofNat p) (F64.mul (F64.ofNat chunkSize) F64.lit07) = false) →
        (∀ p : Nat, IsLastOccurrence (scanWindow text chunkSize start) 32 p →
          F64.gt (F64.ofNat p) (F64.mul (F64.ofNat chunkSize) F64.lit08) = false) →
        chunkWindow text chunkSize (start : Int) = scanWindow text chunkSize start) := by
  have hofInt : ∀ n : Nat, F64.ofInt (n : Int) = F64.ofNat n := fun _ => rfl
  refine ⟨?_, ?_, ?_, ?_⟩
  · unfold scanWindow
    rw [List.length_take, List.length_drop]
    omega
  · intro i hi hgt
    rw [chunkWindow_eq text chunkSize start h, lastIndexOf_of_isLast _ _ _ hi, hofInt,
      if_pos hgt]
    congr 1
  · intro i hno hi hgt
    have h46 : ¬ F64.gt (F64.ofInt (lastIndexOf (scanWindow text chunkSize start) 46))
        (F64.mul (F64.ofNat chunkSize) F64.lit07) = true :=
      lastIndexOf_gt_threshold _ 46 chunkSize _ hno
    rw [chunkWindow_eq text chunkSize start h, if_neg h46,
      lastIndexOf_of_isLast _ _ _ hi, hofInt, if_pos hgt]
    congr 1
  · intro hno46 hno32
    have h46 : ¬ F64.gt (F64.ofInt (lastIndexOf (scanWindow text chunkSize start) 46))
        (F64.mul (F64.ofNat chunkSize) F64.lit07) = true :=
      lastIndexOf_gt_threshold _ 46 chunkSize _ hno46
    have h32 : ¬ F64.gt (F64.ofInt (lastIndexOf (scanWindow text chunkSize start) 32))
        (F64.mul (F64.ofNat chunkSize) F64.lit08) = true :=
      lastIndexOf_gt_threshold _ 32 chunkSize _ hno32
    rw [chunkWindow_eq text chunkSize start h, if_neg h46, if_neg h32]

/-- Witness of C27: in the text `abcdefgh. jklmnop` with `chunkSize = 10` the
last full stop of the first window has the index 8, beyond `10 * 0.7`, and
the chunk is `abcdefgh.`. -/
theorem chunkWindow_cut_witness :
    0 + 10 < sentenceText.length ∧
      chunkWindow sentenceText 10 ((0 : Nat) : Int) = (scanWindow sentenceText 10 0).take (8 + 1) ∧
      (scanWindow sentenceText 10 0).take (8 + 1) = js "abcdefgh." :=
  ⟨by decide,
    (chunkWindow_cut sentenceText 10 0 (by decide)).2.1 8
      (by
        have hl := lastIndexOf_isLast (scanWindow sentenceText 10 0) 46 (by decide)
        have h8 : (lastIndexOf (scanWindow sentenceText 10 0) 46).toNat = 8 := by decide
        rw [h8] at hl
        exact hl)
      (by decide!),
    by decide⟩

/-! ## The evidence of `matchJob` -/

/-- The loop over the job chunks appends to `evidence`, in the order of the job
chunks, one item for every job chunk whose best similarity passes the
threshold. -/
theorem matchLoop_evidence (B : Builtins) (resumeChunks : List StoredChunk) :
    ∀ (jobChunks : List StoredChunk) (acc : MatchAcc),
      (matchLoop B resumeChunks jobChunks acc).evidence =
        acc.evidence ++
          (jobChunks.filter
            (fun j => F64.gt (bestMatch j.embedding resumeChunks).1 F64.lit03)).map
            (fun j => evidenceItem B (bestMatch j.embedding resumeChunks).1
              (bestMatch j.embedding resumeChunks).2) := by
  intro jobChunks
  induction jobChunks with
  | nil => intro acc; simp [matchLoop]
  | cons j rest ih =>
    intro acc
    unfold matchLoop
    simp only
    by_cases hgt : F64.gt (bestMatch j.embedding resumeChunks).1 F64.lit03 = true
    · rw [if_pos hgt]
      refine (ih _).trans ?_
      rw [List.filter_cons, if_pos hgt, List.map_cons, List.append_assoc]
      rfl
    · rw [if_neg hgt]
      refine (ih _).trans ?_
      rw [List.filter_cons, if_neg hgt]

/-- Every element of `matches` carries the first five evidence items of its
resume. -/
theorem collectMatches_evidence (B : Builtins) (job : Job) :
    ∀ resumes : List Resume, ∀ e ∈ collectMatches B job resumes,
      e.evidence = (matchAcc B job e.resume).evidence.take 5 := by
  intro resumes
  induction resumes with
  | nil => intro e he; simp [collectMatches] at he
  | cons r rest ih =>
    intro e he
    unfold collectMatches at he
    split_ifs at he
    · rcases List.mem_cons.1 he with rfl | he'
      · rfl
      · exact ih e he'
    · exact ih e he

/-- C28: the evidence of a match of `matchJob` is the first 5 items, in the
order of the job chunks, of the list that has one item for every job chunk
whose best similarity exceeds `0.3`; the item of such a job chunk carries
the text of a resume chunk of the highest similarity to it and the
similarity `Math.round(100 * best)`.  For a job whose first five chunks
have the best similarity `0.6` and whose sixth has the best similarity 1 the
evidence holds the five items of the similarity 60. -/
theorem matchJob_evidence (B : Builtins) (job : Job) (resumes : List Resume) (topN : Nat) :
    (∀ e ∈ (matchJob B job resumes topN).topMatches,
        e.evidence =
          ((job.chunks.filter
            (fun j => F64.gt (bestMatch j.embedding e.resume.chunks).1 F64.lit03)).map
            (fun j => evidenceItem B (bestMatch j.embedding e.resume.chunks).1
              (bestMatch j.embedding e.resume.chunks).2)).take 5) ∧
      (∀ (resume : Resume) (j : StoredChunk),
        F64.gt (bestMatch j.embedding resume.chunks).1 F64.lit03 = true →
        ∃ r ∈ resume.chunks,
          IsHighest (computeCosineSimilarity j.embedding r.embedding)
            (resume.chunks.map (fun c => computeCosineSimilarity j.embedding c.embedding)) ∧
          (evidenceItem B (bestMatch j.embedding resume.chunks).1
            (bestMatch j.embedding resume.chunks).2).text = r.text ∧
          (evidenceItem B (bestMatch j.embedding resume.chunks).1
            (bestMatch j.embedding resume.chunks).2).similarity =
            F64.mathRound (F64.mul (F64.ofNat 100)
              (computeCosineSimilarity j.embedding r.embedding))) ∧
      (matchJob asciiBuiltins sixChunkJob [unitResume] 10).topMatches.map
          (fun e => e.evidence.map (fun item => item.similarity)) =
        [[F64.ofNat 60, F64.ofNat 60, F64.ofNat 60, F64.ofNat 60, F64.ofNat 60]] := by
  refine ⟨?_, ?_, by decide!⟩
  · intro e he
    have hmem : e ∈ collectMatches B job resumes :=
      (perm_sortBy byScoreDesc _).mem_iff.1 (List.mem_of_mem_take he)
    rw [collectMatches_evidence B job resumes e hmem]
    unfold matchAcc
    rw [matchLoop_evidence]
    rfl
  · intro resume j hgt
    obtain ⟨⟨r, hr, he⟩, hhigh⟩ := bestMatch_of_gt j.embedding resume.chunks hgt
    refine ⟨r, hr, ?_, ?_, ?_⟩
    · rw [he] at hhigh; exact hhigh
    · rw [he]; rfl
    · rw [he]
      show F64.mathRound (F64.mul _ (F64.ofNat 100)) = _
      rw [F64.mul_symm]

/-! ## Claims about `checkEligibility`: experience status and unlisted education -/

/-- C29 fails on the code: with 400 years required and a candidate of 399
years the experience score `Math.round((399 / 400) * 100)` is 100, so the
experience status is `pass`, while `399 < 400` records the entry
`Insufficient experience` in `missingRequirements` and makes the candidate
not eligible. -/
theorem experience_pass_with_shortfall :
    F64.gt fourHundredYearsRequest.minExperience F64.zero = true ∧
      F64.ge (F64.orZero almostResume.experience) fourHundredYearsRequest.minExperience = false ∧
      (checkEligibility asciiBuiltins fourHundredYearsRequest almostResume).criteria.experience =
        { status := Status.pass, score := F64.ofNat 100 } ∧
      (checkEligibility asciiBuiltins fourHundredYearsRequest almostResume).missingRequirements =
        [js "Insufficient experience: 399 years (required: 400)"] ∧
      (checkEligibility asciiBuiltins fourHundredYearsRequest almostResume).isEligible = false := by
  decide!

/-- C30: for a required education that is not empty and is none of
`high-school`, `associate`, `bachelor`, `master`, `phd` (such as `none`),
and for every resume, the education criterion has the status `fail` and the
score 0, the entry `Education requirement not met` with the required string
is in `missingRequirements`, and `isEligible` is false. -/
theorem unlisted_education_fails (B : Builtins) (req : EligibilityRequest) (resume : Resume)
    (hreq : req.requiredEducation ≠ [])
    (hout : req.requiredEducation ∉ educationLevels) :
    (checkEligibility B req resume).criteria.education =
        { status := Status.fail, score := F64.zero } ∧
      (js "Education requirement not met: " ++ req.requiredEducation) ∈
        (checkEligibility B req resume).missingRequirements ∧
      (checkEligibility B req resume).isEligible = false := by
  have hkw : educationKeywords req.requiredEducation = [] := by
    unfold educationLevels at hout
    simp only [List.mem_cons, List.mem_singleton, List.not_mem_nil, or_false, not_or] at hout
    unfold educationKeywords
    rw [if_neg hout.1, if_neg hout.2.1, if_neg hout.2.2.1, if_neg hout.2.2.2.1,
      if_neg hout.2.2.2.2]
  have hany : resume.education.any (educationHit B req.requiredEducation) = false := by
    rw [List.any_eq_false]
    intro edu _ hhit
    obtain ⟨kw, hkwmem, _⟩ := (educationHit_iff B req.requiredEducation edu).1 hhit
    rw [hkw] at hkwmem
    exact absurd hkwmem (List.not_mem_nil kw)
  have hloop : educationLoop B req.requiredEducation resume.education (false, F64.zero) =
      (false, F64.zero) := by
    rw [educationLoop_eq, hany]
    simp
  have hedu : checkEducation B req resume =
      ({ status := Status.fail, score := F64.zero },
        [js "Education requirement not met: " ++ req.requiredEducation]) := by
    unfold checkEducation
    rw [if_pos hreq, hloop]
    simp
  have hmem : (js "Education requirement not met: " ++ req.requiredEducation) ∈
      (checkEligibility B req resume).missingRequirements := by
    show _ ∈ eligibilityMissing B req resume
    unfold eligibilityMissing
    rw [hedu]
    simp
  refine ⟨?_, hmem, ?_⟩
  · show (checkEducation B req resume).1 = _
    rw [hedu]
  · have hne : (checkEligibility B req resume).missingRequirements ≠ [] :=
      List.ne_nil_of_mem hmem
    simp only [checkEligibility, Bool.and_eq_false_iff, beq_eq_false_iff_ne, ne_eq,
      List.length_eq_zero] at hne ⊢
    exact Or.inr hne

/-- Witness of C30: the required education `none` against the sample resume,
which has a Bachelor degree, gives the status `fail`, the score 0 and the
entry `Education requirement not met: none`. -/
theorem unlisted_education_fails_witness :
    noneEducationRequest.requiredEducation ≠ [] ∧
      noneEducationRequest.requiredEducation ∉ educationLevels ∧
      (checkEligibility asciiBuiltins noneEducationRequest sampleResume).criteria.education =
        { status := Status.fail, score := F64.zero } ∧
      (js "Education requirement not met: none") ∈
        (checkEligibility asciiBuiltins noneEducationRequest sampleResume).missingRequirements ∧
      (checkEligibility asciiBuiltins noneEducationRequest sampleResume).isEligible = false :=
  ⟨by decide, by decide,
    unlisted_education_fails asciiBuiltins noneEducationRequest sampleResume (by decide)
      (by decide)⟩

end RagResume
